import Mathlib

/-!
Verification of the maze-solver repository (src/cell.py, src/maze.py, src/main.py).

The development shallowly embeds the maze data model and the two algorithms that
operate on it: randomized recursive-backtracking generation (Maze._break_walls_r)
and depth-first-search solving with backtrack-undo (Maze._solve_r).

Modelling conventions:
* Python cells are mutable objects stored in a row-major list of lists; here a cell
  is an immutable record and mutation is modelled by functional update of the list
  of lists (each cell object occurs exactly once in the grid, so this is faithful).
* The floating-point geometry (x1, y1, cell sizes, pixel coordinates) is presentation
  state that no claim depends on; a cell's four coordinate fields are modelled by a
  single flag `drawn` that records whether Cell.draw has assigned them.  The window
  itself is modelled by the boolean `Maze.win` (whether a window is attached); the
  drawing sink receives events which the solver returns as a trace.
* Python's global random generator is modelled by an abstract stream of naturals
  `rng : Nat -> Nat` together with a draw counter; `random.choice(seq)` performs one
  draw `rng k` and selects index `rng k % seq.length`, and `random.seed(s)` replaces
  the stream by `seedFn s` and resets the counter.  All theorems are parametric in
  the streams, so they hold for every seed of the real generator.
* Unbounded Python recursion is modelled with a fuel parameter; running out of fuel
  yields `none`.  Sufficiency lemmas show the fuel supplied by the constructor and
  by `solve` never runs out.
* List indexing that Python performs without a bounds check (`self._cells[0][0]`)
  is modelled with Python's actual indexing semantics (IndexError becomes `none`,
  negative indices wrap), so that construction on non-positive dimensions fails
  exactly where the source raises.
-/

namespace MazeSolver

/-- Cell, from src/cell.py lines 29-48 (Cell.__init__): four wall flags, all true at
creation, and a visitation flag, false at creation.  The field `drawn` models whether
the coordinate fields `_x1 .. _y2` have been assigned by Cell.draw (their float values
are presentation-only and are not modelled). -/
structure Cell where
  has_left_wall : Bool
  has_right_wall : Bool
  has_top_wall : Bool
  has_bottom_wall : Bool
  visited : Bool
  drawn : Bool
deriving DecidableEq, Repr

/-- A freshly constructed cell: fully walled, unvisited, not yet drawn
(src/cell.py lines 39-47). -/
def Cell.new : Cell :=
  { has_left_wall := true, has_right_wall := true, has_top_wall := true,
    has_bottom_wall := true, visited := false, drawn := false }

/-- The four direction tokens used by src/maze.py.  The source represents them as the
strings "up", "down", "left", "right"; the ValueError arm of _has_wall_in_direction is
unreachable once directions are this enumeration. -/
inductive Direction where
  | up
  | down
  | left
  | right
deriving DecidableEq, Repr

/-- DIRECTIONS, from src/maze.py line 15:
[("down", 1, 0), ("right", 0, 1), ("up", -1, 0), ("left", 0, -1)],
each entry being (direction, dy, dx). -/
def DIRECTIONS : List (Direction × Int × Int) :=
  [(Direction.down, 1, 0), (Direction.right, 0, 1),
   (Direction.up, -1, 0), (Direction.left, 0, -1)]

/-- The (dy, dx) delta of each direction, as in DIRECTIONS. -/
def dirDelta : Direction → Int × Int
  | Direction.down => (1, 0)
  | Direction.right => (0, 1)
  | Direction.up => (-1, 0)
  | Direction.left => (0, -1)

/-- Maze, from src/maze.py lines 18-74: dimensions, the row-major grid of cells, and
whether a graphical window is attached (self._win is not None).  The float fields
x1, y1, cell_size_x, cell_size_y only feed the unmodelled pixel geometry. -/
structure Maze where
  num_rows : Int
  num_cols : Int
  cells : List (List Cell)
  win : Bool
deriving DecidableEq, Repr

/-- Read the cell at row i, column j (Python `self._cells[i][j]` at indices the source
has already bounds-checked; out of range it returns a default never relied upon). -/
def getCell (m : Maze) (i j : Nat) : Cell :=
  (m.cells.getD i []).getD j Cell.new

/-- Replace the cell at row i, column j; models in-place mutation of the cell object
stored there (no-op out of range, which the algorithms never do). -/
def setCell (m : Maze) (i j : Nat) (c : Cell) : Maze :=
  { m with cells := m.cells.set i ((m.cells.getD i []).set j c) }

/-- Well-formedness of the grid: the list of lists has exactly num_rows rows of
num_cols cells each (what Maze._create_cells establishes, src/maze.py 161-171). -/
def WF (m : Maze) : Prop :=
  m.cells.length = m.num_rows.toNat ∧
    ∀ row ∈ m.cells, row.length = m.num_cols.toNat

/-- Mark the cell at (i, j) visited (`current_cell.visited = True`,
src/maze.py lines 139 and 235). -/
def markVisited (m : Maze) (i j : Nat) : Maze :=
  setCell m i j { getCell m i j with visited := true }

/-- Maze._draw_cell (src/maze.py 176-194): when a window is attached this calls
Cell.draw, which assigns the cell's coordinates (modelled by `drawn := true`) and
paints its walls; with no window it does nothing. -/
def draw_cell (m : Maze) (i j : Nat) : Maze :=
  if m.win then setCell m i j { getCell m i j with drawn := true } else m

/-- One match arm of Maze._break_walls_r (src/maze.py 252-264): open the wall between
the current cell (i, j) and the adjacent cell in direction d, on both cells.  The
target indices are the source's `i + dy, j + dx`; call sites have bounds-checked them. -/
def openPassage (m : Maze) (i j : Nat) (d : Direction) : Maze :=
  let ni : Nat := ((i : Int) + (dirDelta d).1).toNat
  let nj : Nat := ((j : Int) + (dirDelta d).2).toNat
  match d with
  | Direction.up =>
    let m1 := setCell m i j { getCell m i j with has_top_wall := false }
    setCell m1 ni nj { getCell m1 ni nj with has_bottom_wall := false }
  | Direction.down =>
    let m1 := setCell m i j { getCell m i j with has_bottom_wall := false }
    setCell m1 ni nj { getCell m1 ni nj with has_top_wall := false }
  | Direction.left =>
    let m1 := setCell m i j { getCell m i j with has_left_wall := false }
    setCell m1 ni nj { getCell m1 ni nj with has_right_wall := false }
  | Direction.right =>
    let m1 := setCell m i j { getCell m i j with has_right_wall := false }
    setCell m1 ni nj { getCell m1 ni nj with has_left_wall := false }

/-- The to_visit list of Maze._break_walls_r (src/maze.py 237-245): the directions,
in DIRECTIONS order, whose neighbour is in bounds and unvisited. -/
def to_visit_list (m : Maze) (i j : Nat) : List (Direction × Int × Int) :=
  DIRECTIONS.filter fun c =>
    let ny : Int := (i : Int) + c.2.1
    let nx : Int := (j : Int) + c.2.2
    decide (0 ≤ nx) && decide (nx < m.num_cols) &&
      decide (0 ≤ ny) && decide (ny < m.num_rows) &&
      !(getCell m ny.toNat nx.toNat).visited

/-- random.choice(seq) (src/maze.py 250): one draw from the abstract stream selects
an element of the non-empty list. -/
def randomChoice (rng : Nat → Nat) (k : Nat) (l : List (Direction × Int × Int)) :
    Direction × Int × Int :=
  l.getD (rng k % l.length) (Direction.up, -1, 0)

/-- Maze._break_walls_r (src/maze.py 222-266), fuelled.  The boolean mode is `true`
when entering a cell (mark it visited, line 235) and `false` while running the
`while True` loop (lines 236-266): recompute to_visit; if empty draw the cell and
return; otherwise draw one random choice, open the shared wall on both cells,
draw the current cell, recurse into the neighbour, and continue the loop.
Returns the final state and the updated draw counter, or `none` on fuel exhaustion
(which sufficient fuel rules out). -/
def break_walls_r (rng : Nat → Nat) :
    Nat → Bool → Maze → Nat → Nat → Nat → Option (Maze × Nat)
  | 0, _, _, _, _, _ => none
  | fuel + 1, true, st, k, i, j =>
    break_walls_r rng fuel false (markVisited st i j) k i j
  | fuel + 1, false, st, k, i, j =>
    let tv := to_visit_list st i j
    if tv.isEmpty then some (draw_cell st i j, k)
    else
      let c := randomChoice rng k tv
      let st1 := openPassage st i j c.1
      let st2 := draw_cell st1 i j
      let ni : Nat := ((i : Int) + c.2.1).toNat
      let nj : Nat := ((j : Int) + c.2.2).toNat
      match break_walls_r rng fuel true st2 (k + 1) ni nj with
      | none => none
      | some (st3, k2) => break_walls_r rng fuel false st3 k2 i j

/-- An event sent to the presentation sink by the solver: a full-window redraw
(Maze._animate, src/maze.py 196-205) or a move line between two cell centres
(Cell.draw_move, src/cell.py 80-104), forward or undo. -/
inductive SolveEvent where
  | redraw
  | move (i j ni nj : Nat) (undo : Bool)
deriving DecidableEq, Repr

/-- Events emitted by Maze._animate: a redraw when a window is attached, nothing
otherwise (the time.sleep pause is wall-clock only and is not modelled). -/
def animateEvents (m : Maze) : List SolveEvent :=
  if m.win then [SolveEvent.redraw] else []

/-- Events emitted by Cell.draw_move from cell (i, j) to cell (ni, nj): a move line
when a window is attached, nothing otherwise.  The coordinates-not-defined exception
is unreachable in the modelled flows (construction with a window draws every cell)
and is not modelled. -/
def moveEvents (m : Maze) (i j ni nj : Nat) (undo : Bool) : List SolveEvent :=
  if m.win then [SolveEvent.move i j ni nj undo] else []

/-- Maze._has_wall_in_direction (src/maze.py 102-125). -/
def has_wall_in_direction (c : Cell) (d : Direction) : Bool :=
  match d with
  | Direction.up => c.has_top_wall
  | Direction.down => c.has_bottom_wall
  | Direction.left => c.has_left_wall
  | Direction.right => c.has_right_wall

/-- Maze._is_valid_move (src/maze.py 84-100): the target is in bounds and not
visited. -/
def is_valid_move (m : Maze) (i j : Nat) (dy dx : Int) : Bool :=
  let ny : Int := (i : Int) + dy
  let nx : Int := (j : Int) + dx
  if !(decide (0 ≤ ny) && decide (ny < m.num_rows) &&
      decide (0 ≤ nx) && decide (nx < m.num_cols)) then false
  else !(getCell m ny.toNat nx.toNat).visited

/-- Maze._solve_r (src/maze.py 127-159), fuelled.  Mode `none` is entry into a cell:
animate, mark the cell visited, test for the goal; mode `some dirs` is the for-loop
over the remaining directions: skip on wall, skip on invalid move, otherwise emit
the forward move, recurse into the neighbour, propagate success immediately, and on
failure emit the undo move and continue with the remaining directions.  Returns the
result, final state and emitted event trace, or `none` on fuel exhaustion. -/
def solve_go :
    Nat → Option (List (Direction × Int × Int)) → Maze → Nat → Nat →
      Option (Bool × Maze × List SolveEvent)
  | 0, _, _, _, _ => none
  | fuel + 1, none, st, i, j =>
    let tr0 := animateEvents st
    let st1 := markVisited st i j
    if (i : Int) = st1.num_rows - 1 ∧ (j : Int) = st1.num_cols - 1 then
      some (true, st1, tr0)
    else
      match solve_go fuel (some DIRECTIONS) st1 i j with
      | none => none
      | some (b, st2, tr) => some (b, st2, tr0 ++ tr)
  | _fuel + 1, some [], st, _, _ => some (false, st, [])
  | fuel + 1, some (c :: rest), st, i, j =>
    if has_wall_in_direction (getCell st i j) c.1 then
      solve_go fuel (some rest) st i j
    else if !(is_valid_move st i j c.2.1 c.2.2) then
      solve_go fuel (some rest) st i j
    else
      let ni : Nat := ((i : Int) + c.2.1).toNat
      let nj : Nat := ((j : Int) + c.2.2).toNat
      let mv := moveEvents st i j ni nj false
      match solve_go fuel none st ni nj with
      | none => none
      | some (ok, st1, tr1) =>
        if ok then some (true, st1, mv ++ tr1)
        else
          match solve_go fuel (some rest) st1 i j with
          | none => none
          | some (b2, st2, tr2) =>
            some (b2, st2, mv ++ tr1 ++ moveEvents st1 i j ni nj true ++ tr2)

/-- Maze.solve (src/maze.py 76-82): run the recursive solver from (0, 0).  The fuel
is an upper bound on the recursion the Python call performs; sufficiency is proved
below. -/
def Maze.solve (m : Maze) : Option (Bool × Maze × List SolveEvent) :=
  solve_go (6 * (m.num_rows.toNat * m.num_cols.toNat) + 6) none m 0 0

/-- Python list indexing: `l[i]` resolves to offset i for 0 ≤ i < len, wraps negative
indices to len + i when -len ≤ i < 0, and raises (here: none) otherwise. -/
def pyIdx (len : Nat) (i : Int) : Option Nat :=
  if 0 ≤ i then (if i.toNat < len then some i.toNat else none)
  else if (-i).toNat ≤ len then some (len - (-i).toNat) else none

/-- Resolve the pair of Python indices of `self._cells[i][j]`. -/
def pyGet2 (cells : List (List Cell)) (i j : Int) : Option (Nat × Nat) :=
  match pyIdx cells.length i with
  | none => none
  | some ii =>
    match pyIdx (cells.getD ii []).length j with
    | none => none
    | some jj => some (ii, jj)

/-- Maze._break_entrance_and_exit (src/maze.py 207-220): remove the left wall of
cell (0, 0) and redraw it, then remove the right wall of cell
(num_rows - 1, num_cols - 1) and redraw it.  The list indexing raises an IndexError
(here: none) exactly when a dimension is non-positive. -/
def break_entrance_and_exit (mz : Maze) : Option Maze :=
  match pyGet2 mz.cells 0 0 with
  | none => none
  | some p0 =>
    let c0 := getCell mz p0.1 p0.2
    let mz1 := setCell mz p0.1 p0.2 { c0 with has_left_wall := false }
    let mz2 := draw_cell mz1 0 0
    match pyGet2 mz2.cells (mz2.num_rows - 1) (mz2.num_cols - 1) with
    | none => none
    | some pmn =>
      let cmn := getCell mz2 pmn.1 pmn.2
      let mz3 := setCell mz2 pmn.1 pmn.2 { cmn with has_right_wall := false }
      some (draw_cell mz3 pmn.1 pmn.2)

/-- The drawing pass of Maze._create_cells (src/maze.py 173-174): _draw_cell for
every (i, j) in row-major product order. -/
def drawAllCells (m : Maze) : Maze :=
  (List.range m.num_rows.toNat).foldl
    (fun acc i =>
      (List.range m.num_cols.toNat).foldl (fun acc2 j => draw_cell acc2 i j) acc)
    m

/-- Maze._reset_cells_visited (src/maze.py 268-271): set every cell's visited flag
to false. -/
def reset_cells_visited (m : Maze) : Maze :=
  (List.range m.num_rows.toNat).foldl
    (fun acc i =>
      (List.range m.num_cols.toNat).foldl
        (fun acc2 j => setCell acc2 i j { getCell acc2 i j with visited := false })
        acc)
    m

/-- Maze.__init__ (src/maze.py 34-74): seed the generator when a seed is given,
allocate the fully-walled grid and draw it (_create_cells), break entrance and exit,
carve from (0, 0), and reset the visited flags.  Returns none exactly when the
source raises during construction, so no partial Maze escapes. -/
def mkMaze (win : Bool) (num_rows num_cols : Int) (seedFn : Nat → Nat → Nat)
    (rng0 : Nat → Nat) (k0 : Nat) (seed : Option Nat) : Option Maze :=
  let rng : Nat → Nat := match seed with | some s => seedFn s | none => rng0
  let k : Nat := match seed with | some _ => 0 | none => k0
  let m0 : Maze :=
    { num_rows := num_rows, num_cols := num_cols, win := win,
      cells := List.replicate num_rows.toNat (List.replicate num_cols.toNat Cell.new) }
  let m1 := drawAllCells m0
  match break_entrance_and_exit m1 with
  | none => none
  | some m2 =>
    match break_walls_r rng (2 * (num_rows.toNat * num_cols.toNat) + 2) true m2 k 0 0 with
    | none => none
    | some st => some (reset_cells_visited st.1)

/-! ### Basic grid lemmas -/

theorem getD_set_self {α : Type} (l : List α) (i : Nat) (a d : α) (h : i < l.length) :
    (l.set i a).getD i d = a := by
  simp [List.getD, List.getElem?_set_eq_of_lt, h]

theorem getD_set_ne {α : Type} (l : List α) (i i' : Nat) (a d : α) (h : i' ≠ i) :
    (l.set i a).getD i' d = l.getD i' d := by
  simp [List.getD, List.getElem?_set_ne (Ne.symm h)]

theorem getD_oob {α : Type} (l : List α) (i : Nat) (d : α) (h : l.length ≤ i) :
    l.getD i d = d := by
  simp [List.getD, List.getElem?_eq_none h]

theorem getD_mem {α : Type} (l : List α) (i : Nat) (d : α) (h : i < l.length) :
    l.getD i d ∈ l := by
  have : l.getD i d = l[i] := by simp [List.getD, List.getElem?_eq_getElem h]
  rw [this]; exact List.getElem_mem _

/-- The wall-and-visited view of a cell: everything except the presentation flag
`drawn`. -/
def coreCell (c : Cell) : Bool × Bool × Bool × Bool × Bool :=
  (c.has_left_wall, c.has_right_wall, c.has_top_wall, c.has_bottom_wall, c.visited)

/-- The four wall flags of a cell. -/
def wallsCell (c : Cell) : Bool × Bool × Bool × Bool :=
  (c.has_left_wall, c.has_right_wall, c.has_top_wall, c.has_bottom_wall)

@[simp] theorem setCell_num_rows (m : Maze) (i j : Nat) (c : Cell) :
    (setCell m i j c).num_rows = m.num_rows := rfl

@[simp] theorem setCell_num_cols (m : Maze) (i j : Nat) (c : Cell) :
    (setCell m i j c).num_cols = m.num_cols := rfl

@[simp] theorem setCell_win (m : Maze) (i j : Nat) (c : Cell) :
    (setCell m i j c).win = m.win := rfl

theorem WF_setCell {m : Maze} (h : WF m) (i j : Nat) (c : Cell) :
    WF (setCell m i j c) := by
  by_cases hi : i < m.cells.length
  · constructor
    · simpa [setCell] using h.1
    · intro row hrow
      simp only [setCell] at hrow
      rcases List.mem_or_eq_of_mem_set hrow with hmem | heq
      · exact h.2 _ hmem
      · subst heq
        have hmem : m.cells.getD i [] ∈ m.cells := getD_mem _ _ _ hi
        simpa using h.2 _ hmem
  · push_neg at hi
    have : (setCell m i j c).cells = m.cells := by
      simp [setCell, List.set_eq_of_length_le hi]
    constructor
    · rw [this]; exact h.1
    · rw [this]; exact h.2

theorem rowLen_of_WF {m : Maze} (h : WF m) {i : Nat} (hi : i < m.num_rows.toNat) :
    (m.cells.getD i []).length = m.num_cols.toNat := by
  have hlen : i < m.cells.length := by rw [h.1]; exact hi
  exact h.2 _ (getD_mem _ _ _ hlen)

theorem getCell_oob {m : Maze} (h : WF m) {i j : Nat}
    (hij : m.num_rows.toNat ≤ i ∨ m.num_cols.toNat ≤ j) :
    getCell m i j = Cell.new := by
  by_cases hi : i < m.num_rows.toNat
  · rcases hij with hi' | hj
    · omega
    · have hrow := rowLen_of_WF h hi
      unfold getCell
      rw [getD_oob _ _ _ (by omega)]
  · push_neg at hi
    have hlen : m.cells.length ≤ i := by rw [h.1]; exact hi
    unfold getCell
    rw [getD_oob m.cells _ _ hlen]
    rfl

theorem getCell_setCell_self {m : Maze} (h : WF m) {i j : Nat}
    (hi : i < m.num_rows.toNat) (hj : j < m.num_cols.toNat) (c : Cell) :
    getCell (setCell m i j c) i j = c := by
  have hlen : i < m.cells.length := by rw [h.1]; exact hi
  have hrow : j < (m.cells.getD i []).length := by rw [rowLen_of_WF h hi]; exact hj
  unfold getCell setCell
  simp only
  rw [getD_set_self _ _ _ _ (by simpa using hlen), getD_set_self _ _ _ _ hrow]

theorem getCell_setCell_ne (m : Maze) (i j : Nat) (c : Cell) {a b : Nat}
    (hab : a ≠ i ∨ b ≠ j) :
    getCell (setCell m i j c) a b = getCell m a b := by
  unfold getCell setCell
  simp only
  by_cases ha : a = i
  · subst ha
    rcases hab with ha | hb
    · exact absurd rfl ha
    · by_cases hlen : a < m.cells.length
      · rw [getD_set_self _ _ _ _ (by simpa using hlen), getD_set_ne _ _ _ _ _ hb]
      · push_neg at hlen
        rw [List.set_eq_of_length_le hlen]
  · rw [getD_set_ne _ _ _ _ _ ha]

/-! ### Dimension, window and well-formedness preservation by every operation -/

@[simp] theorem markVisited_num_rows (m : Maze) (i j : Nat) :
    (markVisited m i j).num_rows = m.num_rows := rfl

@[simp] theorem markVisited_num_cols (m : Maze) (i j : Nat) :
    (markVisited m i j).num_cols = m.num_cols := rfl

@[simp] theorem markVisited_win (m : Maze) (i j : Nat) :
    (markVisited m i j).win = m.win := rfl

@[simp] theorem draw_cell_num_rows (m : Maze) (i j : Nat) :
    (draw_cell m i j).num_rows = m.num_rows := by
  unfold draw_cell; split <;> rfl

@[simp] theorem draw_cell_num_cols (m : Maze) (i j : Nat) :
    (draw_cell m i j).num_cols = m.num_cols := by
  unfold draw_cell; split <;> rfl

@[simp] theorem draw_cell_win (m : Maze) (i j : Nat) :
    (draw_cell m i j).win = m.win := by
  unfold draw_cell; split <;> rfl

@[simp] theorem openPassage_num_rows (m : Maze) (i j : Nat) (d : Direction) :
    (openPassage m i j d).num_rows = m.num_rows := by
  cases d <;> rfl

@[simp] theorem openPassage_num_cols (m : Maze) (i j : Nat) (d : Direction) :
    (openPassage m i j d).num_cols = m.num_cols := by
  cases d <;> rfl

@[simp] theorem openPassage_win (m : Maze) (i j : Nat) (d : Direction) :
    (openPassage m i j d).win = m.win := by
  cases d <;> rfl

theorem WF_markVisited {m : Maze} (h : WF m) (i j : Nat) : WF (markVisited m i j) :=
  WF_setCell h i j _

theorem WF_draw_cell {m : Maze} (h : WF m) (i j : Nat) : WF (draw_cell m i j) := by
  unfold draw_cell; split
  · exact WF_setCell h i j _
  · exact h

theorem WF_openPassage {m : Maze} (h : WF m) (i j : Nat) (d : Direction) :
    WF (openPassage m i j d) := by
  cases d <;> exact WF_setCell (WF_setCell h _ _ _) _ _ _

theorem set_getElem_self_eq {α : Type} (l : List α) (i : Nat) (h : i < l.length) :
    l.set i l[i] = l := by
  apply List.ext_getElem?
  intro n
  by_cases hn : n = i
  · subst hn; rw [List.getElem?_set_eq_of_lt _ h, List.getElem?_eq_getElem h]
  · rw [List.getElem?_set_ne (Ne.symm hn)]

/-- Full characterisation of a cell write: it lands exactly on an in-bounds (i, j)
and leaves every other cell (and any out-of-bounds write target) unchanged. -/
theorem getCell_setCell {m : Maze} (h : WF m) (i j : Nat) (c : Cell) (a b : Nat) :
    getCell (setCell m i j c) a b =
      if a = i ∧ b = j ∧ i < m.num_rows.toNat ∧ j < m.num_cols.toNat then c
      else getCell m a b := by
  split
  · rename_i hcond
    obtain ⟨ha, hb, hi, hj⟩ := hcond
    subst ha; subst hb
    exact getCell_setCell_self h hi hj c
  · rename_i hcond
    by_cases ha : a = i
    · by_cases hb : b = j
      · subst ha; subst hb
        -- the write target is out of bounds, so the write is a no-op on cells
        have hoob : ¬(a < m.num_rows.toNat) ∨ ¬(b < m.num_cols.toNat) := by
          by_contra hc
          push_neg at hc
          exact hcond ⟨rfl, rfl, hc.1, hc.2⟩
        rcases hoob with hoob | hoob
        · have hlen : m.cells.length ≤ a := by rw [h.1]; omega
          unfold getCell setCell
          simp only
          rw [List.set_eq_of_length_le hlen]
        · by_cases hlen : a < m.cells.length
          · have hrow : (m.cells.getD a []).length ≤ b := by
              rw [rowLen_of_WF h (by rw [← h.1]; exact hlen)]; omega
            unfold getCell setCell
            simp only
            rw [List.set_eq_of_length_le hrow]
            have : m.cells.getD a [] = m.cells[a] := by
              simp [List.getD, List.getElem?_eq_getElem hlen]
            rw [this, set_getElem_self_eq _ _ hlen, this]
          · push_neg at hlen
            unfold getCell setCell
            simp only
            rw [List.set_eq_of_length_le hlen]
      · exact getCell_setCell_ne m i j c (Or.inr hb)
    · exact getCell_setCell_ne m i j c (Or.inl ha)

/-! ### Effect of openPassage on individual cells, per direction -/

theorem getCell_openPassage_down {m : Maze} (h : WF m) {i j : Nat}
    (hi1 : i + 1 < m.num_rows.toNat) (hj : j < m.num_cols.toNat) (a b : Nat) :
    getCell (openPassage m i j Direction.down) a b =
      if a = i ∧ b = j then { getCell m i j with has_bottom_wall := false }
      else if a = i + 1 ∧ b = j then { getCell m (i + 1) j with has_top_wall := false }
      else getCell m a b := by
  have hni : ((i : Int) + (1 : Int)).toNat = i + 1 := by omega
  have hnj : ((j : Int) + (0 : Int)).toNat = j := by omega
  unfold openPassage
  simp only [dirDelta, hni, hnj]
  rw [show getCell (setCell m i j { getCell m i j with has_bottom_wall := false }) (i + 1) j
      = getCell m (i + 1) j from getCell_setCell_ne _ _ _ _ (Or.inl (by omega))]
  rw [getCell_setCell (WF_setCell h i j _), getCell_setCell h]
  simp only [setCell_num_rows, setCell_num_cols]
  by_cases h2 : a = i + 1 ∧ b = j
  · rw [if_pos ⟨h2.1, h2.2, by omega, by omega⟩, if_neg (by omega),
      if_pos ⟨h2.1, h2.2⟩]
  · by_cases h1 : a = i ∧ b = j
    · rw [if_neg (fun hc => h2 ⟨hc.1, hc.2.1⟩), if_pos ⟨h1.1, h1.2, by omega, by omega⟩,
        if_pos h1]
    · rw [if_neg (fun hc => h2 ⟨hc.1, hc.2.1⟩), if_neg (fun hc => h1 ⟨hc.1, hc.2.1⟩),
        if_neg h1, if_neg h2]

theorem getCell_openPassage_up {m : Maze} (h : WF m) {i j : Nat} (h1i : 1 ≤ i)
    (hi : i < m.num_rows.toNat) (hj : j < m.num_cols.toNat) (a b : Nat) :
    getCell (openPassage m i j Direction.up) a b =
      if a = i ∧ b = j then { getCell m i j with has_top_wall := false }
      else if a = i - 1 ∧ b = j then { getCell m (i - 1) j with has_bottom_wall := false }
      else getCell m a b := by
  have hni : ((i : Int) + (-1 : Int)).toNat = i - 1 := by omega
  have hnj : ((j : Int) + (0 : Int)).toNat = j := by omega
  unfold openPassage
  simp only [dirDelta, hni, hnj]
  rw [show getCell (setCell m i j { getCell m i j with has_top_wall := false }) (i - 1) j
      = getCell m (i - 1) j from getCell_setCell_ne _ _ _ _ (Or.inl (by omega))]
  rw [getCell_setCell (WF_setCell h i j _), getCell_setCell h]
  simp only [setCell_num_rows, setCell_num_cols]
  by_cases h2 : a = i - 1 ∧ b = j
  · rw [if_pos ⟨h2.1, h2.2, by omega, by omega⟩, if_neg (by omega),
      if_pos ⟨h2.1, h2.2⟩]
  · by_cases h1 : a = i ∧ b = j
    · rw [if_neg (fun hc => h2 ⟨hc.1, hc.2.1⟩), if_pos ⟨h1.1, h1.2, by omega, by omega⟩,
        if_pos h1]
    · rw [if_neg (fun hc => h2 ⟨hc.1, hc.2.1⟩), if_neg (fun hc => h1 ⟨hc.1, hc.2.1⟩),
        if_neg h1, if_neg h2]

theorem getCell_openPassage_right {m : Maze} (h : WF m) {i j : Nat}
    (hi : i < m.num_rows.toNat) (hj1 : j + 1 < m.num_cols.toNat) (a b : Nat) :
    getCell (openPassage m i j Direction.right) a b =
      if a = i ∧ b = j then { getCell m i j with has_right_wall := false }
      else if a = i ∧ b = j + 1 then { getCell m i (j + 1) with has_left_wall := false }
      else getCell m a b := by
  have hni : ((i : Int) + (0 : Int)).toNat = i := by omega
  have hnj : ((j : Int) + (1 : Int)).toNat = j + 1 := by omega
  unfold openPassage
  simp only [dirDelta, hni, hnj]
  rw [show getCell (setCell m i j { getCell m i j with has_right_wall := false }) i (j + 1)
      = getCell m i (j + 1) from getCell_setCell_ne _ _ _ _ (Or.inr (by omega))]
  rw [getCell_setCell (WF_setCell h i j _), getCell_setCell h]
  simp only [setCell_num_rows, setCell_num_cols]
  by_cases h2 : a = i ∧ b = j + 1
  · rw [if_pos ⟨h2.1, h2.2, by omega, by omega⟩, if_neg (by omega),
      if_pos ⟨h2.1, h2.2⟩]
  · by_cases h1 : a = i ∧ b = j
    · rw [if_neg (fun hc => h2 ⟨hc.1, hc.2.1⟩), if_pos ⟨h1.1, h1.2, by omega, by omega⟩,
        if_pos h1]
    · rw [if_neg (fun hc => h2 ⟨hc.1, hc.2.1⟩), if_neg (fun hc => h1 ⟨hc.1, hc.2.1⟩),
        if_neg h1, if_neg h2]

theorem getCell_openPassage_left {m : Maze} (h : WF m) {i j : Nat} (h1j : 1 ≤ j)
    (hi : i < m.num_rows.toNat) (hj : j < m.num_cols.toNat) (a b : Nat) :
    getCell (openPassage m i j Direction.left) a b =
      if a = i ∧ b = j then { getCell m i j with has_left_wall := false }
      else if a = i ∧ b = j - 1 then { getCell m i (j - 1) with has_right_wall := false }
      else getCell m a b := by
  have hni : ((i : Int) + (0 : Int)).toNat = i := by omega
  have hnj : ((j : Int) + (-1 : Int)).toNat = j - 1 := by omega
  unfold openPassage
  simp only [dirDelta, hni, hnj]
  rw [show getCell (setCell m i j { getCell m i j with has_left_wall := false }) i (j - 1)
      = getCell m i (j - 1) from getCell_setCell_ne _ _ _ _ (Or.inr (by omega))]
  rw [getCell_setCell (WF_setCell h i j _), getCell_setCell h]
  simp only [setCell_num_rows, setCell_num_cols]
  by_cases h2 : a = i ∧ b = j - 1
  · rw [if_pos ⟨h2.1, h2.2, by omega, by omega⟩, if_neg (by omega),
      if_pos ⟨h2.1, h2.2⟩]
  · by_cases h1 : a = i ∧ b = j
    · rw [if_neg (fun hc => h2 ⟨hc.1, hc.2.1⟩), if_pos ⟨h1.1, h1.2, by omega, by omega⟩,
        if_pos h1]
    · rw [if_neg (fun hc => h2 ⟨hc.1, hc.2.1⟩), if_neg (fun hc => h1 ⟨hc.1, hc.2.1⟩),
        if_neg h1, if_neg h2]

/-- The bounds check that Maze._break_walls_r performs before opening a passage
from (i, j) in direction d (src/maze.py 239-244): the current cell and the target
cell are both in range. -/
def stepOK (m : Maze) (i j : Nat) (d : Direction) : Prop :=
  i < m.num_rows.toNat ∧ j < m.num_cols.toNat ∧
    0 ≤ (i : Int) + (dirDelta d).1 ∧ (i : Int) + (dirDelta d).1 < m.num_rows ∧
    0 ≤ (j : Int) + (dirDelta d).2 ∧ (j : Int) + (dirDelta d).2 < m.num_cols

/-- The target cell of a passage opened from (i, j) in direction d, as natural
coordinates. -/
def stepTarget (i j : Nat) (d : Direction) : Nat × Nat :=
  (((i : Int) + (dirDelta d).1).toNat, ((j : Int) + (dirDelta d).2).toNat)

theorem openPassage_visited {m : Maze} (h : WF m) {i j : Nat} {d : Direction}
    (hok : stepOK m i j d) (a b : Nat) :
    (getCell (openPassage m i j d) a b).visited = (getCell m a b).visited := by
  obtain ⟨hi, hj, t1, t2, t3, t4⟩ := hok
  cases d
  · rw [getCell_openPassage_up h (by simp [dirDelta] at t1; omega) hi hj a b]
    split_ifs with h1 h2
    · obtain ⟨rfl, rfl⟩ := h1; rfl
    · obtain ⟨rfl, rfl⟩ := h2; rfl
    · rfl
  · rw [getCell_openPassage_down h (by simp [dirDelta] at t2; omega) hj a b]
    split_ifs with h1 h2
    · obtain ⟨rfl, rfl⟩ := h1; rfl
    · obtain ⟨rfl, rfl⟩ := h2; rfl
    · rfl
  · rw [getCell_openPassage_left h (by simp [dirDelta] at t3; omega) hi hj a b]
    split_ifs with h1 h2
    · obtain ⟨rfl, rfl⟩ := h1; rfl
    · obtain ⟨rfl, rfl⟩ := h2; rfl
    · rfl
  · rw [getCell_openPassage_right h hi (by simp [dirDelta] at t4; omega) a b]
    split_ifs with h1 h2
    · obtain ⟨rfl, rfl⟩ := h1; rfl
    · obtain ⟨rfl, rfl⟩ := h2; rfl
    · rfl

theorem openPassage_drawn {m : Maze} (h : WF m) {i j : Nat} {d : Direction}
    (hok : stepOK m i j d) (a b : Nat) :
    (getCell (openPassage m i j d) a b).drawn = (getCell m a b).drawn := by
  obtain ⟨hi, hj, t1, t2, t3, t4⟩ := hok
  cases d
  · rw [getCell_openPassage_up h (by simp [dirDelta] at t1; omega) hi hj a b]
    split_ifs with h1 h2
    · obtain ⟨rfl, rfl⟩ := h1; rfl
    · obtain ⟨rfl, rfl⟩ := h2; rfl
    · rfl
  · rw [getCell_openPassage_down h (by simp [dirDelta] at t2; omega) hj a b]
    split_ifs with h1 h2
    · obtain ⟨rfl, rfl⟩ := h1; rfl
    · obtain ⟨rfl, rfl⟩ := h2; rfl
    · rfl
  · rw [getCell_openPassage_left h (by simp [dirDelta] at t3; omega) hi hj a b]
    split_ifs with h1 h2
    · obtain ⟨rfl, rfl⟩ := h1; rfl
    · obtain ⟨rfl, rfl⟩ := h2; rfl
    · rfl
  · rw [getCell_openPassage_right h hi (by simp [dirDelta] at t4; omega) a b]
    split_ifs with h1 h2
    · obtain ⟨rfl, rfl⟩ := h1; rfl
    · obtain ⟨rfl, rfl⟩ := h2; rfl
    · rfl

theorem openPassage_down_has_left_wall {m : Maze} (h : WF m) {i j : Nat}
    (hi1 : i + 1 < m.num_rows.toNat) (hj : j < m.num_cols.toNat) (a b : Nat) :
    (getCell (openPassage m i j Direction.down) a b).has_left_wall
      = (getCell m a b).has_left_wall := by
  rw [getCell_openPassage_down h hi1 hj a b]
  split_ifs with h1 h2
  · obtain ⟨rfl, rfl⟩ := h1; rfl
  · obtain ⟨rfl, rfl⟩ := h2; rfl
  · rfl

theorem openPassage_down_has_right_wall {m : Maze} (h : WF m) {i j : Nat}
    (hi1 : i + 1 < m.num_rows.toNat) (hj : j < m.num_cols.toNat) (a b : Nat) :
    (getCell (openPassage m i j Direction.down) a b).has_right_wall
      = (getCell m a b).has_right_wall := by
  rw [getCell_openPassage_down h hi1 hj a b]
  split_ifs with h1 h2
  · obtain ⟨rfl, rfl⟩ := h1; rfl
  · obtain ⟨rfl, rfl⟩ := h2; rfl
  · rfl

theorem openPassage_down_has_bottom_wall {m : Maze} (h : WF m) {i j : Nat}
    (hi1 : i + 1 < m.num_rows.toNat) (hj : j < m.num_cols.toNat) (a b : Nat) :
    (getCell (openPassage m i j Direction.down) a b).has_bottom_wall
      = if a = i ∧ b = j then false else (getCell m a b).has_bottom_wall := by
  rw [getCell_openPassage_down h hi1 hj a b]
  split_ifs with h1 h2
  · rfl
  · obtain ⟨rfl, rfl⟩ := h2; rfl
  · rfl

theorem openPassage_down_has_top_wall {m : Maze} (h : WF m) {i j : Nat}
    (hi1 : i + 1 < m.num_rows.toNat) (hj : j < m.num_cols.toNat) (a b : Nat) :
    (getCell (openPassage m i j Direction.down) a b).has_top_wall
      = if a = i + 1 ∧ b = j then false else (getCell m a b).has_top_wall := by
  rw [getCell_openPassage_down h hi1 hj a b]
  split_ifs with h1 h2 h3
  · omega
  · obtain ⟨rfl, rfl⟩ := h1; rfl
  · rfl
  · rfl

theorem openPassage_up_has_left_wall {m : Maze} (h : WF m) {i j : Nat} (h1i : 1 ≤ i)
    (hi : i < m.num_rows.toNat) (hj : j < m.num_cols.toNat) (a b : Nat) :
    (getCell (openPassage m i j Direction.up) a b).has_left_wall
      = (getCell m a b).has_left_wall := by
  rw [getCell_openPassage_up h h1i hi hj a b]
  split_ifs with h1 h2
  · obtain ⟨rfl, rfl⟩ := h1; rfl
  · obtain ⟨rfl, rfl⟩ := h2; rfl
  · rfl

theorem openPassage_up_has_right_wall {m : Maze} (h : WF m) {i j : Nat} (h1i : 1 ≤ i)
    (hi : i < m.num_rows.toNat) (hj : j < m.num_cols.toNat) (a b : Nat) :
    (getCell (openPassage m i j Direction.up) a b).has_right_wall
      = (getCell m a b).has_right_wall := by
  rw [getCell_openPassage_up h h1i hi hj a b]
  split_ifs with h1 h2
  · obtain ⟨rfl, rfl⟩ := h1; rfl
  · obtain ⟨rfl, rfl⟩ := h2; rfl
  · rfl

theorem openPassage_up_has_top_wall {m : Maze} (h : WF m) {i j : Nat} (h1i : 1 ≤ i)
    (hi : i < m.num_rows.toNat) (hj : j < m.num_cols.toNat) (a b : Nat) :
    (getCell (openPassage m i j Direction.up) a b).has_top_wall
      = if a = i ∧ b = j then false else (getCell m a b).has_top_wall := by
  rw [getCell_openPassage_up h h1i hi hj a b]
  split_ifs with h1 h2
  · rfl
  · obtain ⟨rfl, rfl⟩ := h2; rfl
  · rfl

theorem openPassage_up_has_bottom_wall {m : Maze} (h : WF m) {i j : Nat} (h1i : 1 ≤ i)
    (hi : i < m.num_rows.toNat) (hj : j < m.num_cols.toNat) (a b : Nat) :
    (getCell (openPassage m i j Direction.up) a b).has_bottom_wall
      = if a = i - 1 ∧ b = j then false else (getCell m a b).has_bottom_wall := by
  rw [getCell_openPassage_up h h1i hi hj a b]
  split_ifs with h1 h2 h3
  · omega
  · obtain ⟨rfl, rfl⟩ := h1; rfl
  · rfl
  · rfl

theorem openPassage_right_has_top_wall {m : Maze} (h : WF m) {i j : Nat}
    (hi : i < m.num_rows.toNat) (hj1 : j + 1 < m.num_cols.toNat) (a b : Nat) :
    (getCell (openPassage m i j Direction.right) a b).has_top_wall
      = (getCell m a b).has_top_wall := by
  rw [getCell_openPassage_right h hi hj1 a b]
  split_ifs with h1 h2
  · obtain ⟨rfl, rfl⟩ := h1; rfl
  · obtain ⟨rfl, rfl⟩ := h2; rfl
  · rfl

theorem openPassage_right_has_bottom_wall {m : Maze} (h : WF m) {i j : Nat}
    (hi : i < m.num_rows.toNat) (hj1 : j + 1 < m.num_cols.toNat) (a b : Nat) :
    (getCell (openPassage m i j Direction.right) a b).has_bottom_wall
      = (getCell m a b).has_bottom_wall := by
  rw [getCell_openPassage_right h hi hj1 a b]
  split_ifs with h1 h2
  · obtain ⟨rfl, rfl⟩ := h1; rfl
  · obtain ⟨rfl, rfl⟩ := h2; rfl
  · rfl

theorem openPassage_right_has_right_wall {m : Maze} (h : WF m) {i j : Nat}
    (hi : i < m.num_rows.toNat) (hj1 : j + 1 < m.num_cols.toNat) (a b : Nat) :
    (getCell (openPassage m i j Direction.right) a b).has_right_wall
      = if a = i ∧ b = j then false else (getCell m a b).has_right_wall := by
  rw [getCell_openPassage_right h hi hj1 a b]
  split_ifs with h1 h2
  · rfl
  · obtain ⟨rfl, rfl⟩ := h2; rfl
  · rfl

theorem openPassage_right_has_left_wall {m : Maze} (h : WF m) {i j : Nat}
    (hi : i < m.num_rows.toNat) (hj1 : j + 1 < m.num_cols.toNat) (a b : Nat) :
    (getCell (openPassage m i j Direction.right) a b).has_left_wall
      = if a = i ∧ b = j + 1 then false else (getCell m a b).has_left_wall := by
  rw [getCell_openPassage_right h hi hj1 a b]
  split_ifs with h1 h2 h3
  · omega
  · obtain ⟨rfl, rfl⟩ := h1; rfl
  · rfl
  · rfl

theorem openPassage_left_has_top_wall {m : Maze} (h : WF m) {i j : Nat} (h1j : 1 ≤ j)
    (hi : i < m.num_rows.toNat) (hj : j < m.num_cols.toNat) (a b : Nat) :
    (getCell (openPassage m i j Direction.left) a b).has_top_wall
      = (getCell m a b).has_top_wall := by
  rw [getCell_openPassage_left h h1j hi hj a b]
  split_ifs with h1 h2
  · obtain ⟨rfl, rfl⟩ := h1; rfl
  · obtain ⟨rfl, rfl⟩ := h2; rfl
  · rfl

theorem openPassage_left_has_bottom_wall {m : Maze} (h : WF m) {i j : Nat} (h1j : 1 ≤ j)
    (hi : i < m.num_rows.toNat) (hj : j < m.num_cols.toNat) (a b : Nat) :
    (getCell (openPassage m i j Direction.left) a b).has_bottom_wall
      = (getCell m a b).has_bottom_wall := by
  rw [getCell_openPassage_left h h1j hi hj a b]
  split_ifs with h1 h2
  · obtain ⟨rfl, rfl⟩ := h1; rfl
  · obtain ⟨rfl, rfl⟩ := h2; rfl
  · rfl

theorem openPassage_left_has_left_wall {m : Maze} (h : WF m) {i j : Nat} (h1j : 1 ≤ j)
    (hi : i < m.num_rows.toNat) (hj : j < m.num_cols.toNat) (a b : Nat) :
    (getCell (openPassage m i j Direction.left) a b).has_left_wall
      = if a = i ∧ b = j then false else (getCell m a b).has_left_wall := by
  rw [getCell_openPassage_left h h1j hi hj a b]
  split_ifs with h1 h2
  · rfl
  · obtain ⟨rfl, rfl⟩ := h2; rfl
  · rfl

theorem openPassage_left_has_right_wall {m : Maze} (h : WF m) {i j : Nat} (h1j : 1 ≤ j)
    (hi : i < m.num_rows.toNat) (hj : j < m.num_cols.toNat) (a b : Nat) :
    (getCell (openPassage m i j Direction.left) a b).has_right_wall
      = if a = i ∧ b = j - 1 then false else (getCell m a b).has_right_wall := by
  rw [getCell_openPassage_left h h1j hi hj a b]
  split_ifs with h1 h2 h3
  · omega
  · obtain ⟨rfl, rfl⟩ := h1; rfl
  · rfl
  · rfl

/-! ### Effect of the visited-flag and drawing operations on cells -/

theorem getCell_markVisited {m : Maze} (h : WF m) (i j a b : Nat) :
    getCell (markVisited m i j) a b =
      if a = i ∧ b = j ∧ i < m.num_rows.toNat ∧ j < m.num_cols.toNat then
        { getCell m i j with visited := true }
      else getCell m a b :=
  getCell_setCell h i j _ a b

theorem markVisited_wallsCell {m : Maze} (h : WF m) (i j a b : Nat) :
    wallsCell (getCell (markVisited m i j) a b) = wallsCell (getCell m a b) := by
  rw [getCell_markVisited h]
  split_ifs with h1
  · obtain ⟨rfl, rfl, _, _⟩ := h1; rfl
  · rfl

theorem markVisited_drawn {m : Maze} (h : WF m) (i j a b : Nat) :
    (getCell (markVisited m i j) a b).drawn = (getCell m a b).drawn := by
  rw [getCell_markVisited h]
  split_ifs with h1
  · obtain ⟨rfl, rfl, _, _⟩ := h1; rfl
  · rfl

theorem markVisited_visited {m : Maze} (h : WF m) (i j a b : Nat) :
    (getCell (markVisited m i j) a b).visited =
      if a = i ∧ b = j ∧ i < m.num_rows.toNat ∧ j < m.num_cols.toNat then true
      else (getCell m a b).visited := by
  rw [getCell_markVisited h]
  split_ifs with h1
  · rfl
  · rfl

theorem getCell_draw_cell {m : Maze} (h : WF m) (i j a b : Nat) :
    getCell (draw_cell m i j) a b =
      if m.win ∧ a = i ∧ b = j ∧ i < m.num_rows.toNat ∧ j < m.num_cols.toNat then
        { getCell m i j with drawn := true }
      else getCell m a b := by
  unfold draw_cell
  split
  · rename_i hw
    rw [getCell_setCell h i j _ a b]
    by_cases h1 : a = i ∧ b = j ∧ i < m.num_rows.toNat ∧ j < m.num_cols.toNat
    · rw [if_pos h1, if_pos ⟨hw, h1⟩]
    · rw [if_neg h1, if_neg (fun hc => h1 hc.2)]
  · rename_i hw
    rw [if_neg (fun hc => hw hc.1)]

theorem draw_cell_coreCell {m : Maze} (h : WF m) (i j a b : Nat) :
    coreCell (getCell (draw_cell m i j) a b) = coreCell (getCell m a b) := by
  rw [getCell_draw_cell h]
  split_ifs with h1
  · obtain ⟨_, rfl, rfl, _, _⟩ := h1; rfl
  · rfl

theorem coreCell_visited {c c' : Cell} (h : coreCell c = coreCell c') :
    c.visited = c'.visited := by
  have := congrArg (fun t => t.2.2.2.2) h
  simpa [coreCell] using this

theorem coreCell_wallsCell {c c' : Cell} (h : coreCell c = coreCell c') :
    wallsCell c = wallsCell c' := by
  unfold coreCell at h
  unfold wallsCell
  simp only [Prod.mk.injEq] at h ⊢
  exact ⟨h.1, h.2.1, h.2.2.1, h.2.2.2.1⟩

theorem wallsCell_left {c c' : Cell} (h : wallsCell c = wallsCell c') :
    c.has_left_wall = c'.has_left_wall := congrArg (fun t => t.1) h

theorem wallsCell_right {c c' : Cell} (h : wallsCell c = wallsCell c') :
    c.has_right_wall = c'.has_right_wall := congrArg (fun t => t.2.1) h

theorem wallsCell_top {c c' : Cell} (h : wallsCell c = wallsCell c') :
    c.has_top_wall = c'.has_top_wall := congrArg (fun t => t.2.2.1) h

theorem wallsCell_bottom {c c' : Cell} (h : wallsCell c = wallsCell c') :
    c.has_bottom_wall = c'.has_bottom_wall := congrArg (fun t => t.2.2.2) h

/-! ### Generic fold-preservation helpers -/

theorem foldl_preserves {β γ : Type} (meas : Maze → γ) (f : Maze → β → Maze)
    (hf : ∀ m x, meas (f m x) = meas m) (l : List β) (m : Maze) :
    meas (List.foldl f m l) = meas m := by
  induction l generalizing m with
  | nil => rfl
  | cons x xs ih => rw [List.foldl_cons, ih, hf]

theorem foldl_preserves_prop (P : Maze → Prop) {β : Type} (f : Maze → β → Maze)
    (hf : ∀ m x, P m → P (f m x)) (l : List β) (m : Maze) (hm : P m) :
    P (List.foldl f m l) := by
  induction l generalizing m with
  | nil => exact hm
  | cons x xs ih => exact ih _ (hf _ _ hm)

/-! ### Shared-wall consistency (the invariant of claim C3) -/

/-- Shared-wall consistency: for every pair of adjacent in-bounds cells, the wall
flag of each facing the other is the same (spec section 3, Grid invariant). -/
def consistentM (m : Maze) : Prop :=
  (∀ i j, i < m.num_rows.toNat → j + 1 < m.num_cols.toNat →
    (getCell m i j).has_right_wall = (getCell m i (j + 1)).has_left_wall) ∧
  (∀ i j, i + 1 < m.num_rows.toNat → j < m.num_cols.toNat →
    (getCell m i j).has_bottom_wall = (getCell m (i + 1) j).has_top_wall)

theorem consistentM_of_walls_eq {m m' : Maze}
    (hr : m'.num_rows = m.num_rows) (hc : m'.num_cols = m.num_cols)
    (hw : ∀ a b, wallsCell (getCell m' a b) = wallsCell (getCell m a b))
    (h : consistentM m) : consistentM m' := by
  constructor
  · intro a b ha hb
    rw [wallsCell_right (hw a b), wallsCell_left (hw a (b + 1))]
    rw [hr] at ha
    rw [hc] at hb
    exact h.1 a b ha hb
  · intro a b ha hb
    rw [wallsCell_bottom (hw a b), wallsCell_top (hw (a + 1) b)]
    rw [hr] at ha
    rw [hc] at hb
    exact h.2 a b ha hb

theorem consistentM_markVisited {m : Maze} (h : WF m) (i j : Nat)
    (hcon : consistentM m) : consistentM (markVisited m i j) :=
  @consistentM_of_walls_eq m (markVisited m i j) rfl rfl (markVisited_wallsCell h i j) hcon

theorem consistentM_draw_cell {m : Maze} (h : WF m) (i j : Nat)
    (hcon : consistentM m) : consistentM (draw_cell m i j) :=
  @consistentM_of_walls_eq m (draw_cell m i j) (draw_cell_num_rows m i j)
    (draw_cell_num_cols m i j)
    (fun a b => coreCell_wallsCell (draw_cell_coreCell h i j a b)) hcon

theorem consistentM_openPassage_down {m : Maze} (h : WF m) {i j : Nat}
    (hi1 : i + 1 < m.num_rows.toNat) (hj : j < m.num_cols.toNat)
    (hcon : consistentM m) : consistentM (openPassage m i j Direction.down) := by
  constructor
  · intro a b ha hb
    rw [openPassage_down_has_right_wall h hi1 hj, openPassage_down_has_left_wall h hi1 hj]
    exact hcon.1 a b (by simpa using ha) (by simpa using hb)
  · intro a b ha hb
    rw [openPassage_down_has_bottom_wall h hi1 hj, openPassage_down_has_top_wall h hi1 hj]
    by_cases h1 : a = i ∧ b = j
    · rw [if_pos h1, if_pos (by omega : a + 1 = i + 1 ∧ b = j)]
    · rw [if_neg h1, if_neg (fun hcc => h1 ⟨by omega, hcc.2⟩)]
      exact hcon.2 a b (by simpa using ha) (by simpa using hb)

theorem consistentM_openPassage_up {m : Maze} (h : WF m) {i j : Nat} (h1i : 1 ≤ i)
    (hi : i < m.num_rows.toNat) (hj : j < m.num_cols.toNat)
    (hcon : consistentM m) : consistentM (openPassage m i j Direction.up) := by
  constructor
  · intro a b ha hb
    rw [openPassage_up_has_right_wall h h1i hi hj, openPassage_up_has_left_wall h h1i hi hj]
    exact hcon.1 a b (by simpa using ha) (by simpa using hb)
  · intro a b ha hb
    rw [openPassage_up_has_bottom_wall h h1i hi hj, openPassage_up_has_top_wall h h1i hi hj]
    by_cases h1 : a = i - 1 ∧ b = j
    · rw [if_pos h1, if_pos (by omega : a + 1 = i ∧ b = j)]
    · rw [if_neg h1, if_neg (fun hcc => h1 ⟨by omega, hcc.2⟩)]
      exact hcon.2 a b (by simpa using ha) (by simpa using hb)

theorem consistentM_openPassage_right {m : Maze} (h : WF m) {i j : Nat}
    (hi : i < m.num_rows.toNat) (hj1 : j + 1 < m.num_cols.toNat)
    (hcon : consistentM m) : consistentM (openPassage m i j Direction.right) := by
  constructor
  · intro a b ha hb
    rw [openPassage_right_has_right_wall h hi hj1, openPassage_right_has_left_wall h hi hj1]
    by_cases h1 : a = i ∧ b = j
    · rw [if_pos h1, if_pos (by omega : a = i ∧ b + 1 = j + 1)]
    · rw [if_neg h1, if_neg (fun hcc => h1 ⟨hcc.1, by omega⟩)]
      exact hcon.1 a b (by simpa using ha) (by simpa using hb)
  · intro a b ha hb
    rw [openPassage_right_has_bottom_wall h hi hj1, openPassage_right_has_top_wall h hi hj1]
    exact hcon.2 a b (by simpa using ha) (by simpa using hb)

theorem consistentM_openPassage_left {m : Maze} (h : WF m) {i j : Nat} (h1j : 1 ≤ j)
    (hi : i < m.num_rows.toNat) (hj : j < m.num_cols.toNat)
    (hcon : consistentM m) : consistentM (openPassage m i j Direction.left) := by
  constructor
  · intro a b ha hb
    rw [openPassage_left_has_right_wall h h1j hi hj, openPassage_left_has_left_wall h h1j hi hj]
    by_cases h1 : a = i ∧ b = j - 1
    · rw [if_pos h1, if_pos (by omega : a = i ∧ b + 1 = j)]
    · rw [if_neg h1, if_neg (fun hcc => h1 ⟨hcc.1, by omega⟩)]
      exact hcon.1 a b (by simpa using ha) (by simpa using hb)
  · intro a b ha hb
    rw [openPassage_left_has_bottom_wall h h1j hi hj, openPassage_left_has_top_wall h h1j hi hj]
    exact hcon.2 a b (by simpa using ha) (by simpa using hb)

/-! ### Open-edge helpers for the maze graph -/

/-- The shared wall between (i, j) and its right neighbour (i, j+1) is open on both
sides. -/
def rightOpen (m : Maze) (i j : Nat) : Bool :=
  !(getCell m i j).has_right_wall && !(getCell m i (j + 1)).has_left_wall

/-- The shared wall between (i, j) and its lower neighbour (i+1, j) is open on both
sides. -/
def downOpen (m : Maze) (i j : Nat) : Bool :=
  !(getCell m i j).has_bottom_wall && !(getCell m (i + 1) j).has_top_wall

theorem rightOpen_openPassage_down {m : Maze} (h : WF m) {i j : Nat}
    (hi1 : i + 1 < m.num_rows.toNat) (hj : j < m.num_cols.toNat) (a b : Nat) :
    rightOpen (openPassage m i j Direction.down) a b = rightOpen m a b := by
  unfold rightOpen
  rw [openPassage_down_has_right_wall h hi1 hj, openPassage_down_has_left_wall h hi1 hj]

theorem downOpen_openPassage_down {m : Maze} (h : WF m) {i j : Nat}
    (hi1 : i + 1 < m.num_rows.toNat) (hj : j < m.num_cols.toNat) (a b : Nat) :
    downOpen (openPassage m i j Direction.down) a b =
      if a = i ∧ b = j then true else downOpen m a b := by
  unfold downOpen
  rw [openPassage_down_has_bottom_wall h hi1 hj, openPassage_down_has_top_wall h hi1 hj]
  by_cases h1 : a = i ∧ b = j
  · rw [if_pos h1, if_pos (by omega : a + 1 = i + 1 ∧ b = j), if_pos h1]
    rfl
  · rw [if_neg h1, if_neg (fun hcc => h1 ⟨by omega, hcc.2⟩), if_neg h1]

theorem rightOpen_openPassage_up {m : Maze} (h : WF m) {i j : Nat} (h1i : 1 ≤ i)
    (hi : i < m.num_rows.toNat) (hj : j < m.num_cols.toNat) (a b : Nat) :
    rightOpen (openPassage m i j Direction.up) a b = rightOpen m a b := by
  unfold rightOpen
  rw [openPassage_up_has_right_wall h h1i hi hj, openPassage_up_has_left_wall h h1i hi hj]

theorem downOpen_openPassage_up {m : Maze} (h : WF m) {i j : Nat} (h1i : 1 ≤ i)
    (hi : i < m.num_rows.toNat) (hj : j < m.num_cols.toNat) (a b : Nat) :
    downOpen (openPassage m i j Direction.up) a b =
      if a = i - 1 ∧ b = j then true else downOpen m a b := by
  unfold downOpen
  rw [openPassage_up_has_bottom_wall h h1i hi hj, openPassage_up_has_top_wall h h1i hi hj]
  by_cases h1 : a = i - 1 ∧ b = j
  · rw [if_pos h1, if_pos (by omega : a + 1 = i ∧ b = j), if_pos h1]
    rfl
  · rw [if_neg h1, if_neg (fun hcc => h1 ⟨by omega, hcc.2⟩), if_neg h1]

theorem downOpen_openPassage_right {m : Maze} (h : WF m) {i j : Nat}
    (hi : i < m.num_rows.toNat) (hj1 : j + 1 < m.num_cols.toNat) (a b : Nat) :
    downOpen (openPassage m i j Direction.right) a b = downOpen m a b := by
  unfold downOpen
  rw [openPassage_right_has_bottom_wall h hi hj1, openPassage_right_has_top_wall h hi hj1]

theorem rightOpen_openPassage_right {m : Maze} (h : WF m) {i j : Nat}
    (hi : i < m.num_rows.toNat) (hj1 : j + 1 < m.num_cols.toNat) (a b : Nat) :
    rightOpen (openPassage m i j Direction.right) a b =
      if a = i ∧ b = j then true else rightOpen m a b := by
  unfold rightOpen
  rw [openPassage_right_has_right_wall h hi hj1, openPassage_right_has_left_wall h hi hj1]
  by_cases h1 : a = i ∧ b = j
  · rw [if_pos h1, if_pos (by omega : a = i ∧ b + 1 = j + 1), if_pos h1]
    rfl
  · rw [if_neg h1, if_neg (fun hcc => h1 ⟨hcc.1, by omega⟩), if_neg h1]

theorem downOpen_openPassage_left {m : Maze} (h : WF m) {i j : Nat} (h1j : 1 ≤ j)
    (hi : i < m.num_rows.toNat) (hj : j < m.num_cols.toNat) (a b : Nat) :
    downOpen (openPassage m i j Direction.left) a b = downOpen m a b := by
  unfold downOpen
  rw [openPassage_left_has_bottom_wall h h1j hi hj, openPassage_left_has_top_wall h h1j hi hj]

theorem rightOpen_openPassage_left {m : Maze} (h : WF m) {i j : Nat} (h1j : 1 ≤ j)
    (hi : i < m.num_rows.toNat) (hj : j < m.num_cols.toNat) (a b : Nat) :
    rightOpen (openPassage m i j Direction.left) a b =
      if a = i ∧ b = j - 1 then true else rightOpen m a b := by
  unfold rightOpen
  rw [openPassage_left_has_right_wall h h1j hi hj, openPassage_left_has_left_wall h h1j hi hj]
  by_cases h1 : a = i ∧ b = j - 1
  · rw [if_pos h1, if_pos (by omega : a = i ∧ b + 1 = j), if_pos h1]
    rfl
  · rw [if_neg h1, if_neg (fun hcc => h1 ⟨hcc.1, by omega⟩), if_neg h1]

theorem rightOpen_of_walls_eq {m m' : Maze}
    (hw : ∀ a b, wallsCell (getCell m' a b) = wallsCell (getCell m a b)) (a b : Nat) :
    rightOpen m' a b = rightOpen m a b := by
  unfold rightOpen
  rw [wallsCell_right (hw a b), wallsCell_left (hw a (b + 1))]

theorem downOpen_of_walls_eq {m m' : Maze}
    (hw : ∀ a b, wallsCell (getCell m' a b) = wallsCell (getCell m a b)) (a b : Nat) :
    downOpen m' a b = downOpen m a b := by
  unfold downOpen
  rw [wallsCell_bottom (hw a b), wallsCell_top (hw (a + 1) b)]

/-- Two grid positions are joined by an open passage: they are adjacent and the
shared wall is removed on both sides. -/
def edgeOpen (m : Maze) (a b : Nat × Nat) : Prop :=
  (b.1 = a.1 ∧ b.2 = a.2 + 1 ∧ rightOpen m a.1 a.2 = true) ∨
  (a.1 = b.1 ∧ a.2 = b.2 + 1 ∧ rightOpen m b.1 b.2 = true) ∨
  (b.2 = a.2 ∧ b.1 = a.1 + 1 ∧ downOpen m a.1 a.2 = true) ∨
  (a.2 = b.2 ∧ a.1 = b.1 + 1 ∧ downOpen m b.1 b.2 = true)

instance edgeOpenDec (m : Maze) (a b : Nat × Nat) : Decidable (edgeOpen m a b) := by
  unfold edgeOpen; infer_instance

theorem edgeOpen_symm (m : Maze) (a b : Nat × Nat) : edgeOpen m a b ↔ edgeOpen m b a := by
  unfold edgeOpen; tauto

theorem edgeOpen_irrefl (m : Maze) (a : Nat × Nat) : ¬ edgeOpen m a a := by
  unfold edgeOpen
  rintro (⟨h1, h2, h3⟩ | ⟨h1, h2, h3⟩ | ⟨h1, h2, h3⟩ | ⟨h1, h2, h3⟩) <;> omega

theorem edgeOpen_of_walls_eq {m m' : Maze}
    (hw : ∀ a b, wallsCell (getCell m' a b) = wallsCell (getCell m a b))
    (a b : Nat × Nat) : edgeOpen m' a b ↔ edgeOpen m a b := by
  unfold edgeOpen
  rw [rightOpen_of_walls_eq hw, rightOpen_of_walls_eq hw,
    downOpen_of_walls_eq hw, downOpen_of_walls_eq hw]

theorem edgeOpen_openPassage_down {m : Maze} (h : WF m) {i j : Nat}
    (hi1 : i + 1 < m.num_rows.toNat) (hj : j < m.num_cols.toNat) (a b : Nat × Nat) :
    edgeOpen (openPassage m i j Direction.down) a b ↔
      edgeOpen m a b ∨ (a = (i, j) ∧ b = (i + 1, j)) ∨ (a = (i + 1, j) ∧ b = (i, j)) := by
  obtain ⟨a1, a2⟩ := a
  obtain ⟨b1, b2⟩ := b
  unfold edgeOpen
  simp only [rightOpen_openPassage_down h hi1 hj, downOpen_openPassage_down h hi1 hj,
    Prod.mk.injEq]
  constructor
  · rintro (h1 | h1 | ⟨h1, h2, h3⟩ | ⟨h1, h2, h3⟩)
    · exact Or.inl (Or.inl h1)
    · exact Or.inl (Or.inr (Or.inl h1))
    · by_cases hc : a1 = i ∧ a2 = j
      · exact Or.inr (Or.inl ⟨hc, by omega, by omega⟩)
      · rw [if_neg hc] at h3
        exact Or.inl (Or.inr (Or.inr (Or.inl ⟨h1, h2, h3⟩)))
    · by_cases hc : b1 = i ∧ b2 = j
      · exact Or.inr (Or.inr ⟨⟨by omega, by omega⟩, by omega, by omega⟩)
      · rw [if_neg hc] at h3
        exact Or.inl (Or.inr (Or.inr (Or.inr ⟨h1, h2, h3⟩)))
  · rintro ((h1 | h1 | ⟨h1, h2, h3⟩ | ⟨h1, h2, h3⟩) | ⟨⟨ha1, ha2⟩, hb1, hb2⟩ | ⟨⟨ha1, ha2⟩, hb1, hb2⟩)
    · exact Or.inl h1
    · exact Or.inr (Or.inl h1)
    · refine Or.inr (Or.inr (Or.inl ⟨h1, h2, ?_⟩))
      split_ifs with hc
      · rfl
      · exact h3
    · refine Or.inr (Or.inr (Or.inr ⟨h1, h2, ?_⟩))
      split_ifs with hc
      · rfl
      · exact h3
    · refine Or.inr (Or.inr (Or.inl ⟨by omega, by omega, ?_⟩))
      rw [if_pos ⟨ha1, ha2⟩]
    · refine Or.inr (Or.inr (Or.inr ⟨by omega, by omega, ?_⟩))
      rw [if_pos ⟨hb1, hb2⟩]

theorem edgeOpen_openPassage_up {m : Maze} (h : WF m) {i j : Nat} (h1i : 1 ≤ i)
    (hi : i < m.num_rows.toNat) (hj : j < m.num_cols.toNat) (a b : Nat × Nat) :
    edgeOpen (openPassage m i j Direction.up) a b ↔
      edgeOpen m a b ∨ (a = (i, j) ∧ b = (i - 1, j)) ∨ (a = (i - 1, j) ∧ b = (i, j)) := by
  obtain ⟨a1, a2⟩ := a
  obtain ⟨b1, b2⟩ := b
  unfold edgeOpen
  simp only [rightOpen_openPassage_up h h1i hi hj, downOpen_openPassage_up h h1i hi hj,
    Prod.mk.injEq]
  constructor
  · rintro (h1 | h1 | ⟨h1, h2, h3⟩ | ⟨h1, h2, h3⟩)
    · exact Or.inl (Or.inl h1)
    · exact Or.inl (Or.inr (Or.inl h1))
    · by_cases hc : a1 = i - 1 ∧ a2 = j
      · exact Or.inr (Or.inr ⟨⟨by omega, by omega⟩, by omega, by omega⟩)
      · rw [if_neg hc] at h3
        exact Or.inl (Or.inr (Or.inr (Or.inl ⟨h1, h2, h3⟩)))
    · by_cases hc : b1 = i - 1 ∧ b2 = j
      · exact Or.inr (Or.inl ⟨⟨by omega, by omega⟩, by omega, by omega⟩)
      · rw [if_neg hc] at h3
        exact Or.inl (Or.inr (Or.inr (Or.inr ⟨h1, h2, h3⟩)))
  · rintro ((h1 | h1 | ⟨h1, h2, h3⟩ | ⟨h1, h2, h3⟩) | ⟨⟨ha1, ha2⟩, hb1, hb2⟩ | ⟨⟨ha1, ha2⟩, hb1, hb2⟩)
    · exact Or.inl h1
    · exact Or.inr (Or.inl h1)
    · refine Or.inr (Or.inr (Or.inl ⟨h1, h2, ?_⟩))
      split_ifs with hc
      · rfl
      · exact h3
    · refine Or.inr (Or.inr (Or.inr ⟨h1, h2, ?_⟩))
      split_ifs with hc
      · rfl
      · exact h3
    · refine Or.inr (Or.inr (Or.inr ⟨by omega, by omega, ?_⟩))
      rw [if_pos ⟨by omega, by omega⟩]
    · refine Or.inr (Or.inr (Or.inl ⟨by omega, by omega, ?_⟩))
      rw [if_pos ⟨by omega, by omega⟩]

theorem edgeOpen_openPassage_right {m : Maze} (h : WF m) {i j : Nat}
    (hi : i < m.num_rows.toNat) (hj1 : j + 1 < m.num_cols.toNat) (a b : Nat × Nat) :
    edgeOpen (openPassage m i j Direction.right) a b ↔
      edgeOpen m a b ∨ (a = (i, j) ∧ b = (i, j + 1)) ∨ (a = (i, j + 1) ∧ b = (i, j)) := by
  obtain ⟨a1, a2⟩ := a
  obtain ⟨b1, b2⟩ := b
  unfold edgeOpen
  simp only [rightOpen_openPassage_right h hi hj1, downOpen_openPassage_right h hi hj1,
    Prod.mk.injEq]
  constructor
  · rintro (⟨h1, h2, h3⟩ | ⟨h1, h2, h3⟩ | h1 | h1)
    · by_cases hc : a1 = i ∧ a2 = j
      · exact Or.inr (Or.inl ⟨hc, by omega, by omega⟩)
      · rw [if_neg hc] at h3
        exact Or.inl (Or.inl ⟨h1, h2, h3⟩)
    · by_cases hc : b1 = i ∧ b2 = j
      · exact Or.inr (Or.inr ⟨⟨by omega, by omega⟩, by omega, by omega⟩)
      · rw [if_neg hc] at h3
        exact Or.inl (Or.inr (Or.inl ⟨h1, h2, h3⟩))
    · exact Or.inl (Or.inr (Or.inr (Or.inl h1)))
    · exact Or.inl (Or.inr (Or.inr (Or.inr h1)))
  · rintro ((⟨h1, h2, h3⟩ | ⟨h1, h2, h3⟩ | h1 | h1) | ⟨⟨ha1, ha2⟩, hb1, hb2⟩ | ⟨⟨ha1, ha2⟩, hb1, hb2⟩)
    · refine Or.inl ⟨h1, h2, ?_⟩
      split_ifs with hc
      · rfl
      · exact h3
    · refine Or.inr (Or.inl ⟨h1, h2, ?_⟩)
      split_ifs with hc
      · rfl
      · exact h3
    · exact Or.inr (Or.inr (Or.inl h1))
    · exact Or.inr (Or.inr (Or.inr h1))
    · refine Or.inl ⟨by omega, by omega, ?_⟩
      rw [if_pos ⟨ha1, ha2⟩]
    · refine Or.inr (Or.inl ⟨by omega, by omega, ?_⟩)
      rw [if_pos ⟨hb1, hb2⟩]

theorem edgeOpen_openPassage_left {m : Maze} (h : WF m) {i j : Nat} (h1j : 1 ≤ j)
    (hi : i < m.num_rows.toNat) (hj : j < m.num_cols.toNat) (a b : Nat × Nat) :
    edgeOpen (openPassage m i j Direction.left) a b ↔
      edgeOpen m a b ∨ (a = (i, j) ∧ b = (i, j - 1)) ∨ (a = (i, j - 1) ∧ b = (i, j)) := by
  obtain ⟨a1, a2⟩ := a
  obtain ⟨b1, b2⟩ := b
  unfold edgeOpen
  simp only [rightOpen_openPassage_left h h1j hi hj, downOpen_openPassage_left h h1j hi hj,
    Prod.mk.injEq]
  constructor
  · rintro (⟨h1, h2, h3⟩ | ⟨h1, h2, h3⟩ | h1 | h1)
    · by_cases hc : a1 = i ∧ a2 = j - 1
      · exact Or.inr (Or.inr ⟨⟨by omega, by omega⟩, by omega, by omega⟩)
      · rw [if_neg hc] at h3
        exact Or.inl (Or.inl ⟨h1, h2, h3⟩)
    · by_cases hc : b1 = i ∧ b2 = j - 1
      · exact Or.inr (Or.inl ⟨⟨by omega, by omega⟩, by omega, by omega⟩)
      · rw [if_neg hc] at h3
        exact Or.inl (Or.inr (Or.inl ⟨h1, h2, h3⟩))
    · exact Or.inl (Or.inr (Or.inr (Or.inl h1)))
    · exact Or.inl (Or.inr (Or.inr (Or.inr h1)))
  · rintro ((⟨h1, h2, h3⟩ | ⟨h1, h2, h3⟩ | h1 | h1) | ⟨⟨ha1, ha2⟩, hb1, hb2⟩ | ⟨⟨ha1, ha2⟩, hb1, hb2⟩)
    · refine Or.inl ⟨h1, h2, ?_⟩
      split_ifs with hc
      · rfl
      · exact h3
    · refine Or.inr (Or.inl ⟨h1, h2, ?_⟩)
      split_ifs with hc
      · rfl
      · exact h3
    · exact Or.inr (Or.inr (Or.inl h1))
    · exact Or.inr (Or.inr (Or.inr h1))
    · refine Or.inr (Or.inl ⟨by omega, by omega, ?_⟩)
      rw [if_pos ⟨by omega, by omega⟩]
    · refine Or.inl ⟨by omega, by omega, ?_⟩
      rw [if_pos ⟨by omega, by omega⟩]

/-- The maze graph of claim C1: vertices are the grid cells, edges are the open
interior adjacencies (shared wall removed on both sides). -/
def mazeGraph (R C : Nat) (m : Maze) : SimpleGraph (Fin R × Fin C) where
  Adj p q := edgeOpen m (p.1.val, p.2.val) (q.1.val, q.2.val)
  symm := by
    intro p q hpq
    exact (edgeOpen_symm m _ _).mp hpq
  loopless := by
    intro p hp
    exact edgeOpen_irrefl m _ hp

instance mazeGraphDec (R C : Nat) (m : Maze) : DecidableRel (mazeGraph R C m).Adj :=
  fun p q => edgeOpenDec m _ _

theorem mazeGraph_adj (R C : Nat) (m : Maze) (p q : Fin R × Fin C) :
    (mazeGraph R C m).Adj p q ↔ edgeOpen m (p.1.val, p.2.val) (q.1.val, q.2.val) :=
  Iff.rfl

theorem mazeGraph_eq_of_walls_eq {R C : Nat} {m m' : Maze}
    (hw : ∀ a b, wallsCell (getCell m' a b) = wallsCell (getCell m a b)) :
    mazeGraph R C m' = mazeGraph R C m := by
  ext p q
  exact edgeOpen_of_walls_eq hw _ _

open SimpleGraph

theorem walk_end_edge {V : Type} {G : SimpleGraph V} :
    ∀ {x y : V} (w : G.Walk x y), x ≠ y → ∃ z, G.Adj z y ∧ s(z, y) ∈ w.edges := by
  intro x y w
  induction w with
  | nil => intro hxy; exact absurd rfl hxy
  | cons hadj w' ih =>
    rename_i x' b y'
    intro hxy
    by_cases hby : b = y'
    · subst hby
      exact ⟨x', hadj, by simp [Walk.edges_cons]⟩
    · obtain ⟨z, hz, hmem⟩ := ih hby
      exact ⟨z, hz, by simp [Walk.edges_cons, hmem]⟩

theorem isAcyclic_pendant {V : Type} [DecidableEq V] {G G' : SimpleGraph V} {u v : V}
    (huv : u ≠ v)
    (hiso : ∀ w, ¬ G.Adj v w)
    (hadj : ∀ a b, G'.Adj a b ↔ G.Adj a b ∨ (a = u ∧ b = v) ∨ (a = v ∧ b = u))
    (hG : G.IsAcyclic) : G'.IsAcyclic := by
  intro x c hc
  by_cases hv : v ∈ c.support
  · suffices hnc : ∀ c2 : G'.Walk v v, ¬ c2.IsCycle from hnc _ (hc.rotate hv)
    intro c2 hc2
    cases c2 with
    | nil => simp [Walk.isCycle_def, Walk.isCircuit_def] at hc2
    | cons had q =>
      rename_i b
      have hbu : b = u := by
        rcases (hadj v b).mp had with h1 | ⟨h1, h2⟩ | ⟨h1, h2⟩
        · exact absurd h1 (hiso b)
        · exact absurd h1.symm huv
        · exact h2
      rw [Walk.cons_isCycle_iff] at hc2
      have hbv : b ≠ v := by rw [hbu]; exact huv
      obtain ⟨z, hz, hmem⟩ := walk_end_edge q hbv
      have hzu : z = u := by
        rcases (hadj z v).mp hz with h1 | ⟨h1, h2⟩ | ⟨h1, h2⟩
        · exact absurd h1.symm (hiso z)
        · exact h1
        · exact absurd h2.symm huv
      have hzb : z = b := by rw [hzu, hbu]
      rw [hzb, Sym2.eq_swap] at hmem
      exact hc2.2 hmem
  · have hedges : ∀ e ∈ c.edges, e ∈ G.edgeSet := by
      intro e he
      have he' := c.edges_subset_edgeSet he
      revert he he'
      refine Sym2.ind (fun a b => ?_) e
      intro he he'
      rw [SimpleGraph.mem_edgeSet] at he' ⊢
      rcases (hadj a b).mp he' with hab | ⟨rfl, rfl⟩ | ⟨rfl, rfl⟩
      · exact hab
      · exact absurd (Walk.snd_mem_support_of_mem_edges c he) hv
      · exact absurd (Walk.fst_mem_support_of_mem_edges c he) hv
    exact hG _ (hc.transfer hedges)

theorem mem_to_visit_list {m : Maze} {i j : Nat} {c : Direction × Int × Int} :
    c ∈ to_visit_list m i j ↔ c ∈ DIRECTIONS ∧
      0 ≤ (j : Int) + c.2.2 ∧ (j : Int) + c.2.2 < m.num_cols ∧
      0 ≤ (i : Int) + c.2.1 ∧ (i : Int) + c.2.1 < m.num_rows ∧
      (getCell m ((i : Int) + c.2.1).toNat ((j : Int) + c.2.2).toNat).visited = false := by
  unfold to_visit_list
  rw [List.mem_filter]
  simp only [Bool.and_eq_true, decide_eq_true_eq, Bool.not_eq_true']
  tauto

theorem DIRECTIONS_delta {c : Direction × Int × Int} (h : c ∈ DIRECTIONS) :
    c.2 = dirDelta c.1 := by
  simp only [DIRECTIONS, List.mem_cons, List.not_mem_nil, or_false] at h
  rcases h with rfl | rfl | rfl | rfl
  · rfl
  · rfl
  · rfl
  · rfl

theorem randomChoice_mem (rng : Nat → Nat) (k : Nat) {l : List (Direction × Int × Int)}
    (h : l ≠ []) : randomChoice rng k l ∈ l := by
  unfold randomChoice
  exact getD_mem _ _ _ (Nat.mod_lt _ (List.length_pos.mpr h))

/-- Every in-bounds neighbour of (i, j) is visited: what holds of a cell whose
to_visit list has become empty. -/
def nbrsVisited (m : Maze) (i j : Nat) : Prop :=
  ∀ c ∈ DIRECTIONS, 0 ≤ (j : Int) + c.2.2 → (j : Int) + c.2.2 < m.num_cols →
    0 ≤ (i : Int) + c.2.1 → (i : Int) + c.2.1 < m.num_rows →
    (getCell m ((i : Int) + c.2.1).toNat ((j : Int) + c.2.2).toNat).visited = true

theorem to_visit_list_eq_nil_iff {m : Maze} {i j : Nat} :
    to_visit_list m i j = [] ↔ nbrsVisited m i j := by
  unfold to_visit_list nbrsVisited
  rw [List.filter_eq_nil_iff]
  constructor
  · intro h c hc h1 h2 h3 h4
    have := h c hc
    simp only [Bool.and_eq_true, decide_eq_true_eq, Bool.not_eq_true'] at this
    by_contra hvis
    exact this ⟨⟨⟨⟨h1, h2⟩, h3⟩, h4⟩, by
      cases hv : (getCell m ((i : Int) + c.2.1).toNat ((j : Int) + c.2.2).toNat).visited
      · rfl
      · exact absurd hv hvis⟩
  · intro h c hc
    simp only [Bool.and_eq_true, decide_eq_true_eq, Bool.not_eq_true']
    rintro ⟨⟨⟨⟨h1, h2⟩, h3⟩, h4⟩, h5⟩
    rw [h c hc h1 h2 h3 h4] at h5
    exact absurd h5 (by simp)

/-- The invariant maintained by the carving recursion: open interior edges join
visited cells only, visited cells are pairwise connected through open edges, and
the open-edge graph is acyclic. -/
def carveInv (R C : Nat) (m : Maze) : Prop :=
  (∀ a b : Nat × Nat, edgeOpen m a b →
    (getCell m a.1 a.2).visited = true ∧ (getCell m b.1 b.2).visited = true) ∧
  (∀ p q : Fin R × Fin C, (getCell m p.1.val p.2.val).visited = true →
    (getCell m q.1.val q.2.val).visited = true → (mazeGraph R C m).Reachable p q) ∧
  (mazeGraph R C m).IsAcyclic

theorem finPair_coord_iff {R C : Nat} (p : Fin R × Fin C) (w : Nat × Nat)
    (hw1 : w.1 < R) (hw2 : w.2 < C) :
    (p.1.val, p.2.val) = w ↔ p = (⟨w.1, hw1⟩, ⟨w.2, hw2⟩) := by
  constructor
  · intro h
    have h1 : p.1.val = w.1 := congrArg Prod.fst h
    have h2 : p.2.val = w.2 := congrArg Prod.snd h
    refine Prod.ext ?_ ?_
    · exact Fin.ext h1
    · exact Fin.ext h2
  · intro h
    subst h
    rfl

/-- Opening the shared wall between a visited cell u and an unvisited cell v and
then marking v visited preserves the carving invariant. -/
theorem carveInv_step {R C : Nat} {st st' : Maze} {u v : Nat × Nat}
    (hu1 : u.1 < R) (hu2 : u.2 < C) (hv1 : v.1 < R) (hv2 : v.2 < C)
    (huv : u ≠ v)
    (hvisited : ∀ a b : Nat, (getCell st' a b).visited =
      if a = v.1 ∧ b = v.2 then true else (getCell st a b).visited)
    (hedge : ∀ a b : Nat × Nat, edgeOpen st' a b ↔
      edgeOpen st a b ∨ (a = u ∧ b = v) ∨ (a = v ∧ b = u))
    (huvis : (getCell st u.1 u.2).visited = true)
    (hvvis : (getCell st v.1 v.2).visited = false)
    (hinv : carveInv R C st) : carveInv R C st' := by
  obtain ⟨inv1, inv2, inv3⟩ := hinv
  have huvne : ¬(u.1 = v.1 ∧ u.2 = v.2) := by
    intro hc
    exact huv (Prod.ext hc.1 hc.2)
  have hFadj : ∀ p q : Fin R × Fin C, (mazeGraph R C st').Adj p q ↔
      (mazeGraph R C st).Adj p q ∨
        (p = (⟨u.1, hu1⟩, ⟨u.2, hu2⟩) ∧ q = (⟨v.1, hv1⟩, ⟨v.2, hv2⟩)) ∨
        (p = (⟨v.1, hv1⟩, ⟨v.2, hv2⟩) ∧ q = (⟨u.1, hu1⟩, ⟨u.2, hu2⟩)) := by
    intro p q
    rw [mazeGraph_adj, mazeGraph_adj, hedge]
    rw [finPair_coord_iff p u hu1 hu2, finPair_coord_iff q v hv1 hv2,
      finPair_coord_iff p v hv1 hv2, finPair_coord_iff q u hu1 hu2]
  have hle : mazeGraph R C st ≤ mazeGraph R C st' := by
    intro a b hab
    exact (hFadj a b).mpr (Or.inl hab)
  have hvisF : ∀ p : Fin R × Fin C, (getCell st' p.1.val p.2.val).visited = true ↔
      (p = (⟨v.1, hv1⟩, ⟨v.2, hv2⟩) ∨ (getCell st p.1.val p.2.val).visited = true) := by
    intro p
    rw [hvisited]
    split_ifs with hcond
    · constructor
      · intro _
        exact Or.inl ((finPair_coord_iff p v hv1 hv2).mp (Prod.ext hcond.1 hcond.2))
      · intro _
        rfl
    · constructor
      · intro hp
        exact Or.inr hp
      · rintro (rfl | hp)
        · exact absurd ⟨rfl, rfl⟩ hcond
        · exact hp
  refine ⟨?_, ?_, ?_⟩
  · intro a b hab
    rw [hvisited, hvisited]
    rcases (hedge a b).mp hab with hold | ⟨rfl, rfl⟩ | ⟨rfl, rfl⟩
    · constructor
      · split_ifs with hc
        · rfl
        · exact (inv1 a b hold).1
      · split_ifs with hc
        · rfl
        · exact (inv1 a b hold).2
    · constructor
      · rw [if_neg huvne]
        exact huvis
      · rw [if_pos ⟨rfl, rfl⟩]
    · constructor
      · rw [if_pos ⟨rfl, rfl⟩]
      · rw [if_neg huvne]
        exact huvis
  · have hadjuv : (mazeGraph R C st').Adj (⟨u.1, hu1⟩, ⟨u.2, hu2⟩) (⟨v.1, hv1⟩, ⟨v.2, hv2⟩) :=
      (hFadj _ _).mpr (Or.inr (Or.inl ⟨rfl, rfl⟩))
    have hto_u : ∀ p : Fin R × Fin C, (getCell st p.1.val p.2.val).visited = true →
        (mazeGraph R C st').Reachable p (⟨u.1, hu1⟩, ⟨u.2, hu2⟩) := by
      intro p hp
      exact (inv2 p _ hp huvis).mono hle
    intro p q hp hq
    rcases (hvisF p).mp hp with rfl | hp'
    · rcases (hvisF q).mp hq with rfl | hq'
      · exact SimpleGraph.Reachable.refl _
      · exact hadjuv.reachable.symm.trans ((hto_u q hq').symm)
    · rcases (hvisF q).mp hq with rfl | hq'
      · exact (hto_u p hp').trans hadjuv.reachable
      · exact (inv2 p q hp' hq').mono hle
  · refine isAcyclic_pendant ?_ ?_ hFadj inv3
    · intro hc
      have h1 : u.1 = v.1 := congrArg (fun t => t.1.val) hc
      have h2 : u.2 = v.2 := congrArg (fun t => t.2.val) hc
      exact huvne ⟨h1, h2⟩
    · intro w hw
      have := (inv1 _ _ hw).1
      simp only at this
      rw [hvvis] at this
      exact absurd this (by simp)

theorem walls_mark_draw {m : Maze} (hWF : WF m) (i j ni nj a b : Nat) :
    wallsCell (getCell (markVisited (draw_cell m i j) ni nj) a b) =
      wallsCell (getCell m a b) := by
  rw [markVisited_wallsCell (WF_draw_cell hWF i j)]
  exact coreCell_wallsCell (draw_cell_coreCell hWF i j a b)

theorem visited_mark_draw {m : Maze} (hWF : WF m) (i j ni nj a b : Nat) :
    (getCell (markVisited (draw_cell m i j) ni nj) a b).visited =
      if a = ni ∧ b = nj ∧ ni < m.num_rows.toNat ∧ nj < m.num_cols.toNat then true
      else (getCell m a b).visited := by
  rw [markVisited_visited (WF_draw_cell hWF i j)]
  simp only [draw_cell_num_rows, draw_cell_num_cols]
  split_ifs with h1
  · rfl
  · exact coreCell_visited (draw_cell_coreCell hWF i j a b)

/-- One iteration of the carving loop: opening the randomly chosen passage,
redrawing the current cell, and marking the chosen neighbour visited preserves the
carving invariant. -/
theorem carveInv_loop_step {R C : Nat} {st : Maze} {i j : Nat}
    {c : Direction × Int × Int}
    (hWF : WF st) (hR : st.num_rows.toNat = R) (hC : st.num_cols.toNat = C)
    (hi : i < R) (hj : j < C)
    (hmem : c ∈ to_visit_list st i j)
    (hvis : (getCell st i j).visited = true)
    (hinv : carveInv R C st) :
    carveInv R C (markVisited (draw_cell (openPassage st i j c.1) i j)
      ((i : Int) + c.2.1).toNat ((j : Int) + c.2.2).toNat) := by
  obtain ⟨hdir, t1, t2, t3, t4, hunvis⟩ := mem_to_visit_list.mp hmem
  have hdelta := DIRECTIONS_delta hdir
  obtain ⟨d, dy, dx⟩ := c
  simp only at hdelta hunvis t1 t2 t3 t4 ⊢
  have hWFo : WF (openPassage st i j d) := WF_openPassage hWF i j d
  cases d
  case up =>
    have hdy : dy = -1 := congrArg Prod.fst hdelta
    have hdx : dx = 0 := congrArg Prod.snd hdelta
    subst hdy
    subst hdx
    have h1i : 1 ≤ i := by omega
    have hii : i < st.num_rows.toNat := by omega
    have hjj : j < st.num_cols.toNat := by omega
    have hni : ((i : Int) + (-1 : Int)).toNat = i - 1 := by omega
    have hnj : ((j : Int) + (0 : Int)).toNat = j := by omega
    rw [hni, hnj]
    refine carveInv_step (u := (i, j)) (v := (i - 1, j)) hi hj (by omega) (by simpa using hj)
      (by simp; omega) ?_ ?_ hvis ?_ hinv
    · intro a b
      rw [visited_mark_draw hWFo i j (i - 1) j a b]
      simp only [openPassage_num_rows, openPassage_num_cols]
      by_cases hA : a = (i - 1) ∧ b = j
      · rw [if_pos ⟨hA.1, hA.2, by omega, by omega⟩, if_pos hA]
      · rw [if_neg (fun hcc => hA ⟨hcc.1, hcc.2.1⟩), if_neg hA]
        exact openPassage_visited hWF ⟨by omega, by omega, by simp [dirDelta] <;> omega, by simp [dirDelta] <;> omega, by simp [dirDelta] <;> omega, by simp [dirDelta] <;> omega⟩ a b
    · intro a b
      rw [edgeOpen_of_walls_eq (fun a b => walls_mark_draw hWFo i j (i - 1) j a b) a b]
      exact edgeOpen_openPassage_up hWF h1i hii hjj a b
    · rw [← hni, ← hnj]
      exact hunvis
  case down =>
    have hdy : dy = 1 := congrArg Prod.fst hdelta
    have hdx : dx = 0 := congrArg Prod.snd hdelta
    subst hdy
    subst hdx
    have hi1 : i + 1 < st.num_rows.toNat := by omega
    have hjj : j < st.num_cols.toNat := by omega
    have hni : ((i : Int) + (1 : Int)).toNat = i + 1 := by omega
    have hnj : ((j : Int) + (0 : Int)).toNat = j := by omega
    rw [hni, hnj]
    refine carveInv_step (u := (i, j)) (v := (i + 1, j)) hi hj (by omega) (by simpa using hj)
      (by simp) ?_ ?_ hvis ?_ hinv
    · intro a b
      rw [visited_mark_draw hWFo i j (i + 1) j a b]
      simp only [openPassage_num_rows, openPassage_num_cols]
      by_cases hA : a = (i + 1) ∧ b = j
      · rw [if_pos ⟨hA.1, hA.2, by omega, by omega⟩, if_pos hA]
      · rw [if_neg (fun hcc => hA ⟨hcc.1, hcc.2.1⟩), if_neg hA]
        exact openPassage_visited hWF ⟨by omega, by omega, by simp [dirDelta] <;> omega, by simp [dirDelta] <;> omega, by simp [dirDelta] <;> omega, by simp [dirDelta] <;> omega⟩ a b
    · intro a b
      rw [edgeOpen_of_walls_eq (fun a b => walls_mark_draw hWFo i j (i + 1) j a b) a b]
      exact edgeOpen_openPassage_down hWF hi1 hjj a b
    · rw [← hni, ← hnj]
      exact hunvis
  case left =>
    have hdy : dy = 0 := congrArg Prod.fst hdelta
    have hdx : dx = -1 := congrArg Prod.snd hdelta
    subst hdy
    subst hdx
    have h1j : 1 ≤ j := by omega
    have hii : i < st.num_rows.toNat := by omega
    have hjj : j < st.num_cols.toNat := by omega
    have hni : ((i : Int) + (0 : Int)).toNat = i := by omega
    have hnj : ((j : Int) + (-1 : Int)).toNat = j - 1 := by omega
    rw [hni, hnj]
    refine carveInv_step (u := (i, j)) (v := (i, j - 1)) hi hj (by simpa using hi) (by omega)
      (by simp; omega) ?_ ?_ hvis ?_ hinv
    · intro a b
      rw [visited_mark_draw hWFo i j i (j - 1) a b]
      simp only [openPassage_num_rows, openPassage_num_cols]
      by_cases hA : a = i ∧ b = (j - 1)
      · rw [if_pos ⟨hA.1, hA.2, by omega, by omega⟩, if_pos hA]
      · rw [if_neg (fun hcc => hA ⟨hcc.1, hcc.2.1⟩), if_neg hA]
        exact openPassage_visited hWF ⟨by omega, by omega, by simp [dirDelta] <;> omega, by simp [dirDelta] <;> omega, by simp [dirDelta] <;> omega, by simp [dirDelta] <;> omega⟩ a b
    · intro a b
      rw [edgeOpen_of_walls_eq (fun a b => walls_mark_draw hWFo i j i (j - 1) a b) a b]
      exact edgeOpen_openPassage_left hWF h1j hii hjj a b
    · rw [← hni, ← hnj]
      exact hunvis
  case right =>
    have hdy : dy = 0 := congrArg Prod.fst hdelta
    have hdx : dx = 1 := congrArg Prod.snd hdelta
    subst hdy
    subst hdx
    have hii : i < st.num_rows.toNat := by omega
    have hj1 : j + 1 < st.num_cols.toNat := by omega
    have hni : ((i : Int) + (0 : Int)).toNat = i := by omega
    have hnj : ((j : Int) + (1 : Int)).toNat = j + 1 := by omega
    rw [hni, hnj]
    refine carveInv_step (u := (i, j)) (v := (i, j + 1)) hi hj (by simpa using hi) (by omega)
      (by simp) ?_ ?_ hvis ?_ hinv
    · intro a b
      rw [visited_mark_draw hWFo i j i (j + 1) a b]
      simp only [openPassage_num_rows, openPassage_num_cols]
      by_cases hA : a = i ∧ b = (j + 1)
      · rw [if_pos ⟨hA.1, hA.2, by omega, by omega⟩, if_pos hA]
      · rw [if_neg (fun hcc => hA ⟨hcc.1, hcc.2.1⟩), if_neg hA]
        exact openPassage_visited hWF ⟨by omega, by omega, by simp [dirDelta] <;> omega, by simp [dirDelta] <;> omega, by simp [dirDelta] <;> omega, by simp [dirDelta] <;> omega⟩ a b
    · intro a b
      rw [edgeOpen_of_walls_eq (fun a b => walls_mark_draw hWFo i j i (j + 1) a b) a b]
      exact edgeOpen_openPassage_right hWF hii hj1 a b
    · rw [← hni, ← hnj]
      exact hunvis

theorem stepOK_of_tv {m : Maze} {i j : Nat} {c : Direction × Int × Int}
    (hi : i < m.num_rows.toNat) (hj : j < m.num_cols.toNat)
    (hmem : c ∈ to_visit_list m i j) : stepOK m i j c.1 := by
  obtain ⟨hdir, t1, t2, t3, t4, _⟩ := mem_to_visit_list.mp hmem
  have hdelta := DIRECTIONS_delta hdir
  refine ⟨hi, hj, ?_, ?_, ?_, ?_⟩
  · rw [← congrArg Prod.fst hdelta]; exact t3
  · rw [← congrArg Prod.fst hdelta]; exact t4
  · rw [← congrArg Prod.snd hdelta]; exact t1
  · rw [← congrArg Prod.snd hdelta]; exact t2

theorem visited_after_carve_step {st : Maze} (hWF : WF st) {i j : Nat}
    (hi : i < st.num_rows.toNat) (hj : j < st.num_cols.toNat)
    {c : Direction × Int × Int} (hmem : c ∈ to_visit_list st i j) (a b : Nat) :
    (getCell (markVisited (draw_cell (openPassage st i j c.1) i j)
        ((i : Int) + c.2.1).toNat ((j : Int) + c.2.2).toNat) a b).visited =
      if a = ((i : Int) + c.2.1).toNat ∧ b = ((j : Int) + c.2.2).toNat then true
      else (getCell st a b).visited := by
  obtain ⟨hdir, t1, t2, t3, t4, _⟩ := mem_to_visit_list.mp hmem
  have hWFo : WF (openPassage st i j c.1) := WF_openPassage hWF i j c.1
  rw [visited_mark_draw hWFo i j _ _ a b]
  simp only [openPassage_num_rows, openPassage_num_cols]
  by_cases hA : a = ((i : Int) + c.2.1).toNat ∧ b = ((j : Int) + c.2.2).toNat
  · rw [if_pos ⟨hA.1, hA.2, by omega, by omega⟩, if_pos hA]
  · rw [if_neg (fun hcc => hA ⟨hcc.1, hcc.2.1⟩), if_neg hA]
    exact openPassage_visited hWF (stepOK_of_tv hi hj hmem) a b

theorem carveInv_of_eq {R C : Nat} {m m' : Maze}
    (hw : ∀ a b, wallsCell (getCell m' a b) = wallsCell (getCell m a b))
    (hv : ∀ a b, (getCell m' a b).visited = (getCell m a b).visited)
    (h : carveInv R C m) : carveInv R C m' := by
  have hg : mazeGraph R C m' = mazeGraph R C m := mazeGraph_eq_of_walls_eq hw
  obtain ⟨inv1, inv2, inv3⟩ := h
  refine ⟨?_, ?_, ?_⟩
  · intro a b hab
    rw [hv, hv]
    exact inv1 a b ((edgeOpen_of_walls_eq hw a b).mp hab)
  · intro p q hp hq
    rw [hg]
    rw [hv] at hp
    rw [hv] at hq
    exact inv2 p q hp hq
  · rw [hg]
    exact inv3

theorem nbrsVisited_mono {m m' : Maze}
    (hr : m'.num_rows = m.num_rows) (hc : m'.num_cols = m.num_cols)
    (hmono : ∀ a b, (getCell m a b).visited = true → (getCell m' a b).visited = true)
    {i j : Nat} (h : nbrsVisited m i j) : nbrsVisited m' i j := by
  intro c hcd h1 h2 h3 h4
  rw [hc] at h2
  rw [hr] at h4
  exact hmono _ _ (h c hcd h1 h2 h3 h4)


theorem break_walls_r_shape (rng : Nat → Nat) :
    ∀ fuel mode st k i j st' k',
      break_walls_r rng fuel mode st k i j = some (st', k') → WF st →
      WF st' ∧ st'.num_rows = st.num_rows ∧ st'.num_cols = st.num_cols ∧
        st'.win = st.win := by
  intro fuel
  induction fuel with
  | zero =>
    intro mode st k i j st' k' h _
    simp [break_walls_r] at h
  | succ fuel ih =>
    intro mode st k i j st' k' h hWF
    cases mode
    · -- loop mode (false)
      simp only [break_walls_r] at h
      by_cases htv : (to_visit_list st i j).isEmpty
      · rw [if_pos htv] at h
        simp only [Option.some.injEq, Prod.mk.injEq] at h
        obtain ⟨h1, _⟩ := h
        subst h1
        refine ⟨WF_draw_cell hWF i j, ?_, ?_, ?_⟩ <;> simp
      · rw [if_neg htv] at h
        cases hrec : break_walls_r rng fuel true
            (draw_cell (openPassage st i j (randomChoice rng k (to_visit_list st i j)).1) i j)
            (k + 1) ((i : Int) + (randomChoice rng k (to_visit_list st i j)).2.1).toNat
            ((j : Int) + (randomChoice rng k (to_visit_list st i j)).2.2).toNat with
        | none =>
          rw [hrec] at h
          simp at h
        | some p =>
          obtain ⟨st3, k2⟩ := p
          rw [hrec] at h
          simp only at h
          have hWF2 : WF (draw_cell (openPassage st i j
              (randomChoice rng k (to_visit_list st i j)).1) i j) :=
            WF_draw_cell (WF_openPassage hWF i j _) i j
          obtain ⟨w1, w2, w3, w4⟩ := ih _ _ _ _ _ _ _ hrec hWF2
          obtain ⟨v1, v2, v3, v4⟩ := ih _ _ _ _ _ _ _ h w1
          refine ⟨v1, ?_, ?_, ?_⟩
          · rw [v2, w2]; simp
          · rw [v3, w3]; simp
          · rw [v4, w4]; simp
    · -- enter mode (true)
      simp only [break_walls_r] at h
      obtain ⟨w1, w2, w3, w4⟩ := ih _ _ _ _ _ _ _ h (WF_markVisited hWF i j)
      exact ⟨w1, by simpa using w2, by simpa using w3, by simpa using w4⟩


theorem break_walls_r_visited (rng : Nat → Nat) :
    ∀ fuel mode st k i j st' k',
      break_walls_r rng fuel mode st k i j = some (st', k') → WF st →
      i < st.num_rows.toNat → j < st.num_cols.toNat →
      (mode = false → (getCell st i j).visited = true) →
      (∀ a b, (getCell st a b).visited = true → (getCell st' a b).visited = true) ∧
      (getCell st' i j).visited = true := by
  intro fuel
  induction fuel with
  | zero =>
    intro mode st k i j st' k' h _ _ _ _
    simp [break_walls_r] at h
  | succ fuel ih =>
    intro mode st k i j st' k' h hWF hi hj hpre
    cases mode
    · -- loop mode (false)
      simp only [break_walls_r] at h
      by_cases htv : (to_visit_list st i j).isEmpty
      · rw [if_pos htv] at h
        simp only [Option.some.injEq, Prod.mk.injEq] at h
        obtain ⟨h1, _⟩ := h
        subst h1
        have heq : ∀ a b, (getCell (draw_cell st i j) a b).visited = (getCell st a b).visited :=
          fun a b => coreCell_visited (draw_cell_coreCell hWF i j a b)
        refine ⟨fun a b hv => by rw [heq]; exact hv, ?_⟩
        rw [heq]
        exact hpre rfl
      · rw [if_neg htv] at h
        have htvne : to_visit_list st i j ≠ [] := fun hn => by simp [hn] at htv
        have hmemc := randomChoice_mem rng k htvne
        obtain ⟨hdir, t1, t2, t3, t4, hunvis⟩ := mem_to_visit_list.mp hmemc
        cases hrec : break_walls_r rng fuel true
            (draw_cell (openPassage st i j (randomChoice rng k (to_visit_list st i j)).1) i j)
            (k + 1) ((i : Int) + (randomChoice rng k (to_visit_list st i j)).2.1).toNat
            ((j : Int) + (randomChoice rng k (to_visit_list st i j)).2.2).toNat with
        | none =>
          rw [hrec] at h
          simp at h
        | some p =>
          obtain ⟨st3, k2⟩ := p
          rw [hrec] at h
          simp only at h
          have hWF2 : WF (draw_cell (openPassage st i j
              (randomChoice rng k (to_visit_list st i j)).1) i j) :=
            WF_draw_cell (WF_openPassage hWF i j _) i j
          have hv2 : ∀ a b, (getCell (draw_cell (openPassage st i j
              (randomChoice rng k (to_visit_list st i j)).1) i j) a b).visited
              = (getCell st a b).visited := by
            intro a b
            rw [coreCell_visited (draw_cell_coreCell (WF_openPassage hWF i j _) i j a b)]
            exact openPassage_visited hWF (stepOK_of_tv hi hj hmemc) a b
          obtain ⟨shWF3, sh2, sh3, _⟩ := break_walls_r_shape rng _ _ _ _ _ _ _ _ hrec hWF2
          obtain ⟨m2, _⟩ := ih _ _ _ _ _ _ _ hrec hWF2
            (by simp; omega) (by simp; omega) (by intro hcc; exact absurd hcc (by simp))
          obtain ⟨m3, mk3⟩ := ih _ _ _ _ _ _ _ h shWF3
            (by rw [sh2]; simp; omega) (by rw [sh3]; simp; omega)
            (by
              intro _
              exact m2 i j (by rw [hv2]; exact hpre rfl))
          refine ⟨?_, mk3⟩
          intro a b hv
          exact m3 a b (m2 a b (by rw [hv2]; exact hv))
    · -- enter mode (true)
      simp only [break_walls_r] at h
      have hmark : (getCell (markVisited st i j) i j).visited = true := by
        rw [markVisited_visited hWF]
        rw [if_pos ⟨rfl, rfl, hi, hj⟩]
      obtain ⟨m1, mk1⟩ := ih _ _ _ _ _ _ _ h (WF_markVisited hWF i j)
        (by simpa using hi) (by simpa using hj) (fun _ => hmark)
      refine ⟨?_, mk1⟩
      intro a b hv
      apply m1
      rw [markVisited_visited hWF]
      split_ifs with hcc
      · rfl
      · exact hv


/-- The boundary-facing wall flags (top of row 0, bottom of the last row, left of
column 0, right of the last column) of m' agree with those of m. -/
def boundaryEq (m m' : Maze) : Prop :=
  (∀ b, (getCell m' 0 b).has_top_wall = (getCell m 0 b).has_top_wall) ∧
  (∀ b, (getCell m' (m.num_rows.toNat - 1) b).has_bottom_wall =
    (getCell m (m.num_rows.toNat - 1) b).has_bottom_wall) ∧
  (∀ a, (getCell m' a 0).has_left_wall = (getCell m a 0).has_left_wall) ∧
  (∀ a, (getCell m' a (m.num_cols.toNat - 1)).has_right_wall =
    (getCell m a (m.num_cols.toNat - 1)).has_right_wall)

theorem boundaryEq_of_walls_eq {m m' : Maze}
    (hw : ∀ a b, wallsCell (getCell m' a b) = wallsCell (getCell m a b)) :
    boundaryEq m m' :=
  ⟨fun b => wallsCell_top (hw 0 b), fun b => wallsCell_bottom (hw _ b),
   fun a => wallsCell_left (hw a 0), fun a => wallsCell_right (hw a _)⟩

theorem boundaryEq_trans {m1 m2 m3 : Maze}
    (hr : m2.num_rows = m1.num_rows) (hc : m2.num_cols = m1.num_cols)
    (h12 : boundaryEq m1 m2) (h23 : boundaryEq m2 m3) : boundaryEq m1 m3 := by
  obtain ⟨a1, a2, a3, a4⟩ := h12
  obtain ⟨b1, b2, b3, b4⟩ := h23
  rw [hr] at b2
  rw [hc] at b4
  exact ⟨fun b => (b1 b).trans (a1 b), fun b => (b2 b).trans (a2 b),
    fun a => (b3 a).trans (a3 a), fun a => (b4 a).trans (a4 a)⟩

theorem boundaryEq_openPassage {m : Maze} (hWF : WF m) {i j : Nat}
    (hi : i < m.num_rows.toNat) (hj : j < m.num_cols.toNat)
    {c : Direction × Int × Int} (hmem : c ∈ to_visit_list m i j) :
    boundaryEq m (openPassage m i j c.1) := by
  obtain ⟨hdir, t1, t2, t3, t4, _⟩ := mem_to_visit_list.mp hmem
  have hdelta := DIRECTIONS_delta hdir
  obtain ⟨d, dy, dx⟩ := c
  simp only at hdelta ⊢
  cases d
  case up =>
    have hdy : dy = -1 := congrArg Prod.fst hdelta
    have hdx : dx = 0 := congrArg Prod.snd hdelta
    subst hdy; subst hdx
    simp only at t1 t2 t3 t4
    refine ⟨?_, ?_, ?_, ?_⟩
    · intro b
      rw [openPassage_up_has_top_wall hWF (by omega) hi hj, if_neg (by omega)]
    · intro b
      rw [openPassage_up_has_bottom_wall hWF (by omega) hi hj, if_neg (by omega)]
    · intro a
      rw [openPassage_up_has_left_wall hWF (by omega) hi hj]
    · intro a
      rw [openPassage_up_has_right_wall hWF (by omega) hi hj]
  case down =>
    have hdy : dy = 1 := congrArg Prod.fst hdelta
    have hdx : dx = 0 := congrArg Prod.snd hdelta
    subst hdy; subst hdx
    simp only at t1 t2 t3 t4
    refine ⟨?_, ?_, ?_, ?_⟩
    · intro b
      rw [openPassage_down_has_top_wall hWF (by omega) hj, if_neg (by omega)]
    · intro b
      rw [openPassage_down_has_bottom_wall hWF (by omega) hj, if_neg (by omega)]
    · intro a
      rw [openPassage_down_has_left_wall hWF (by omega) hj]
    · intro a
      rw [openPassage_down_has_right_wall hWF (by omega) hj]
  case left =>
    have hdy : dy = 0 := congrArg Prod.fst hdelta
    have hdx : dx = -1 := congrArg Prod.snd hdelta
    subst hdy; subst hdx
    simp only at t1 t2 t3 t4
    refine ⟨?_, ?_, ?_, ?_⟩
    · intro b
      rw [openPassage_left_has_top_wall hWF (by omega) hi hj]
    · intro b
      rw [openPassage_left_has_bottom_wall hWF (by omega) hi hj]
    · intro a
      rw [openPassage_left_has_left_wall hWF (by omega) hi hj, if_neg (by omega)]
    · intro a
      rw [openPassage_left_has_right_wall hWF (by omega) hi hj, if_neg (by omega)]
  case right =>
    have hdy : dy = 0 := congrArg Prod.fst hdelta
    have hdx : dx = 1 := congrArg Prod.snd hdelta
    subst hdy; subst hdx
    simp only at t1 t2 t3 t4
    refine ⟨?_, ?_, ?_, ?_⟩
    · intro b
      rw [openPassage_right_has_top_wall hWF hi (by omega)]
    · intro b
      rw [openPassage_right_has_bottom_wall hWF hi (by omega)]
    · intro a
      rw [openPassage_right_has_left_wall hWF hi (by omega), if_neg (by omega)]
    · intro a
      rw [openPassage_right_has_right_wall hWF hi (by omega), if_neg (by omega)]

theorem consistentM_openPassage_tv {m : Maze} (hWF : WF m) {i j : Nat}
    (hi : i < m.num_rows.toNat) (hj : j < m.num_cols.toNat)
    {c : Direction × Int × Int} (hmem : c ∈ to_visit_list m i j)
    (hcon : consistentM m) : consistentM (openPassage m i j c.1) := by
  obtain ⟨hdir, t1, t2, t3, t4, _⟩ := mem_to_visit_list.mp hmem
  have hdelta := DIRECTIONS_delta hdir
  obtain ⟨d, dy, dx⟩ := c
  simp only at hdelta ⊢
  cases d
  case up =>
    have hdy : dy = -1 := congrArg Prod.fst hdelta
    subst hdy
    simp only at t3
    exact consistentM_openPassage_up hWF (by omega) hi hj hcon
  case down =>
    have hdy : dy = 1 := congrArg Prod.fst hdelta
    subst hdy
    simp only at t4
    exact consistentM_openPassage_down hWF (by omega) hj hcon
  case left =>
    have hdx : dx = -1 := congrArg Prod.snd hdelta
    subst hdx
    simp only at t1
    exact consistentM_openPassage_left hWF (by omega) hi hj hcon
  case right =>
    have hdx : dx = 1 := congrArg Prod.snd hdelta
    subst hdx
    simp only at t2
    exact consistentM_openPassage_right hWF hi (by omega) hcon


theorem break_walls_r_walls (rng : Nat → Nat) :
    ∀ fuel mode st k i j st' k',
      break_walls_r rng fuel mode st k i j = some (st', k') → WF st →
      i < st.num_rows.toNat → j < st.num_cols.toNat →
      boundaryEq st st' ∧ (consistentM st → consistentM st') := by
  intro fuel
  induction fuel with
  | zero =>
    intro mode st k i j st' k' h _ _ _
    simp [break_walls_r] at h
  | succ fuel ih =>
    intro mode st k i j st' k' h hWF hi hj
    cases mode
    · -- loop mode (false)
      simp only [break_walls_r] at h
      by_cases htv : (to_visit_list st i j).isEmpty
      · rw [if_pos htv] at h
        simp only [Option.some.injEq, Prod.mk.injEq] at h
        obtain ⟨h1, _⟩ := h
        subst h1
        have hwalls : ∀ a b, wallsCell (getCell (draw_cell st i j) a b) =
            wallsCell (getCell st a b) :=
          fun a b => coreCell_wallsCell (draw_cell_coreCell hWF i j a b)
        exact ⟨boundaryEq_of_walls_eq hwalls, consistentM_draw_cell hWF i j⟩
      · rw [if_neg htv] at h
        have htvne : to_visit_list st i j ≠ [] := fun hn => by simp [hn] at htv
        have hmemc := randomChoice_mem rng k htvne
        obtain ⟨hdir, t1, t2, t3, t4, hunvis⟩ := mem_to_visit_list.mp hmemc
        cases hrec : break_walls_r rng fuel true
            (draw_cell (openPassage st i j (randomChoice rng k (to_visit_list st i j)).1) i j)
            (k + 1) ((i : Int) + (randomChoice rng k (to_visit_list st i j)).2.1).toNat
            ((j : Int) + (randomChoice rng k (to_visit_list st i j)).2.2).toNat with
        | none =>
          rw [hrec] at h
          simp at h
        | some p =>
          obtain ⟨st3, k2⟩ := p
          rw [hrec] at h
          simp only at h
          have hWFo : WF (openPassage st i j
              (randomChoice rng k (to_visit_list st i j)).1) :=
            WF_openPassage hWF i j _
          have hWF2 : WF (draw_cell (openPassage st i j
              (randomChoice rng k (to_visit_list st i j)).1) i j) :=
            WF_draw_cell hWFo i j
          obtain ⟨shWF3, sh2, sh3, _⟩ := break_walls_r_shape rng _ _ _ _ _ _ _ _ hrec hWF2
          obtain ⟨bd1, cn1⟩ := ih _ _ _ _ _ _ _ hrec hWF2 (by simp; omega) (by simp; omega)
          obtain ⟨bd2, cn2⟩ := ih _ _ _ _ _ _ _ h shWF3
            (by rw [sh2]; simp; omega) (by rw [sh3]; simp; omega)
          have hwallsd : ∀ a b, wallsCell (getCell (draw_cell (openPassage st i j
              (randomChoice rng k (to_visit_list st i j)).1) i j) a b) =
              wallsCell (getCell (openPassage st i j
                (randomChoice rng k (to_visit_list st i j)).1) a b) :=
            fun a b => coreCell_wallsCell (draw_cell_coreCell hWFo i j a b)
          constructor
          · refine boundaryEq_trans (by simp) (by simp)
              (boundaryEq_openPassage hWF hi hj hmemc) ?_
            refine boundaryEq_trans (by simp) (by simp)
              (boundaryEq_of_walls_eq hwallsd) ?_
            exact boundaryEq_trans sh2 sh3 bd1 bd2
          · intro hcon
            exact cn2 (cn1 (consistentM_draw_cell hWFo i j
              (consistentM_openPassage_tv hWF hi hj hmemc hcon)))
    · -- enter mode (true)
      simp only [break_walls_r] at h
      obtain ⟨bd1, cn1⟩ := ih _ _ _ _ _ _ _ h (WF_markVisited hWF i j)
        (by simpa using hi) (by simpa using hj)
      have hwalls : ∀ a b, wallsCell (getCell (markVisited st i j) a b) =
          wallsCell (getCell st a b) := markVisited_wallsCell hWF i j
      constructor
      · exact boundaryEq_trans (by simp) (by simp) (boundaryEq_of_walls_eq hwalls) bd1
      · intro hcon
        exact cn1 (consistentM_markVisited hWF i j hcon)


theorem break_walls_r_inv (rng : Nat → Nat) (R C : Nat) :
    ∀ fuel mode st k i j st' k',
      break_walls_r rng fuel mode st k i j = some (st', k') → WF st →
      st.num_rows.toNat = R → st.num_cols.toNat = C →
      i < R → j < C →
      (mode = true → carveInv R C (markVisited st i j)) →
      (mode = false → (getCell st i j).visited = true ∧ carveInv R C st) →
      carveInv R C st' ∧
      (∀ a b : Nat, (getCell st' a b).visited = true →
        (getCell st a b).visited = false → nbrsVisited st' a b) ∧
      nbrsVisited st' i j := by
  intro fuel
  induction fuel with
  | zero =>
    intro mode st k i j st' k' h
    simp [break_walls_r] at h
  | succ fuel ih =>
    intro mode st k i j st' k' h hWF hR hC hi hj hpret hpref
    cases mode
    · -- loop mode (false)
      obtain ⟨hvis, hinv⟩ := hpref rfl
      simp only [break_walls_r] at h
      by_cases htv : (to_visit_list st i j).isEmpty
      · rw [if_pos htv] at h
        simp only [Option.some.injEq, Prod.mk.injEq] at h
        obtain ⟨h1, _⟩ := h
        subst h1
        have hwalls : ∀ a b, wallsCell (getCell (draw_cell st i j) a b) =
            wallsCell (getCell st a b) :=
          fun a b => coreCell_wallsCell (draw_cell_coreCell hWF i j a b)
        have hvs : ∀ a b, (getCell (draw_cell st i j) a b).visited =
            (getCell st a b).visited :=
          fun a b => coreCell_visited (draw_cell_coreCell hWF i j a b)
        refine ⟨carveInv_of_eq hwalls hvs hinv, ?_, ?_⟩
        · intro a b hv hnv
          rw [hvs] at hv
          rw [hv] at hnv
          exact absurd hnv (by simp)
        · have hnb : nbrsVisited st i j :=
            to_visit_list_eq_nil_iff.mp (List.isEmpty_iff.mp htv)
          exact nbrsVisited_mono (by simp) (by simp)
            (fun a b hv => by rw [hvs]; exact hv) hnb
      · rw [if_neg htv] at h
        have htvne : to_visit_list st i j ≠ [] := fun hn => by simp [hn] at htv
        have hmemc := randomChoice_mem rng k htvne
        obtain ⟨hdir, t1, t2, t3, t4, hunvis⟩ := mem_to_visit_list.mp hmemc
        cases hrec : break_walls_r rng fuel true
            (draw_cell (openPassage st i j (randomChoice rng k (to_visit_list st i j)).1) i j)
            (k + 1) ((i : Int) + (randomChoice rng k (to_visit_list st i j)).2.1).toNat
            ((j : Int) + (randomChoice rng k (to_visit_list st i j)).2.2).toNat with
        | none =>
          rw [hrec] at h
          simp at h
        | some p =>
          obtain ⟨st3, k2⟩ := p
          rw [hrec] at h
          simp only at h
          have hWFo : WF (openPassage st i j
              (randomChoice rng k (to_visit_list st i j)).1) :=
            WF_openPassage hWF i j _
          have hWF2 : WF (draw_cell (openPassage st i j
              (randomChoice rng k (to_visit_list st i j)).1) i j) :=
            WF_draw_cell hWFo i j
          have hni : (((i : Int) + (randomChoice rng k (to_visit_list st i j)).2.1).toNat) < R := by
            omega
          have hnj : (((j : Int) + (randomChoice rng k (to_visit_list st i j)).2.2).toNat) < C := by
            omega
          have hinv2m := carveInv_loop_step hWF hR hC hi hj hmemc hvis hinv
          obtain ⟨shWF3, sh2, sh3, _⟩ := break_walls_r_shape rng _ _ _ _ _ _ _ _ hrec hWF2
          obtain ⟨icv3, icl3, inb3⟩ := ih _ _ _ _ _ _ _ hrec hWF2
            (by simp; omega) (by simp; omega) hni hnj
            (fun _ => hinv2m) (by intro hcc; exact absurd hcc (by simp))
          obtain ⟨mono23, _⟩ := break_walls_r_visited rng _ _ _ _ _ _ _ _ hrec hWF2
            (by simp; omega) (by simp; omega) (by intro hcc; exact absurd hcc (by simp))
          obtain ⟨mono3f, _⟩ := break_walls_r_visited rng _ _ _ _ _ _ _ _ h shWF3
            (by rw [sh2]; simp; omega) (by rw [sh3]; simp; omega)
            (by
              intro _
              apply mono23
              rw [coreCell_visited (draw_cell_coreCell hWFo i j i j),
                openPassage_visited hWF (stepOK_of_tv (by omega) (by omega) hmemc) i j]
              exact hvis)
          have hv2 : ∀ a b, (getCell (draw_cell (openPassage st i j
              (randomChoice rng k (to_visit_list st i j)).1) i j) a b).visited
              = (getCell st a b).visited := by
            intro a b
            rw [coreCell_visited (draw_cell_coreCell hWFo i j a b)]
            exact openPassage_visited hWF (stepOK_of_tv (by omega) (by omega) hmemc) a b
          obtain ⟨fshWF, fsh2, fsh3, _⟩ := break_walls_r_shape rng _ _ _ _ _ _ _ _ h shWF3
          obtain ⟨fcv, fcl, fnb⟩ := ih _ _ _ _ _ _ _ h shWF3
            (by rw [sh2]; simp; omega) (by rw [sh3]; simp; omega) hi hj
            (by intro hcc; exact absurd hcc (by simp))
            (by
              intro _
              refine ⟨?_, icv3⟩
              apply mono23
              rw [hv2]
              exact hvis)
          refine ⟨fcv, ?_, fnb⟩
          intro a b hv hnv
          by_cases h3 : (getCell st3 a b).visited = true
          · have hnb3 := icl3 a b h3 (by rw [hv2]; exact hnv)
            exact nbrsVisited_mono (by rw [fsh2]) (by rw [fsh3]) mono3f hnb3
          · have h3f : (getCell st3 a b).visited = false := by
              cases hvv : (getCell st3 a b).visited
              · rfl
              · exact absurd hvv h3
            exact fcl a b hv h3f
    · -- enter mode (true)
      have hinvm := hpret rfl
      simp only [break_walls_r] at h
      have hd2 : (markVisited st i j).num_rows.toNat = R := by simpa using hR
      have hd3 : (markVisited st i j).num_cols.toNat = C := by simpa using hC
      have hmark : (getCell (markVisited st i j) i j).visited = true := by
        rw [markVisited_visited hWF, if_pos ⟨rfl, rfl, by omega, by omega⟩]
      obtain ⟨icv, icl, inb⟩ := ih _ _ _ _ _ _ _ h (WF_markVisited hWF i j)
        hd2 hd3 hi hj (by intro hcc; exact absurd hcc (by simp))
        (fun _ => ⟨hmark, hinvm⟩)
      refine ⟨icv, ?_, inb⟩
      intro a b hv hnv
      by_cases hab : a = i ∧ b = j
      · obtain ⟨rfl, rfl⟩ := hab
        exact inb
      · apply icl a b hv
        rw [markVisited_visited hWF]
        rw [if_neg (fun hcc => hab ⟨hcc.1, hcc.2.1⟩)]
        exact hnv


/-- Number of unvisited in-bounds cells; the termination measure of both recursive
algorithms. -/
def unvisitedCount (m : Maze) : Nat :=
  ((Finset.range m.num_rows.toNat ×ˢ Finset.range m.num_cols.toNat).filter
    (fun p => ¬(getCell m p.1 p.2).visited = true)).card

theorem unvisitedCount_congr {m m' : Maze}
    (hr : m'.num_rows = m.num_rows) (hc : m'.num_cols = m.num_cols)
    (hv : ∀ a b, (getCell m' a b).visited = (getCell m a b).visited) :
    unvisitedCount m' = unvisitedCount m := by
  unfold unvisitedCount
  rw [hr, hc]
  congr 1
  apply Finset.filter_congr
  intro p _
  rw [hv]

theorem unvisitedCount_pos {m : Maze} {i j : Nat}
    (hi : i < m.num_rows.toNat) (hj : j < m.num_cols.toNat)
    (hv : (getCell m i j).visited = false) : 1 ≤ unvisitedCount m := by
  unfold unvisitedCount
  rw [Nat.succ_le_iff, Finset.card_pos]
  refine ⟨(i, j), ?_⟩
  rw [Finset.mem_filter]
  refine ⟨Finset.mem_product.mpr ⟨Finset.mem_range.mpr hi, Finset.mem_range.mpr hj⟩, ?_⟩
  rw [hv]
  simp

theorem unvisitedCount_decrease {m m' : Maze} {v : Nat × Nat}
    (hr : m'.num_rows = m.num_rows) (hc : m'.num_cols = m.num_cols)
    (hmono : ∀ a b, (getCell m a b).visited = true → (getCell m' a b).visited = true)
    (hv1 : v.1 < m.num_rows.toNat) (hv2 : v.2 < m.num_cols.toNat)
    (hold : (getCell m v.1 v.2).visited = false)
    (hnew : (getCell m' v.1 v.2).visited = true) :
    unvisitedCount m' + 1 ≤ unvisitedCount m := by
  unfold unvisitedCount
  rw [hr, hc]
  have hvmem : v ∈ (Finset.range m.num_rows.toNat ×ˢ
      Finset.range m.num_cols.toNat).filter
      (fun p => ¬(getCell m p.1 p.2).visited = true) := by
    rw [Finset.mem_filter]
    exact ⟨Finset.mem_product.mpr ⟨Finset.mem_range.mpr hv1, Finset.mem_range.mpr hv2⟩,
      by rw [hold]; simp⟩
  have hsub : (Finset.range m.num_rows.toNat ×ˢ
      Finset.range m.num_cols.toNat).filter
      (fun p => ¬(getCell m' p.1 p.2).visited = true) ⊆
      ((Finset.range m.num_rows.toNat ×ˢ
        Finset.range m.num_cols.toNat).filter
        (fun p => ¬(getCell m p.1 p.2).visited = true)).erase v := by
    intro p hp
    rw [Finset.mem_filter] at hp
    rw [Finset.mem_erase, Finset.mem_filter]
    refine ⟨?_, hp.1, ?_⟩
    · intro hpv
      subst hpv
      exact hp.2 hnew
    · intro hcv
      exact hp.2 (hmono _ _ hcv)
  calc ((Finset.range m.num_rows.toNat ×ˢ Finset.range m.num_cols.toNat).filter
        (fun p => ¬(getCell m' p.1 p.2).visited = true)).card + 1
      ≤ (((Finset.range m.num_rows.toNat ×ˢ Finset.range m.num_cols.toNat).filter
        (fun p => ¬(getCell m p.1 p.2).visited = true)).erase v).card + 1 := by
        exact Nat.add_le_add_right (Finset.card_le_card hsub) 1
    _ = ((Finset.range m.num_rows.toNat ×ˢ Finset.range m.num_cols.toNat).filter
        (fun p => ¬(getCell m p.1 p.2).visited = true)).card := by
        rw [Finset.card_erase_of_mem hvmem]
        have := Finset.card_pos.mpr ⟨v, hvmem⟩
        omega


theorem break_walls_r_isSome (rng : Nat → Nat) :
    ∀ fuel mode st k i j,
      WF st → i < st.num_rows.toNat → j < st.num_cols.toNat →
      (mode = true → (getCell st i j).visited = false ∧ 2 * unvisitedCount st ≤ fuel) →
      (mode = false → (getCell st i j).visited = true ∧ 2 * unvisitedCount st + 1 ≤ fuel) →
      (break_walls_r rng fuel mode st k i j).isSome = true := by
  intro fuel
  induction fuel with
  | zero =>
    intro mode st k i j hWF hi hj hpret hpref
    cases mode
    · obtain ⟨_, hcnt⟩ := hpref rfl
      omega
    · obtain ⟨hv, hcnt⟩ := hpret rfl
      have := unvisitedCount_pos hi hj hv
      omega
  | succ fuel ih =>
    intro mode st k i j hWF hi hj hpret hpref
    cases mode
    · -- loop mode (false)
      obtain ⟨hvis, hcnt⟩ := hpref rfl
      simp only [break_walls_r]
      by_cases htv : (to_visit_list st i j).isEmpty
      · rw [if_pos htv]
        simp
      · rw [if_neg htv]
        have htvne : to_visit_list st i j ≠ [] := fun hn => by simp [hn] at htv
        have hmemc := randomChoice_mem rng k htvne
        obtain ⟨hdir, t1, t2, t3, t4, hunvis⟩ := mem_to_visit_list.mp hmemc
        have hWFo : WF (openPassage st i j
            (randomChoice rng k (to_visit_list st i j)).1) :=
          WF_openPassage hWF i j _
        have hWF2 : WF (draw_cell (openPassage st i j
            (randomChoice rng k (to_visit_list st i j)).1) i j) :=
          WF_draw_cell hWFo i j
        have hv2 : ∀ a b, (getCell (draw_cell (openPassage st i j
            (randomChoice rng k (to_visit_list st i j)).1) i j) a b).visited
            = (getCell st a b).visited := by
          intro a b
          rw [coreCell_visited (draw_cell_coreCell hWFo i j a b)]
          exact openPassage_visited hWF (stepOK_of_tv hi hj hmemc) a b
        have hcnt2 : unvisitedCount (draw_cell (openPassage st i j
            (randomChoice rng k (to_visit_list st i j)).1) i j) = unvisitedCount st :=
          unvisitedCount_congr (by simp) (by simp) hv2
        have hrecSome := ih true _ (k + 1)
          (((i : Int) + (randomChoice rng k (to_visit_list st i j)).2.1).toNat)
          (((j : Int) + (randomChoice rng k (to_visit_list st i j)).2.2).toNat)
          hWF2 (by simp; omega) (by simp; omega)
          (by
            intro _
            refine ⟨?_, ?_⟩
            · rw [hv2]
              exact hunvis
            · rw [hcnt2]
              omega)
          (by intro hcc; exact absurd hcc (by simp))
        obtain ⟨p, hrec⟩ := Option.isSome_iff_exists.mp hrecSome
        obtain ⟨st3, k2⟩ := p
        rw [hrec]
        simp only
        obtain ⟨shWF3, sh2, sh3, _⟩ := break_walls_r_shape rng _ _ _ _ _ _ _ _ hrec hWF2
        obtain ⟨mono23, hmk3⟩ := break_walls_r_visited rng _ _ _ _ _ _ _ _ hrec hWF2
          (by simp; omega) (by simp; omega) (by intro hcc; exact absurd hcc (by simp))
        have hb1 : (((i : Int) + (randomChoice rng k (to_visit_list st i j)).2.1).toNat)
            < (draw_cell (openPassage st i j
              (randomChoice rng k (to_visit_list st i j)).1) i j).num_rows.toNat := by
          simp
          omega
        have hb2 : (((j : Int) + (randomChoice rng k (to_visit_list st i j)).2.2).toNat)
            < (draw_cell (openPassage st i j
              (randomChoice rng k (to_visit_list st i j)).1) i j).num_cols.toNat := by
          simp
          omega
        have hdec : unvisitedCount st3 + 1 ≤ unvisitedCount (draw_cell (openPassage st i j
            (randomChoice rng k (to_visit_list st i j)).1) i j) :=
          unvisitedCount_decrease
            (v := (((i : Int) + (randomChoice rng k (to_visit_list st i j)).2.1).toNat,
              ((j : Int) + (randomChoice rng k (to_visit_list st i j)).2.2).toNat))
            sh2 sh3 mono23 hb1 hb2
            (by rw [hv2]; exact hunvis) hmk3
        apply ih false st3 k2 i j shWF3 (by rw [sh2]; simp; omega) (by rw [sh3]; simp; omega)
          (by intro hcc; exact absurd hcc (by simp))
        intro _
        constructor
        · apply mono23
          rw [hv2]
          exact hvis
        · omega
    · -- enter mode (true)
      obtain ⟨hvuns, hcnt⟩ := hpret rfl
      simp only [break_walls_r]
      have hmark : (getCell (markVisited st i j) i j).visited = true := by
        rw [markVisited_visited hWF, if_pos ⟨rfl, rfl, hi, hj⟩]
      have hmono : ∀ a b, (getCell st a b).visited = true →
          (getCell (markVisited st i j) a b).visited = true := by
        intro a b hv
        rw [markVisited_visited hWF]
        split_ifs with hcc
        · rfl
        · exact hv
      have hdec : unvisitedCount (markVisited st i j) + 1 ≤ unvisitedCount st :=
        unvisitedCount_decrease (v := (i, j)) (by simp) (by simp) hmono hi hj hvuns hmark
      apply ih false _ k i j (WF_markVisited hWF i j) (by simpa using hi) (by simpa using hj)
        (by intro hcc; exact absurd hcc (by simp))
      intro _
      exact ⟨hmark, by omega⟩


theorem getCell_foldl_draw_row :
    ∀ (l : List Nat) (m : Maze), WF m → ∀ (i a b : Nat),
    getCell (l.foldl (fun acc j => draw_cell acc i j) m) a b =
      if m.win = true ∧ a = i ∧ b ∈ l ∧ i < m.num_rows.toNat ∧ b < m.num_cols.toNat then
        { getCell m a b with drawn := true }
      else getCell m a b := by
  intro l
  induction l with
  | nil =>
    intro m hWF i a b
    rw [if_neg (by simp)]
    rfl
  | cons x xs ih =>
    intro m hWF i a b
    rw [List.foldl_cons, ih _ (WF_draw_cell hWF i x) i a b]
    simp only [draw_cell_num_rows, draw_cell_num_cols, draw_cell_win]
    by_cases hA : m.win = true ∧ a = i ∧ b ∈ xs ∧ i < m.num_rows.toNat ∧
        b < m.num_cols.toNat
    · rw [if_pos hA, if_pos ⟨hA.1, hA.2.1, List.mem_cons_of_mem x hA.2.2.1, hA.2.2.2⟩,
        getCell_draw_cell hWF i x a b]
      by_cases hD : m.win = true ∧ a = i ∧ b = x ∧ i < m.num_rows.toNat ∧
          x < m.num_cols.toNat
      · rw [if_pos hD]
        obtain ⟨_, rfl, rfl, _, _⟩ := hD
        rfl
      · rw [if_neg hD]
    · rw [if_neg hA, getCell_draw_cell hWF i x a b]
      by_cases hD : m.win = true ∧ a = i ∧ b = x ∧ i < m.num_rows.toNat ∧
          x < m.num_cols.toNat
      · rw [if_pos hD, if_pos ⟨hD.1, hD.2.1, by rw [hD.2.2.1]; exact List.mem_cons_self x xs,
          hD.2.2.2.1, by rw [hD.2.2.1]; exact hD.2.2.2.2⟩]
        obtain ⟨_, rfl, rfl, _, _⟩ := hD
        rfl
      · rw [if_neg hD, if_neg ?hcn]
        case hcn =>
          intro hc
          obtain ⟨hw, ha, hmem, hbd⟩ := hc
          rcases List.mem_cons.mp hmem with rfl | hmem2
          · exact hD ⟨hw, ha, rfl, hbd.1, hbd.2⟩
          · exact hA ⟨hw, ha, hmem2, hbd⟩

theorem foldl_draw_row_facts (l : List Nat) (m : Maze) (i : Nat) :
    (l.foldl (fun acc j => draw_cell acc i j) m).num_rows = m.num_rows ∧
    (l.foldl (fun acc j => draw_cell acc i j) m).num_cols = m.num_cols ∧
    (l.foldl (fun acc j => draw_cell acc i j) m).win = m.win ∧
    (WF m → WF (l.foldl (fun acc j => draw_cell acc i j) m)) :=
  ⟨foldl_preserves (fun m => m.num_rows) _ (fun m x => draw_cell_num_rows m i x) l m,
   foldl_preserves (fun m => m.num_cols) _ (fun m x => draw_cell_num_cols m i x) l m,
   foldl_preserves (fun m => m.win) _ (fun m x => draw_cell_win m i x) l m,
   fun h => foldl_preserves_prop WF _ (fun m x hm => WF_draw_cell hm i x) l m h⟩

theorem getCell_foldl_draw_all (CC : Nat) :
    ∀ (l : List Nat) (m : Maze), WF m → ∀ (a b : Nat),
    getCell (l.foldl (fun acc i => (List.range CC).foldl
        (fun acc2 j => draw_cell acc2 i j) acc) m) a b =
      if m.win = true ∧ a ∈ l ∧ b ∈ List.range CC ∧ a < m.num_rows.toNat ∧
          b < m.num_cols.toNat then
        { getCell m a b with drawn := true }
      else getCell m a b := by
  intro l
  induction l with
  | nil =>
    intro m hWF a b
    rw [if_neg (by simp)]
    rfl
  | cons x xs ih =>
    intro m hWF a b
    obtain ⟨f1, f2, f3, f4⟩ := foldl_draw_row_facts (List.range CC) m x
    rw [List.foldl_cons, ih _ (f4 hWF) a b]
    simp only [f1, f2, f3]
    by_cases hA : m.win = true ∧ a ∈ xs ∧ b ∈ List.range CC ∧ a < m.num_rows.toNat ∧
        b < m.num_cols.toNat
    · rw [if_pos hA, if_pos ⟨hA.1, List.mem_cons_of_mem x hA.2.1, hA.2.2⟩,
        getCell_foldl_draw_row (List.range CC) m hWF x a b]
      by_cases hD : m.win = true ∧ a = x ∧ b ∈ List.range CC ∧ x < m.num_rows.toNat ∧
          b < m.num_cols.toNat
      · rw [if_pos hD]
      · rw [if_neg hD]
    · rw [if_neg hA, getCell_foldl_draw_row (List.range CC) m hWF x a b]
      by_cases hD : m.win = true ∧ a = x ∧ b ∈ List.range CC ∧ x < m.num_rows.toNat ∧
          b < m.num_cols.toNat
      · rw [if_pos hD, if_pos ⟨hD.1, by rw [hD.2.1]; exact List.mem_cons_self x xs,
          hD.2.2.1, by rw [hD.2.1]; exact hD.2.2.2.1, hD.2.2.2.2⟩]
      · rw [if_neg hD, if_neg ?hcn]
        case hcn =>
          intro hc
          obtain ⟨hw, hmem, hrest⟩ := hc
          rcases List.mem_cons.mp hmem with rfl | hmem2
          · exact hD ⟨hw, rfl, hrest.1, hrest.2.1, hrest.2.2⟩
          · exact hA ⟨hw, hmem2, hrest⟩

theorem getCell_drawAllCells {m : Maze} (hWF : WF m) (a b : Nat) :
    getCell (drawAllCells m) a b =
      if m.win = true ∧ a < m.num_rows.toNat ∧ b < m.num_cols.toNat then
        { getCell m a b with drawn := true }
      else getCell m a b := by
  unfold drawAllCells
  rw [getCell_foldl_draw_all m.num_cols.toNat (List.range m.num_rows.toNat) m hWF a b]
  by_cases h : m.win = true ∧ a < m.num_rows.toNat ∧ b < m.num_cols.toNat
  · rw [if_pos ⟨h.1, List.mem_range.mpr h.2.1, List.mem_range.mpr h.2.2, h.2⟩, if_pos h]
  · rw [if_neg (fun hc => h ⟨hc.1, hc.2.2.2⟩), if_neg h]

theorem drawAllCells_facts (m : Maze) :
    (drawAllCells m).num_rows = m.num_rows ∧ (drawAllCells m).num_cols = m.num_cols ∧
    (drawAllCells m).win = m.win ∧ (WF m → WF (drawAllCells m)) := by
  unfold drawAllCells
  refine ⟨foldl_preserves (fun m => m.num_rows) _ ?_ _ m,
    foldl_preserves (fun m => m.num_cols) _ ?_ _ m,
    foldl_preserves (fun m => m.win) _ ?_ _ m,
    fun h => foldl_preserves_prop WF _ ?_ _ m h⟩
  · intro m x
    exact (foldl_draw_row_facts _ m x).1
  · intro m x
    exact (foldl_draw_row_facts _ m x).2.1
  · intro m x
    exact (foldl_draw_row_facts _ m x).2.2.1
  · intro m x hm
    exact (foldl_draw_row_facts _ m x).2.2.2 hm

theorem getCell_setUnvisited {m : Maze} (h : WF m) (i j a b : Nat) :
    getCell (setCell m i j { getCell m i j with visited := false }) a b =
      if a = i ∧ b = j ∧ i < m.num_rows.toNat ∧ j < m.num_cols.toNat then
        { getCell m i j with visited := false }
      else getCell m a b :=
  getCell_setCell h i j _ a b

theorem foldl_reset_row_facts (l : List Nat) (m : Maze) (i : Nat) :
    (l.foldl (fun acc2 j => setCell acc2 i j
      { getCell acc2 i j with visited := false }) m).num_rows = m.num_rows ∧
    (l.foldl (fun acc2 j => setCell acc2 i j
      { getCell acc2 i j with visited := false }) m).num_cols = m.num_cols ∧
    (l.foldl (fun acc2 j => setCell acc2 i j
      { getCell acc2 i j with visited := false }) m).win = m.win ∧
    (WF m → WF (l.foldl (fun acc2 j => setCell acc2 i j
      { getCell acc2 i j with visited := false }) m)) := by
  refine ⟨foldl_preserves (fun m => m.num_rows) _ ?_ l m,
    foldl_preserves (fun m => m.num_cols) _ ?_ l m,
    foldl_preserves (fun m => m.win) _ ?_ l m,
    fun h => foldl_preserves_prop WF _ ?_ l m h⟩
  · intro m x
    rfl
  · intro m x
    rfl
  · intro m x
    rfl
  · intro m x hm
    exact WF_setCell hm i x _

theorem getCell_foldl_reset_row :
    ∀ (l : List Nat) (m : Maze), WF m → ∀ (i a b : Nat),
    getCell (l.foldl (fun acc2 j => setCell acc2 i j
        { getCell acc2 i j with visited := false }) m) a b =
      if a = i ∧ b ∈ l ∧ i < m.num_rows.toNat ∧ b < m.num_cols.toNat then
        { getCell m a b with visited := false }
      else getCell m a b := by
  intro l
  induction l with
  | nil =>
    intro m hWF i a b
    rw [if_neg (by simp)]
    rfl
  | cons x xs ih =>
    intro m hWF i a b
    rw [List.foldl_cons, ih _ (WF_setCell hWF i x _) i a b]
    simp only [setCell_num_rows, setCell_num_cols]
    by_cases hA : a = i ∧ b ∈ xs ∧ i < m.num_rows.toNat ∧ b < m.num_cols.toNat
    · rw [if_pos hA, if_pos ⟨hA.1, List.mem_cons_of_mem x hA.2.1, hA.2.2⟩,
        getCell_setUnvisited hWF i x a b]
      by_cases hD : a = i ∧ b = x ∧ i < m.num_rows.toNat ∧ x < m.num_cols.toNat
      · rw [if_pos hD]
        obtain ⟨rfl, rfl, _, _⟩ := hD
        rfl
      · rw [if_neg hD]
    · rw [if_neg hA, getCell_setUnvisited hWF i x a b]
      by_cases hD : a = i ∧ b = x ∧ i < m.num_rows.toNat ∧ x < m.num_cols.toNat
      · rw [if_pos hD, if_pos ⟨hD.1, by rw [hD.2.1]; exact List.mem_cons_self x xs,
          hD.2.2.1, by rw [hD.2.1]; exact hD.2.2.2⟩]
        obtain ⟨rfl, rfl, _, _⟩ := hD
        rfl
      · rw [if_neg hD, if_neg ?hcn]
        case hcn =>
          intro hc
          obtain ⟨ha, hmem, hrest⟩ := hc
          rcases List.mem_cons.mp hmem with rfl | hmem2
          · exact hD ⟨ha, rfl, hrest.1, hrest.2⟩
          · exact hA ⟨ha, hmem2, hrest⟩

theorem getCell_foldl_reset_all (CC : Nat) :
    ∀ (l : List Nat) (m : Maze), WF m → ∀ (a b : Nat),
    getCell (l.foldl (fun acc i => (List.range CC).foldl
        (fun acc2 j => setCell acc2 i j
          { getCell acc2 i j with visited := false }) acc) m) a b =
      if a ∈ l ∧ b ∈ List.range CC ∧ a < m.num_rows.toNat ∧ b < m.num_cols.toNat then
        { getCell m a b with visited := false }
      else getCell m a b := by
  intro l
  induction l with
  | nil =>
    intro m hWF a b
    rw [if_neg (by simp)]
    rfl
  | cons x xs ih =>
    intro m hWF a b
    obtain ⟨f1, f2, f3, f4⟩ := foldl_reset_row_facts (List.range CC) m x
    rw [List.foldl_cons, ih _ (f4 hWF) a b]
    simp only [f1, f2]
    by_cases hA : a ∈ xs ∧ b ∈ List.range CC ∧ a < m.num_rows.toNat ∧
        b < m.num_cols.toNat
    · rw [if_pos hA, if_pos ⟨List.mem_cons_of_mem x hA.1, hA.2⟩,
        getCell_foldl_reset_row (List.range CC) m hWF x a b]
      by_cases hD : a = x ∧ b ∈ List.range CC ∧ x < m.num_rows.toNat ∧
          b < m.num_cols.toNat
      · rw [if_pos hD]
      · rw [if_neg hD]
    · rw [if_neg hA, getCell_foldl_reset_row (List.range CC) m hWF x a b]
      by_cases hD : a = x ∧ b ∈ List.range CC ∧ x < m.num_rows.toNat ∧
          b < m.num_cols.toNat
      · rw [if_pos hD, if_pos ⟨by rw [hD.1]; exact List.mem_cons_self x xs,
          hD.2.1, by rw [hD.1]; exact hD.2.2.1, hD.2.2.2⟩]
      · rw [if_neg hD, if_neg ?hcn]
        case hcn =>
          intro hc
          obtain ⟨hmem, hrest⟩ := hc
          rcases List.mem_cons.mp hmem with rfl | hmem2
          · exact hD ⟨rfl, hrest⟩
          · exact hA ⟨hmem2, hrest⟩

theorem getCell_reset {m : Maze} (hWF : WF m) (a b : Nat) :
    getCell (reset_cells_visited m) a b =
      if a < m.num_rows.toNat ∧ b < m.num_cols.toNat then
        { getCell m a b with visited := false }
      else getCell m a b := by
  unfold reset_cells_visited
  rw [getCell_foldl_reset_all m.num_cols.toNat (List.range m.num_rows.toNat) m hWF a b]
  by_cases h : a < m.num_rows.toNat ∧ b < m.num_cols.toNat
  · rw [if_pos ⟨List.mem_range.mpr h.1, List.mem_range.mpr h.2, h⟩, if_pos h]
  · rw [if_neg (fun hc => h hc.2.2), if_neg h]

theorem reset_facts (m : Maze) :
    (reset_cells_visited m).num_rows = m.num_rows ∧
    (reset_cells_visited m).num_cols = m.num_cols ∧
    (reset_cells_visited m).win = m.win ∧ (WF m → WF (reset_cells_visited m)) := by
  unfold reset_cells_visited
  refine ⟨foldl_preserves (fun m => m.num_rows) _ ?_ _ m,
    foldl_preserves (fun m => m.num_cols) _ ?_ _ m,
    foldl_preserves (fun m => m.win) _ ?_ _ m,
    fun h => foldl_preserves_prop WF _ ?_ _ m h⟩
  · intro m x
    exact (foldl_reset_row_facts _ m x).1
  · intro m x
    exact (foldl_reset_row_facts _ m x).2.1
  · intro m x
    exact (foldl_reset_row_facts _ m x).2.2.1
  · intro m x hm
    exact (foldl_reset_row_facts _ m x).2.2.2 hm

theorem break_entrance_eq {m : Maze} (hWF : WF m) (hr : 1 ≤ m.num_rows)
    (hc : 1 ≤ m.num_cols) :
    break_entrance_and_exit m = some (
      draw_cell (setCell
          (draw_cell (setCell m 0 0 { getCell m 0 0 with has_left_wall := false }) 0 0)
          (m.num_rows.toNat - 1) (m.num_cols.toNat - 1)
          { getCell (draw_cell (setCell m 0 0
              { getCell m 0 0 with has_left_wall := false }) 0 0)
              (m.num_rows.toNat - 1) (m.num_cols.toNat - 1) with has_right_wall := false })
        (m.num_rows.toNat - 1) (m.num_cols.toNat - 1)) := by
  have hR1 : 1 ≤ m.num_rows.toNat := by omega
  have hC1 : 1 ≤ m.num_cols.toNat := by omega
  have hlen : m.cells.length = m.num_rows.toNat := hWF.1
  have hrow0 : (m.cells.getD 0 []).length = m.num_cols.toNat := rowLen_of_WF hWF hR1
  have e1 : pyIdx m.cells.length 0 = some 0 := by
    unfold pyIdx
    rw [if_pos (le_refl (0 : Int)), if_pos (show (0 : Int).toNat < m.cells.length by omega)]
    rfl
  have e2 : pyIdx (m.cells.getD 0 []).length 0 = some 0 := by
    unfold pyIdx
    rw [if_pos (le_refl (0 : Int)),
      if_pos (show (0 : Int).toNat < (m.cells.getD 0 []).length by omega)]
    rfl
  have hp1 : pyGet2 m.cells 0 0 = some (0, 0) := by
    unfold pyGet2
    rw [e1]
    simp only [Int.toNat_zero]
    rw [e2]
  unfold break_entrance_and_exit
  rw [hp1]
  simp only
  set mz2 := draw_cell (setCell m 0 0 { getCell m 0 0 with has_left_wall := false }) 0 0
    with hmz2
  have hWF2 : WF mz2 := WF_draw_cell (WF_setCell hWF 0 0 _) 0 0
  have hd2r : mz2.num_rows = m.num_rows := by rw [hmz2]; simp
  have hd2c : mz2.num_cols = m.num_cols := by rw [hmz2]; simp
  have hlen2 : mz2.cells.length = m.num_rows.toNat := by
    rw [hWF2.1, hd2r]
  have hrowm1 := rowLen_of_WF hWF2
    (show m.num_rows.toNat - 1 < mz2.num_rows.toNat by rw [hd2r]; omega)
  have hrowm : (mz2.cells.getD (m.num_rows.toNat - 1) []).length = m.num_cols.toNat := by
    rw [hrowm1, hd2c]
  have e3 : pyIdx mz2.cells.length (mz2.num_rows - 1) = some (m.num_rows.toNat - 1) := by
    unfold pyIdx
    rw [if_pos (show (0 : Int) ≤ mz2.num_rows - 1 by rw [hd2r]; omega)]
    rw [if_pos (show (mz2.num_rows - 1).toNat < mz2.cells.length by
      rw [hlen2, hd2r]; omega)]
    congr 1
    rw [hd2r]
    omega
  have e4 : pyIdx (mz2.cells.getD (m.num_rows.toNat - 1) []).length (mz2.num_cols - 1) =
      some (m.num_cols.toNat - 1) := by
    unfold pyIdx
    rw [if_pos (show (0 : Int) ≤ mz2.num_cols - 1 by rw [hd2c]; omega)]
    rw [if_pos (show (mz2.num_cols - 1).toNat <
        (mz2.cells.getD (m.num_rows.toNat - 1) []).length by rw [hrowm, hd2c]; omega)]
    congr 1
    rw [hd2c]
    omega
  have hp2 : pyGet2 mz2.cells (mz2.num_rows - 1) (mz2.num_cols - 1) =
      some (m.num_rows.toNat - 1, m.num_cols.toNat - 1) := by
    unfold pyGet2
    rw [e3]
    simp only
    rw [e4]
  rw [hp2]



theorem initialGrid_getCell (win : Bool) (rows cols : Int) (a b : Nat) :
    getCell { num_rows := rows, num_cols := cols, win := win,
              cells := List.replicate rows.toNat (List.replicate cols.toNat Cell.new) }
      a b = Cell.new := by
  unfold getCell
  by_cases ha : a < rows.toNat
  · have h1 : (List.replicate rows.toNat (List.replicate cols.toNat Cell.new)).getD a []
        = List.replicate cols.toNat Cell.new := by
      have := getD_mem (List.replicate rows.toNat (List.replicate cols.toNat Cell.new)) a []
        (by simpa using ha)
      exact List.eq_of_mem_replicate this
    simp only
    rw [h1]
    by_cases hb : b < cols.toNat
    · exact List.eq_of_mem_replicate (getD_mem _ b _ (by simpa using hb))
    · exact getD_oob _ _ _ (by simpa using hb)
  · simp only
    have h1 : (List.replicate rows.toNat (List.replicate cols.toNat Cell.new)).getD a []
        = [] := getD_oob _ _ _ (by simpa using ha)
    rw [h1]
    rfl

theorem initialGrid_WF (win : Bool) (rows cols : Int) :
    WF { num_rows := rows, num_cols := cols, win := win,
         cells := List.replicate rows.toNat (List.replicate cols.toNat Cell.new) } := by
  constructor
  · simp
  · intro row hrow
    rw [List.eq_of_mem_replicate hrow]
    simp

theorem entrance_state_facts (win : Bool) (rows cols : Int) (hr : 1 ≤ rows)
    (hc : 1 ≤ cols) :
    ∃ m2, break_entrance_and_exit (drawAllCells
        { num_rows := rows, num_cols := cols, win := win,
          cells := List.replicate rows.toNat (List.replicate cols.toNat Cell.new) })
        = some m2 ∧
      WF m2 ∧ m2.num_rows = rows ∧ m2.num_cols = cols ∧ m2.win = win ∧
      (∀ a b, (getCell m2 a b).visited = false) ∧
      (∀ a b, (getCell m2 a b).has_top_wall = true) ∧
      (∀ a b, (getCell m2 a b).has_bottom_wall = true) ∧
      (∀ a b, (getCell m2 a b).has_left_wall =
        (if a = 0 ∧ b = 0 then false else true)) ∧
      (∀ a b, (getCell m2 a b).has_right_wall =
        (if a = rows.toNat - 1 ∧ b = cols.toNat - 1 then false else true)) := by
  set m0 : Maze := { num_rows := rows, num_cols := cols,
                     win := win,
                     cells := List.replicate rows.toNat (List.replicate cols.toNat Cell.new) }
    with hm0
  have hWF0 : WF m0 := initialGrid_WF win rows cols
  set m1 := drawAllCells m0 with hm1
  obtain ⟨d1, d2, d3, d4⟩ := drawAllCells_facts m0
  have hWF1 : WF m1 := d4 hWF0
  have hget1 : ∀ a b, getCell m1 a b =
      if m0.win = true ∧ a < m0.num_rows.toNat ∧ b < m0.num_cols.toNat then
        { Cell.new with drawn := true }
      else Cell.new := by
    intro a b
    rw [hm1, getCell_drawAllCells hWF0 a b, initialGrid_getCell]
  have hcore1 : ∀ a b, coreCell (getCell m1 a b) = coreCell Cell.new := by
    intro a b
    rw [hget1]
    split_ifs
    · rfl
    · rfl
  have hRn : m1.num_rows = rows := by rw [hm1]; rw [d1]
  have hCn : m1.num_cols = cols := by rw [hm1]; rw [d2]
  have hWn : m1.win = win := by rw [hm1]; rw [d3]
  have hr1 : 1 ≤ m1.num_rows := by rw [hRn]; exact hr
  have hc1 : 1 ≤ m1.num_cols := by rw [hCn]; exact hc
  have hget1 : ∀ a b, getCell m1 a b =
      if win = true ∧ a < rows.toNat ∧ b < cols.toNat then { Cell.new with drawn := true }
      else Cell.new := hget1
  set c1 : Cell := { getCell m1 0 0 with has_left_wall := false } with hc1d
  set s1 := setCell m1 0 0 c1 with hs1d
  set s2 := draw_cell s1 0 0 with hs2d
  set c2 : Cell := { getCell s2 (m1.num_rows.toNat - 1) (m1.num_cols.toNat - 1) with has_right_wall := false } with hc2d
  set s3 := setCell s2 (m1.num_rows.toNat - 1) (m1.num_cols.toNat - 1) c2 with hs3d
  set m2 := draw_cell s3 (m1.num_rows.toNat - 1) (m1.num_cols.toNat - 1) with hm2d
  have hbr : break_entrance_and_exit m1 = some m2 := break_entrance_eq hWF1 hr1 hc1
  have hWFs1 : WF s1 := by rw [hs1d]; exact WF_setCell hWF1 _ _ _
  have hWFs2 : WF s2 := by rw [hs2d]; exact WF_draw_cell hWFs1 _ _
  have hWFs3 : WF s3 := by rw [hs3d]; exact WF_setCell hWFs2 _ _ _
  have hWF2 : WF m2 := by rw [hm2d]; exact WF_draw_cell hWFs3 _ _
  have hs1r : s1.num_rows = rows := by rw [hs1d, setCell_num_rows, hRn]
  have hs1c : s1.num_cols = cols := by rw [hs1d, setCell_num_cols, hCn]
  have hs1w : s1.win = win := by rw [hs1d, setCell_win, hWn]
  have hs2r : s2.num_rows = rows := by rw [hs2d, draw_cell_num_rows, hs1r]
  have hs2c : s2.num_cols = cols := by rw [hs2d, draw_cell_num_cols, hs1c]
  have hs2w : s2.win = win := by rw [hs2d, draw_cell_win, hs1w]
  have hs3r : s3.num_rows = rows := by rw [hs3d, setCell_num_rows, hs2r]
  have hs3c : s3.num_cols = cols := by rw [hs3d, setCell_num_cols, hs2c]
  have hs3w : s3.win = win := by rw [hs3d, setCell_win, hs2w]
  have hnr2 : m2.num_rows = rows := by rw [hm2d, draw_cell_num_rows, hs3r]
  have hnc2 : m2.num_cols = cols := by rw [hm2d, draw_cell_num_cols, hs3c]
  have hwin2 : m2.win = win := by rw [hm2d, draw_cell_win, hs3w]
  have hPr : m1.num_rows.toNat - 1 = rows.toNat - 1 := by rw [hRn]
  have hQc : m1.num_cols.toNat - 1 = cols.toNat - 1 := by rw [hCn]
  have hb1 : 0 < m1.num_rows.toNat := by rw [hRn]; omega
  have hb2 : 0 < m1.num_cols.toNat := by rw [hCn]; omega
  have hchar1 : ∀ a b, getCell s1 a b = if a = 0 ∧ b = 0 then c1 else getCell m1 a b := by
    intro a b
    rw [hs1d, getCell_setCell hWF1]
    by_cases h : a = 0 ∧ b = 0
    · rw [if_pos ⟨h.1, h.2, hb1, hb2⟩, if_pos h]
    · rw [if_neg (fun hx => h ⟨hx.1, hx.2.1⟩), if_neg h]
  have hchar2 : ∀ a b, getCell s2 a b = if a = 0 ∧ b = 0 then c1 else getCell m1 a b := by
    intro a b
    rw [hs2d, getCell_draw_cell hWFs1]
    have hb1s : 0 < s1.num_rows.toNat := by rw [hs1r]; omega
    have hb2s : 0 < s1.num_cols.toNat := by rw [hs1c]; omega
    by_cases h : a = 0 ∧ b = 0
    · by_cases hw : s1.win = true
      · rw [if_pos ⟨hw, h.1, h.2, hb1s, hb2s⟩, if_pos h]
        rw [hchar1 0 0, if_pos ⟨rfl, rfl⟩]
        have hww : win = true := by rw [← hs1w]; exact hw
        rw [hc1d, hget1 0 0, if_pos ⟨hww, by omega, by omega⟩]
      · rw [if_neg (fun hx => hw hx.1), hchar1 a b]
    · rw [if_neg (fun hx => h ⟨hx.2.1, hx.2.2.1⟩), hchar1 a b]
  have hchar3 : ∀ a b, getCell s3 a b =
      if a = m1.num_rows.toNat - 1 ∧ b = m1.num_cols.toNat - 1 then c2
      else getCell s2 a b := by
    intro a b
    rw [hs3d, getCell_setCell hWFs2]
    have hbp : m1.num_rows.toNat - 1 < s2.num_rows.toNat := by rw [hs2r, hRn]; omega
    have hbq : m1.num_cols.toNat - 1 < s2.num_cols.toNat := by rw [hs2c, hCn]; omega
    by_cases h : a = m1.num_rows.toNat - 1 ∧ b = m1.num_cols.toNat - 1
    · rw [if_pos ⟨h.1, h.2, hbp, hbq⟩, if_pos h]
    · rw [if_neg (fun hx => h ⟨hx.1, hx.2.1⟩), if_neg h]
  have hdrawc2 : s3.win = true → { c2 with drawn := true } = c2 := by
    intro hw
    have hww : win = true := by rw [← hs3w]; exact hw
    rw [hc2d, hchar2]
    by_cases hpq : m1.num_rows.toNat - 1 = 0 ∧ m1.num_cols.toNat - 1 = 0
    · rw [if_pos hpq]
      rw [hc1d, hget1 0 0, if_pos ⟨hww, by omega, by omega⟩]
    · rw [if_neg hpq]
      rw [hget1, if_pos ⟨hww, by rw [hPr]; omega, by rw [hQc]; omega⟩]
  have hchar4 : ∀ a b, getCell m2 a b =
      if a = m1.num_rows.toNat - 1 ∧ b = m1.num_cols.toNat - 1 then c2
      else getCell s2 a b := by
    intro a b
    rw [hm2d, getCell_draw_cell hWFs3]
    have hbp : m1.num_rows.toNat - 1 < s3.num_rows.toNat := by rw [hs3r, hRn]; omega
    have hbq : m1.num_cols.toNat - 1 < s3.num_cols.toNat := by rw [hs3c, hCn]; omega
    by_cases h : a = m1.num_rows.toNat - 1 ∧ b = m1.num_cols.toNat - 1
    · by_cases hw : s3.win = true
      · rw [if_pos ⟨hw, h.1, h.2, hbp, hbq⟩, if_pos h]
        rw [hchar3 _ _, if_pos ⟨rfl, rfl⟩]
        exact hdrawc2 hw
      · rw [if_neg (fun hx => hw hx.1), hchar3 a b]
    · rw [if_neg (fun hx => h ⟨hx.2.1, hx.2.2.1⟩), hchar3 a b]
  have hchar : ∀ a b, getCell m2 a b =
      if a = m1.num_rows.toNat - 1 ∧ b = m1.num_cols.toNat - 1 then c2
      else if a = 0 ∧ b = 0 then c1 else getCell m1 a b := by
    intro a b
    rw [hchar4 a b, hchar2 a b]
  have hc1f : c1.visited = false ∧ c1.has_top_wall = true ∧ c1.has_bottom_wall = true ∧
      c1.has_left_wall = false ∧ c1.has_right_wall = true := by
    rw [hc1d, hget1 0 0]
    split_ifs
    · exact ⟨rfl, rfl, rfl, rfl, rfl⟩
    · exact ⟨rfl, rfl, rfl, rfl, rfl⟩
  have hc2f : c2.visited = false ∧ c2.has_top_wall = true ∧ c2.has_bottom_wall = true ∧
      c2.has_right_wall = false ∧ c2.has_left_wall =
        (if m1.num_rows.toNat - 1 = 0 ∧ m1.num_cols.toNat - 1 = 0 then false else true) := by
    rw [hc2d, hchar2]
    by_cases hpq : m1.num_rows.toNat - 1 = 0 ∧ m1.num_cols.toNat - 1 = 0
    · rw [if_pos hpq, if_pos hpq]
      exact ⟨hc1f.1, hc1f.2.1, hc1f.2.2.1, rfl, hc1f.2.2.2.1⟩
    · rw [if_neg hpq, if_neg hpq]
      rw [hget1]
      split_ifs
      · exact ⟨rfl, rfl, rfl, rfl, rfl⟩
      · exact ⟨rfl, rfl, rfl, rfl, rfl⟩
  have hbasef : ∀ a b, (getCell m1 a b).visited = false ∧ (getCell m1 a b).has_top_wall = true ∧
      (getCell m1 a b).has_bottom_wall = true ∧ (getCell m1 a b).has_left_wall = true ∧
      (getCell m1 a b).has_right_wall = true := by
    intro a b
    rw [hget1]
    split_ifs
    · exact ⟨rfl, rfl, rfl, rfl, rfl⟩
    · exact ⟨rfl, rfl, rfl, rfl, rfl⟩
  refine ⟨m2, hbr, hWF2, hnr2, hnc2, hwin2, ?_, ?_, ?_, ?_, ?_⟩
  · intro a b
    rw [hchar a b]
    split_ifs
    · exact hc2f.1
    · exact hc1f.1
    · exact (hbasef a b).1
  · intro a b
    rw [hchar a b]
    split_ifs
    · exact hc2f.2.1
    · exact hc1f.2.1
    · exact (hbasef a b).2.1
  · intro a b
    rw [hchar a b]
    split_ifs
    · exact hc2f.2.2.1
    · exact hc1f.2.2.1
    · exact (hbasef a b).2.2.1
  · intro a b
    rw [hchar a b]
    by_cases h1 : a = m1.num_rows.toNat - 1 ∧ b = m1.num_cols.toNat - 1
    · rw [if_pos h1, hc2f.2.2.2.2]
      obtain ⟨h1a, h1b⟩ := h1
      rw [h1a, h1b]
    · rw [if_neg h1]
      by_cases h2 : a = 0 ∧ b = 0
      · rw [if_pos h2, if_pos h2]
      · rw [if_neg h2, if_neg h2]
        exact (hbasef a b).2.2.2.1
  · intro a b
    rw [hchar a b, hPr, hQc]
    by_cases h1 : a = rows.toNat - 1 ∧ b = cols.toNat - 1
    · rw [if_pos h1, if_pos h1]
    · rw [if_neg h1, if_neg h1]
      by_cases h2 : a = 0 ∧ b = 0
      · rw [if_pos h2]
        exact hc1f.2.2.2.2
      · rw [if_neg h2]
        exact (hbasef a b).2.2.2.2


theorem unvisitedCount_le (m : Maze) :
    unvisitedCount m ≤ m.num_rows.toNat * m.num_cols.toNat := by
  unfold unvisitedCount
  calc ((Finset.range m.num_rows.toNat ×ˢ Finset.range m.num_cols.toNat).filter
        (fun p => ¬(getCell m p.1 p.2).visited = true)).card
      ≤ (Finset.range m.num_rows.toNat ×ˢ Finset.range m.num_cols.toNat).card :=
        Finset.card_filter_le _ _
    _ = m.num_rows.toNat * m.num_cols.toNat := by
        rw [Finset.card_product, Finset.card_range, Finset.card_range]

theorem edgeOpen_false_of_closed {m : Maze}
    (hbot : ∀ a b, (getCell m a b).has_bottom_wall = true)
    (hleft : ∀ a b, (getCell m a b).has_left_wall =
      (if a = 0 ∧ b = 0 then false else true)) :
    ∀ a b, ¬ edgeOpen m a b := by
  have hdown : ∀ i j, downOpen m i j = false := by
    intro i j
    unfold downOpen
    rw [hbot]
    rfl
  have hright : ∀ i j, rightOpen m i j = false := by
    intro i j
    unfold rightOpen
    rw [hleft i (j + 1), if_neg (fun hx => by omega)]
    simp
  intro a b hedge
  rcases hedge with ⟨_, _, h3⟩ | ⟨_, _, h3⟩ | ⟨_, _, h3⟩ | ⟨_, _, h3⟩ <;>
    simp [hright, hdown] at h3

theorem carveInv_initial {R C : Nat} {m : Maze} (hWF : WF m)
    (hR : m.num_rows.toNat = R) (hC : m.num_cols.toNat = C)
    (hclosed : ∀ a b, ¬ edgeOpen m a b)
    (hunvis : ∀ a b, (getCell m a b).visited = false) :
    carveInv R C (markVisited m 0 0) := by
  have hwalls : ∀ a b, wallsCell (getCell (markVisited m 0 0) a b) =
      wallsCell (getCell m a b) := markVisited_wallsCell hWF 0 0
  have hclosed' : ∀ a b, ¬ edgeOpen (markVisited m 0 0) a b := by
    intro a b h
    exact hclosed a b ((edgeOpen_of_walls_eq hwalls a b).mp h)
  have hvisM : ∀ p : Fin R × Fin C,
      (getCell (markVisited m 0 0) p.1.val p.2.val).visited = true →
      p.1.val = 0 ∧ p.2.val = 0 := by
    intro p hp
    rw [markVisited_visited hWF] at hp
    by_cases hcond : p.1.val = 0 ∧ p.2.val = 0 ∧ 0 < m.num_rows.toNat ∧
        0 < m.num_cols.toNat
    · exact ⟨hcond.1, hcond.2.1⟩
    · rw [if_neg hcond] at hp
      rw [hunvis] at hp
      exact absurd hp (by simp)
  refine ⟨?_, ?_, ?_⟩
  · intro a b h
    exact absurd h (hclosed' a b)
  · intro p q hp hq
    obtain ⟨hp1, hp2⟩ := hvisM p hp
    obtain ⟨hq1, hq2⟩ := hvisM q hq
    have hpq : p = q := by
      refine Prod.ext (Fin.ext ?_) (Fin.ext ?_)
      · rw [hp1, hq1]
      · rw [hp2, hq2]
    rw [hpq]
  · intro v c hcyc
    cases c with
    | nil => exact hcyc.ne_nil rfl
    | cons hadj w => exact absurd hadj (hclosed' _ _)

theorem visited_fill {st : Maze}
    (h00 : (getCell st 0 0).visited = true)
    (hcl : ∀ a b, (getCell st a b).visited = true → nbrsVisited st a b) :
    ∀ a b, a < st.num_rows.toNat → b < st.num_cols.toNat →
      (getCell st a b).visited = true := by
  have hstep_down : ∀ a b, a + 1 < st.num_rows.toNat → b < st.num_cols.toNat →
      (getCell st a b).visited = true → (getCell st (a + 1) b).visited = true := by
    intro a b ha hb hv
    have hd := hcl a b hv (Direction.down, 1, 0) (by decide)
      (show (0 : Int) ≤ (b : Int) + 0 by omega)
      (show (b : Int) + 0 < st.num_cols by omega)
      (show (0 : Int) ≤ (a : Int) + 1 by omega)
      (show (a : Int) + 1 < st.num_rows by omega)
    have h5 : (((a : Nat) : Int) + ((Direction.down, (1 : Int), (0 : Int)) :
        Direction × Int × Int).2.1).toNat = a + 1 := by
      show ((a : Int) + 1).toNat = a + 1
      omega
    have h6 : (((b : Nat) : Int) + ((Direction.down, (1 : Int), (0 : Int)) :
        Direction × Int × Int).2.2).toNat = b := by
      show ((b : Int) + 0).toNat = b
      omega
    rw [h5, h6] at hd
    exact hd
  have hstep_right : ∀ a b, a < st.num_rows.toNat → b + 1 < st.num_cols.toNat →
      (getCell st a b).visited = true → (getCell st a (b + 1)).visited = true := by
    intro a b ha hb hv
    have hd := hcl a b hv (Direction.right, 0, 1) (by decide)
      (show (0 : Int) ≤ (b : Int) + 1 by omega)
      (show (b : Int) + 1 < st.num_cols by omega)
      (show (0 : Int) ≤ (a : Int) + 0 by omega)
      (show (a : Int) + 0 < st.num_rows by omega)
    have h5 : (((a : Nat) : Int) + ((Direction.right, (0 : Int), (1 : Int)) :
        Direction × Int × Int).2.1).toNat = a := by
      show ((a : Int) + 0).toNat = a
      omega
    have h6 : (((b : Nat) : Int) + ((Direction.right, (0 : Int), (1 : Int)) :
        Direction × Int × Int).2.2).toNat = b + 1 := by
      show ((b : Int) + 1).toNat = b + 1
      omega
    rw [h5, h6] at hd
    exact hd
  have hcol : ∀ a, a < st.num_rows.toNat → 0 < st.num_cols.toNat →
      (getCell st a 0).visited = true := by
    intro a
    induction a with
    | zero => intro _ _; exact h00
    | succ n ih =>
      intro hn h0c
      have hn' : n < st.num_rows.toNat := by omega
      exact hstep_down n 0 hn h0c (ih hn' h0c)
  intro a b
  induction b with
  | zero => intro ha hb; exact hcol a ha hb
  | succ n ih =>
    intro ha hn
    exact hstep_right a n ha hn (ih ha (by omega))

theorem mkMaze_none_spec (win : Bool) (rows cols : Int) (seedFn : Nat → Nat → Nat)
    (rng : Nat → Nat) (k : Nat) (hr : 1 ≤ rows) (hc : 1 ≤ cols) :
    ∃ m, mkMaze win rows cols seedFn rng k none = some m ∧
      WF m ∧ m.num_rows = rows ∧ m.num_cols = cols ∧ m.win = win ∧
      (∀ a b, (getCell m a b).visited = false) ∧
      consistentM m ∧
      (mazeGraph rows.toNat cols.toNat m).IsTree ∧
      (∀ b, (getCell m 0 b).has_top_wall = true) ∧
      (∀ b, (getCell m (rows.toNat - 1) b).has_bottom_wall = true) ∧
      (∀ a, (getCell m a 0).has_left_wall = (if a = 0 then false else true)) ∧
      (∀ a, (getCell m a (cols.toNat - 1)).has_right_wall =
        (if a = rows.toNat - 1 then false else true)) := by
  obtain ⟨m2, hbr, hWF2, hnr2, hnc2, hwin2, hv2, htop2, hbot2, hleft2, hright2⟩ :=
    entrance_state_facts win rows cols hr hc
  have hcons2 : consistentM m2 := by
    constructor
    · intro i j hi hj
      rw [hnc2] at hj
      rw [hright2 i j, hleft2 i (j + 1)]
      rw [if_neg (fun hx => by omega : ¬(i = rows.toNat - 1 ∧ j = cols.toNat - 1)),
        if_neg (fun hx => by omega : ¬(i = 0 ∧ j + 1 = 0))]
    · intro i j hi hj
      rw [hbot2 i j, htop2 (i + 1) j]
  have hclosed2 : ∀ a b, ¬ edgeOpen m2 a b := edgeOpen_false_of_closed hbot2 hleft2
  have hb0r : 0 < m2.num_rows.toNat := by rw [hnr2]; omega
  have hb0c : 0 < m2.num_cols.toNat := by rw [hnc2]; omega
  have hv00 : (getCell m2 0 0).visited = false := hv2 0 0
  have hfuel : 2 * unvisitedCount m2 ≤ 2 * (rows.toNat * cols.toNat) + 2 := by
    have h1 := unvisitedCount_le m2
    rw [hnr2, hnc2] at h1
    omega
  have hsome := break_walls_r_isSome rng (2 * (rows.toNat * cols.toNat) + 2) true m2 k 0 0
    hWF2 hb0r hb0c (fun _ => ⟨hv00, hfuel⟩) (fun h => absurd h (by decide))
  obtain ⟨st3, hcarve⟩ := Option.isSome_iff_exists.mp hsome
  obtain ⟨m3, k3⟩ := st3
  obtain ⟨hWF3, h3r, h3c, h3w⟩ :=
    break_walls_r_shape rng (2 * (rows.toNat * cols.toNat) + 2) true m2 k 0 0 m3 k3
      hcarve hWF2
  obtain ⟨hmono3, h300⟩ :=
    break_walls_r_visited rng (2 * (rows.toNat * cols.toNat) + 2) true m2 k 0 0 m3 k3
      hcarve hWF2 hb0r hb0c (fun h => absurd h (by decide))
  obtain ⟨hbdy3, hconsf3⟩ :=
    break_walls_r_walls rng (2 * (rows.toNat * cols.toNat) + 2) true m2 k 0 0 m3 k3
      hcarve hWF2 hb0r hb0c
  have hcons3 : consistentM m3 := hconsf3 hcons2
  obtain ⟨hinv3, hclosure3, hnbrs3⟩ :=
    break_walls_r_inv rng rows.toNat cols.toNat (2 * (rows.toNat * cols.toNat) + 2) true
      m2 k 0 0 m3 k3 hcarve hWF2 (by rw [hnr2]) (by rw [hnc2]) (by omega) (by omega)
      (fun _ => carveInv_initial hWF2 (by rw [hnr2]) (by rw [hnc2]) hclosed2 hv2)
      (fun h => absurd h (by decide))
  have h3rr : m3.num_rows = rows := by rw [h3r, hnr2]
  have h3cc : m3.num_cols = cols := by rw [h3c, hnc2]
  have hfill : ∀ a b, a < rows.toNat → b < cols.toNat →
      (getCell m3 a b).visited = true := by
    intro a b ha hb
    refine visited_fill h300 (fun a b hv => hclosure3 a b hv (hv2 a b)) a b ?_ ?_
    · rw [h3rr]; exact ha
    · rw [h3cc]; exact hb
  have hpre : (mazeGraph rows.toNat cols.toNat m3).Preconnected := by
    intro p q
    exact hinv3.2.1 p q (hfill p.1.val p.2.val p.1.isLt p.2.isLt)
      (hfill q.1.val q.2.val q.1.isLt q.2.isLt)
  have hNE : Nonempty (Fin rows.toNat × Fin cols.toNat) :=
    ⟨(⟨0, by omega⟩, ⟨0, by omega⟩)⟩
  have hconn : (mazeGraph rows.toNat cols.toNat m3).Connected := by
    haveI := hNE
    exact ⟨hpre⟩
  have htree3 : (mazeGraph rows.toNat cols.toNat m3).IsTree := ⟨hconn, hinv3.2.2⟩
  obtain ⟨hr4, hc4, hw4, hWFf4⟩ := reset_facts m3
  have hWF4 : WF (reset_cells_visited m3) := hWFf4 hWF3
  have hwalls4 : ∀ a b, wallsCell (getCell (reset_cells_visited m3) a b) =
      wallsCell (getCell m3 a b) := by
    intro a b
    rw [getCell_reset hWF3]
    split_ifs
    · rfl
    · rfl
  have hv4 : ∀ a b, (getCell (reset_cells_visited m3) a b).visited = false := by
    intro a b
    rw [getCell_reset hWF3]
    by_cases hb : a < m3.num_rows.toNat ∧ b < m3.num_cols.toNat
    · rw [if_pos hb]
    · rw [if_neg hb, getCell_oob hWF3 (by omega)]
      rfl
  have hrun : mkMaze win rows cols seedFn rng k none = some (reset_cells_visited m3) := by
    unfold mkMaze
    simp only
    rw [hbr]
    simp only
    rw [hcarve]
  refine ⟨reset_cells_visited m3, hrun, hWF4, ?_, ?_, ?_, hv4, ?_, ?_, ?_, ?_, ?_, ?_⟩
  · rw [hr4, h3rr]
  · rw [hc4, h3cc]
  · rw [hw4, h3w, hwin2]
  · exact consistentM_of_walls_eq hr4 hc4 hwalls4 hcons3
  · have hg : mazeGraph rows.toNat cols.toNat (reset_cells_visited m3) =
        mazeGraph rows.toNat cols.toNat m3 := mazeGraph_eq_of_walls_eq hwalls4
    rw [hg]
    exact htree3
  · intro b
    rw [wallsCell_top (hwalls4 0 b), hbdy3.1 b, htop2 0 b]
  · intro b
    have hidx : rows.toNat - 1 = m2.num_rows.toNat - 1 := by rw [hnr2]
    rw [hidx, wallsCell_bottom (hwalls4 _ b), hbdy3.2.1 b, hbot2 _ b]
  · intro a
    rw [wallsCell_left (hwalls4 a 0), hbdy3.2.2.1 a, hleft2 a 0]
    by_cases ha : a = 0
    · rw [if_pos ⟨ha, rfl⟩, if_pos ha]
    · rw [if_neg (fun hx => ha hx.1), if_neg ha]
  · intro a
    have hidx : cols.toNat - 1 = m2.num_cols.toNat - 1 := by rw [hnc2]
    rw [hidx, wallsCell_right (hwalls4 a _), hbdy3.2.2.2 a, hright2 a _]
    rw [← hidx]
    by_cases ha : a = rows.toNat - 1
    · rw [if_pos ⟨ha, rfl⟩, if_pos ha]
    · rw [if_neg (fun hx => ha hx.1), if_neg ha]

theorem mkMaze_spec (win : Bool) (rows cols : Int) (seedFn : Nat → Nat → Nat)
    (rng0 : Nat → Nat) (k0 : Nat) (seed : Option Nat)
    (hr : 1 ≤ rows) (hc : 1 ≤ cols) :
    ∃ m, mkMaze win rows cols seedFn rng0 k0 seed = some m ∧
      WF m ∧ m.num_rows = rows ∧ m.num_cols = cols ∧ m.win = win ∧
      (∀ a b, (getCell m a b).visited = false) ∧
      consistentM m ∧
      (mazeGraph rows.toNat cols.toNat m).IsTree ∧
      (∀ b, (getCell m 0 b).has_top_wall = true) ∧
      (∀ b, (getCell m (rows.toNat - 1) b).has_bottom_wall = true) ∧
      (∀ a, (getCell m a 0).has_left_wall = (if a = 0 then false else true)) ∧
      (∀ a, (getCell m a (cols.toNat - 1)).has_right_wall =
        (if a = rows.toNat - 1 then false else true)) := by
  cases seed with
  | none => exact mkMaze_none_spec win rows cols seedFn rng0 k0 hr hc
  | some s =>
    have heq : mkMaze win rows cols seedFn rng0 k0 (some s) =
        mkMaze win rows cols seedFn (seedFn s) 0 none := rfl
    rw [heq]
    exact mkMaze_none_spec win rows cols seedFn (seedFn s) 0 hr hc

theorem solve_go_frame : ∀ fuel mode st i j b st2 tr,
    solve_go fuel mode st i j = some (b, st2, tr) → WF st →
    WF st2 ∧ st2.num_rows = st.num_rows ∧ st2.num_cols = st.num_cols ∧
      st2.win = st.win ∧
      (∀ a b, wallsCell (getCell st2 a b) = wallsCell (getCell st a b)) := by
  intro fuel
  induction fuel with
  | zero =>
    intro mode st i j b st2 tr h _
    simp [solve_go] at h
  | succ fuel ih =>
    intro mode st i j b st2 tr h hWF
    cases mode with
    | none =>
      simp only [solve_go] at h
      have hWF1 : WF (markVisited st i j) := WF_markVisited hWF i j
      by_cases hgoal : (i : Int) = (markVisited st i j).num_rows - 1 ∧
          (j : Int) = (markVisited st i j).num_cols - 1
      · rw [if_pos hgoal] at h
        simp only [Option.some.injEq, Prod.mk.injEq] at h
        obtain ⟨hb, hst, htr⟩ := h
        subst hst
        exact ⟨hWF1, markVisited_num_rows st i j, markVisited_num_cols st i j, rfl,
          markVisited_wallsCell hWF i j⟩
      · rw [if_neg hgoal] at h
        cases hrec : solve_go fuel (some DIRECTIONS) (markVisited st i j) i j with
        | none => rw [hrec] at h; simp at h
        | some r =>
          obtain ⟨b1, st1, tr1⟩ := r
          rw [hrec] at h
          simp only [Option.some.injEq, Prod.mk.injEq] at h
          obtain ⟨hb, hst, htr⟩ := h
          subst hst
          obtain ⟨w1, w2, w3, w4, w5⟩ := ih (some DIRECTIONS) (markVisited st i j) i j
            b1 st1 tr1 hrec hWF1
          refine ⟨w1, ?_, ?_, ?_, ?_⟩
          · rw [w2, markVisited_num_rows]
          · rw [w3, markVisited_num_cols]
          · rw [w4]; rfl
          · intro a bb
            rw [w5 a bb, markVisited_wallsCell hWF i j]
    | some dirs =>
      cases dirs with
      | nil =>
        simp only [solve_go, Option.some.injEq, Prod.mk.injEq] at h
        obtain ⟨hb, hst, htr⟩ := h
        subst hst
        exact ⟨hWF, rfl, rfl, rfl, fun _ _ => rfl⟩
      | cons c rest =>
        simp only [solve_go] at h
        by_cases hwall : has_wall_in_direction (getCell st i j) c.1 = true
        · rw [if_pos hwall] at h
          exact ih (some rest) st i j b st2 tr h hWF
        · rw [if_neg hwall] at h
          by_cases hvm : (!(is_valid_move st i j c.2.1 c.2.2)) = true
          · rw [if_pos hvm] at h
            exact ih (some rest) st i j b st2 tr h hWF
          · rw [if_neg hvm] at h
            cases hrec : solve_go fuel none st (((i : Int) + c.2.1).toNat)
                (((j : Int) + c.2.2).toNat) with
            | none => rw [hrec] at h; simp at h
            | some r =>
              obtain ⟨ok, st1, tr1⟩ := r
              rw [hrec] at h
              simp only [] at h
              obtain ⟨w1, w2, w3, w4, w5⟩ := ih none st (((i : Int) + c.2.1).toNat)
                (((j : Int) + c.2.2).toNat) ok st1 tr1 hrec hWF
              by_cases hok : ok = true
              · rw [if_pos hok] at h
                simp only [Option.some.injEq, Prod.mk.injEq] at h
                obtain ⟨hb, hst, htr⟩ := h
                subst hst
                exact ⟨w1, w2, w3, w4, w5⟩
              · rw [if_neg hok] at h
                cases hrec2 : solve_go fuel (some rest) st1 i j with
                | none => rw [hrec2] at h; simp at h
                | some r2 =>
                  obtain ⟨b2, st3, tr2⟩ := r2
                  rw [hrec2] at h
                  simp only [Option.some.injEq, Prod.mk.injEq] at h
                  obtain ⟨hb, hst, htr⟩ := h
                  subst hst
                  obtain ⟨x1, x2, x3, x4, x5⟩ := ih (some rest) st1 i j b2 st3 tr2 hrec2 w1
                  refine ⟨x1, ?_, ?_, ?_, ?_⟩
                  · rw [x2, w2]
                  · rw [x3, w3]
                  · rw [x4, w4]
                  · intro a bb
                    rw [x5 a bb, w5 a bb]

theorem solve_go_visited : ∀ fuel mode st i j b st2 tr,
    solve_go fuel mode st i j = some (b, st2, tr) → WF st →
    (∀ a bb, (getCell st a bb).visited = true → (getCell st2 a bb).visited = true) ∧
    (mode = none → i < st.num_rows.toNat → j < st.num_cols.toNat →
      (getCell st2 i j).visited = true) := by
  intro fuel
  induction fuel with
  | zero =>
    intro mode st i j b st2 tr h _
    simp [solve_go] at h
  | succ fuel ih =>
    intro mode st i j b st2 tr h hWF
    cases mode with
    | none =>
      simp only [solve_go] at h
      have hWF1 : WF (markVisited st i j) := WF_markVisited hWF i j
      have hmm : ∀ a bb, (getCell st a bb).visited = true →
          (getCell (markVisited st i j) a bb).visited = true := by
        intro a bb hv
        rw [markVisited_visited hWF]
        split_ifs
        · rfl
        · exact hv
      have hm00 : i < st.num_rows.toNat → j < st.num_cols.toNat →
          (getCell (markVisited st i j) i j).visited = true := by
        intro hi hj
        rw [markVisited_visited hWF, if_pos ⟨rfl, rfl, hi, hj⟩]
      by_cases hgoal : (i : Int) = (markVisited st i j).num_rows - 1 ∧
          (j : Int) = (markVisited st i j).num_cols - 1
      · rw [if_pos hgoal] at h
        simp only [Option.some.injEq, Prod.mk.injEq] at h
        obtain ⟨hb, hst, htr⟩ := h
        subst hst
        exact ⟨hmm, fun _ hi hj => hm00 hi hj⟩
      · rw [if_neg hgoal] at h
        cases hrec : solve_go fuel (some DIRECTIONS) (markVisited st i j) i j with
        | none => rw [hrec] at h; simp at h
        | some r =>
          obtain ⟨b1, st1, tr1⟩ := r
          rw [hrec] at h
          simp only [Option.some.injEq, Prod.mk.injEq] at h
          obtain ⟨hb, hst, htr⟩ := h
          subst hst
          obtain ⟨imono, _⟩ := ih (some DIRECTIONS) (markVisited st i j) i j
            b1 st1 tr1 hrec hWF1
          refine ⟨fun a bb hv => imono a bb (hmm a bb hv), fun _ hi hj => ?_⟩
          exact imono i j (hm00 hi hj)
    | some dirs =>
      cases dirs with
      | nil =>
        simp only [solve_go, Option.some.injEq, Prod.mk.injEq] at h
        obtain ⟨hb, hst, htr⟩ := h
        subst hst
        exact ⟨fun _ _ hv => hv, fun heq => Option.noConfusion heq⟩
      | cons c rest =>
        simp only [solve_go] at h
        by_cases hwall : has_wall_in_direction (getCell st i j) c.1 = true
        · rw [if_pos hwall] at h
          obtain ⟨imono, _⟩ := ih (some rest) st i j b st2 tr h hWF
          exact ⟨imono, fun heq => Option.noConfusion heq⟩
        · rw [if_neg hwall] at h
          by_cases hvm : (!(is_valid_move st i j c.2.1 c.2.2)) = true
          · rw [if_pos hvm] at h
            obtain ⟨imono, _⟩ := ih (some rest) st i j b st2 tr h hWF
            exact ⟨imono, fun heq => Option.noConfusion heq⟩
          · rw [if_neg hvm] at h
            cases hrec : solve_go fuel none st (((i : Int) + c.2.1).toNat)
                (((j : Int) + c.2.2).toNat) with
            | none => rw [hrec] at h; simp at h
            | some r =>
              obtain ⟨ok, st1, tr1⟩ := r
              rw [hrec] at h
              simp only [] at h
              obtain ⟨imono1, _⟩ := ih none st (((i : Int) + c.2.1).toNat)
                (((j : Int) + c.2.2).toNat) ok st1 tr1 hrec hWF
              obtain ⟨w1, _, _, _, _⟩ := solve_go_frame fuel none st
                (((i : Int) + c.2.1).toNat) (((j : Int) + c.2.2).toNat) ok st1 tr1 hrec hWF
              by_cases hok : ok = true
              · rw [if_pos hok] at h
                simp only [Option.some.injEq, Prod.mk.injEq] at h
                obtain ⟨hb, hst, htr⟩ := h
                subst hst
                exact ⟨imono1, fun heq => Option.noConfusion heq⟩
              · rw [if_neg hok] at h
                cases hrec2 : solve_go fuel (some rest) st1 i j with
                | none => rw [hrec2] at h; simp at h
                | some r2 =>
                  obtain ⟨b2, st3, tr2⟩ := r2
                  rw [hrec2] at h
                  simp only [Option.some.injEq, Prod.mk.injEq] at h
                  obtain ⟨hb, hst, htr⟩ := h
                  subst hst
                  obtain ⟨imono2, _⟩ := ih (some rest) st1 i j b2 st3 tr2 hrec2 w1
                  exact ⟨fun a bb hv => imono2 a bb (imono1 a bb hv),
                    fun heq => Option.noConfusion heq⟩

theorem solve_go_true_goal : ∀ fuel mode st i j st2 tr,
    solve_go fuel mode st i j = some (true, st2, tr) → WF st →
    1 ≤ st.num_rows → 1 ≤ st.num_cols →
    (getCell st2 (st.num_rows.toNat - 1) (st.num_cols.toNat - 1)).visited = true := by
  intro fuel
  induction fuel with
  | zero =>
    intro mode st i j st2 tr h _
    simp [solve_go] at h
  | succ fuel ih =>
    intro mode st i j st2 tr h hWF hr hc
    cases mode with
    | none =>
      simp only [solve_go] at h
      have hWF1 : WF (markVisited st i j) := WF_markVisited hWF i j
      by_cases hgoal : (i : Int) = (markVisited st i j).num_rows - 1 ∧
          (j : Int) = (markVisited st i j).num_cols - 1
      · rw [if_pos hgoal] at h
        simp only [Option.some.injEq, Prod.mk.injEq] at h
        obtain ⟨-, hst, htr⟩ := h
        subst hst
        rw [markVisited_num_rows, markVisited_num_cols] at hgoal
        have hii : st.num_rows.toNat - 1 = i := by omega
        have hjj : st.num_cols.toNat - 1 = j := by omega
        rw [hii, hjj, markVisited_visited hWF, if_pos ⟨rfl, rfl, by omega, by omega⟩]
      · rw [if_neg hgoal] at h
        cases hrec : solve_go fuel (some DIRECTIONS) (markVisited st i j) i j with
        | none => rw [hrec] at h; simp at h
        | some r =>
          obtain ⟨b1, st1, tr1⟩ := r
          rw [hrec] at h
          simp only [Option.some.injEq, Prod.mk.injEq] at h
          obtain ⟨hb, hst, htr⟩ := h
          subst hst
          subst hb
          have := ih (some DIRECTIONS) (markVisited st i j) i j st1 tr1 hrec hWF1
            (by rw [markVisited_num_rows]; exact hr) (by rw [markVisited_num_cols]; exact hc)
          rw [markVisited_num_rows, markVisited_num_cols] at this
          exact this
    | some dirs =>
      cases dirs with
      | nil =>
        simp only [solve_go, Option.some.injEq, Prod.mk.injEq] at h
        exact absurd h.1 (by decide)
      | cons c rest =>
        simp only [solve_go] at h
        by_cases hwall : has_wall_in_direction (getCell st i j) c.1 = true
        · rw [if_pos hwall] at h
          exact ih (some rest) st i j st2 tr h hWF hr hc
        · rw [if_neg hwall] at h
          by_cases hvm : (!(is_valid_move st i j c.2.1 c.2.2)) = true
          · rw [if_pos hvm] at h
            exact ih (some rest) st i j st2 tr h hWF hr hc
          · rw [if_neg hvm] at h
            cases hrec : solve_go fuel none st (((i : Int) + c.2.1).toNat)
                (((j : Int) + c.2.2).toNat) with
            | none => rw [hrec] at h; simp at h
            | some r =>
              obtain ⟨ok, st1, tr1⟩ := r
              rw [hrec] at h
              simp only [] at h
              obtain ⟨w1, w2, w3, _, _⟩ := solve_go_frame fuel none st
                (((i : Int) + c.2.1).toNat) (((j : Int) + c.2.2).toNat) ok st1 tr1 hrec hWF
              by_cases hok : ok = true
              · rw [if_pos hok] at h
                simp only [Option.some.injEq, Prod.mk.injEq] at h
                obtain ⟨-, hst, htr⟩ := h
                subst hst
                subst hok
                exact ih none st (((i : Int) + c.2.1).toNat) (((j : Int) + c.2.2).toNat)
                  st1 tr1 hrec hWF hr hc
              · rw [if_neg hok] at h
                cases hrec2 : solve_go fuel (some rest) st1 i j with
                | none => rw [hrec2] at h; simp at h
                | some r2 =>
                  obtain ⟨b2, st3, tr2⟩ := r2
                  rw [hrec2] at h
                  simp only [Option.some.injEq, Prod.mk.injEq] at h
                  obtain ⟨hb, hst, htr⟩ := h
                  subst hst
                  subst hb
                  have := ih (some rest) st1 i j st3 tr2 hrec2 w1
                    (by rw [w2]; exact hr) (by rw [w3]; exact hc)
                  rw [w2, w3] at this
                  exact this

theorem solve_go_false_goal : ∀ fuel mode st i j st2 tr,
    solve_go fuel mode st i j = some (false, st2, tr) → WF st →
    1 ≤ st.num_rows → 1 ≤ st.num_cols →
    (getCell st (st.num_rows.toNat - 1) (st.num_cols.toNat - 1)).visited = false →
    (getCell st2 (st.num_rows.toNat - 1) (st.num_cols.toNat - 1)).visited = false := by
  intro fuel
  induction fuel with
  | zero =>
    intro mode st i j st2 tr h _
    simp [solve_go] at h
  | succ fuel ih =>
    intro mode st i j st2 tr h hWF hr hc hgv
    cases mode with
    | none =>
      simp only [solve_go] at h
      have hWF1 : WF (markVisited st i j) := WF_markVisited hWF i j
      by_cases hgoal : (i : Int) = (markVisited st i j).num_rows - 1 ∧
          (j : Int) = (markVisited st i j).num_cols - 1
      · rw [if_pos hgoal] at h
        simp only [Option.some.injEq, Prod.mk.injEq] at h
        exact absurd h.1 (by decide)
      · rw [if_neg hgoal] at h
        rw [markVisited_num_rows, markVisited_num_cols] at hgoal
        have hgv1 : (getCell (markVisited st i j) (st.num_rows.toNat - 1)
            (st.num_cols.toNat - 1)).visited = false := by
          rw [markVisited_visited hWF, if_neg (fun hx => hgoal (by omega))]
          exact hgv
        cases hrec : solve_go fuel (some DIRECTIONS) (markVisited st i j) i j with
        | none => rw [hrec] at h; simp at h
        | some r =>
          obtain ⟨b1, st1, tr1⟩ := r
          rw [hrec] at h
          simp only [Option.some.injEq, Prod.mk.injEq] at h
          obtain ⟨hb, hst, htr⟩ := h
          subst hst
          subst hb
          have := ih (some DIRECTIONS) (markVisited st i j) i j st1 tr1 hrec hWF1
            (by rw [markVisited_num_rows]; exact hr) (by rw [markVisited_num_cols]; exact hc)
            (by rw [markVisited_num_rows, markVisited_num_cols]; exact hgv1)
          rw [markVisited_num_rows, markVisited_num_cols] at this
          exact this
    | some dirs =>
      cases dirs with
      | nil =>
        simp only [solve_go, Option.some.injEq, Prod.mk.injEq] at h
        obtain ⟨hb, hst, htr⟩ := h
        subst hst
        exact hgv
      | cons c rest =>
        simp only [solve_go] at h
        by_cases hwall : has_wall_in_direction (getCell st i j) c.1 = true
        · rw [if_pos hwall] at h
          exact ih (some rest) st i j st2 tr h hWF hr hc hgv
        · rw [if_neg hwall] at h
          by_cases hvm : (!(is_valid_move st i j c.2.1 c.2.2)) = true
          · rw [if_pos hvm] at h
            exact ih (some rest) st i j st2 tr h hWF hr hc hgv
          · rw [if_neg hvm] at h
            cases hrec : solve_go fuel none st (((i : Int) + c.2.1).toNat)
                (((j : Int) + c.2.2).toNat) with
            | none => rw [hrec] at h; simp at h
            | some r =>
              obtain ⟨ok, st1, tr1⟩ := r
              rw [hrec] at h
              simp only [] at h
              obtain ⟨w1, w2, w3, _, _⟩ := solve_go_frame fuel none st
                (((i : Int) + c.2.1).toNat) (((j : Int) + c.2.2).toNat) ok st1 tr1 hrec hWF
              by_cases hok : ok = true
              · rw [if_pos hok] at h
                simp only [Option.some.injEq, Prod.mk.injEq] at h
                exact absurd h.1 (by decide)
              · rw [if_neg hok] at h
                have hokf : ok = false := by simpa using hok
                subst hokf
                have hgv1 := ih none st (((i : Int) + c.2.1).toNat)
                  (((j : Int) + c.2.2).toNat) st1 tr1 hrec hWF hr hc hgv
                cases hrec2 : solve_go fuel (some rest) st1 i j with
                | none => rw [hrec2] at h; simp at h
                | some r2 =>
                  obtain ⟨b2, st3, tr2⟩ := r2
                  rw [hrec2] at h
                  simp only [Option.some.injEq, Prod.mk.injEq] at h
                  obtain ⟨hb, hst, htr⟩ := h
                  subst hst
                  subst hb
                  have := ih (some rest) st1 i j st3 tr2 hrec2 w1
                    (by rw [w2]; exact hr) (by rw [w3]; exact hc)
                    (by rw [w2, w3]; exact hgv1)
                  rw [w2, w3] at this
                  exact this

def solvedNbrs (m : Maze) (i j : Nat) : Prop :=
  ∀ c ∈ DIRECTIONS, has_wall_in_direction (getCell m i j) c.1 = false →
    0 ≤ (i : Int) + c.2.1 → (i : Int) + c.2.1 < m.num_rows →
    0 ≤ (j : Int) + c.2.2 → (j : Int) + c.2.2 < m.num_cols →
    (getCell m ((i : Int) + c.2.1).toNat ((j : Int) + c.2.2).toNat).visited = true

theorem has_wall_congr {c c' : Cell} (h : wallsCell c = wallsCell c') (d : Direction) :
    has_wall_in_direction c d = has_wall_in_direction c' d := by
  cases d
  · exact wallsCell_top h
  · exact wallsCell_bottom h
  · exact wallsCell_left h
  · exact wallsCell_right h

theorem solvedNbrs_mono {m m' : Maze} {i j : Nat}
    (hr : m'.num_rows = m.num_rows) (hc : m'.num_cols = m.num_cols)
    (hw : ∀ a b, wallsCell (getCell m' a b) = wallsCell (getCell m a b))
    (hv : ∀ a b, (getCell m a b).visited = true → (getCell m' a b).visited = true)
    (h : solvedNbrs m i j) : solvedNbrs m' i j := by
  intro c hcd hwall h1 h2 h3 h4
  rw [hr] at h2
  rw [hc] at h4
  refine hv _ _ (h c hcd ?_ h1 h2 h3 h4)
  rw [← hwall]
  exact (has_wall_congr (hw i j) c.1).symm

theorem is_valid_move_eq (m : Maze) (i j : Nat) (dy dx : Int) :
    is_valid_move m i j dy dx =
      (decide (0 ≤ (i : Int) + dy) && decide ((i : Int) + dy < m.num_rows) &&
        decide (0 ≤ (j : Int) + dx) && decide ((j : Int) + dx < m.num_cols) &&
        !(getCell m ((i : Int) + dy).toNat ((j : Int) + dx).toNat).visited) := by
  unfold is_valid_move
  simp only []
  cases hq : (decide (0 ≤ (i : Int) + dy) && decide ((i : Int) + dy < m.num_rows) &&
      decide (0 ≤ (j : Int) + dx) && decide ((j : Int) + dx < m.num_cols))
  · simp
  · simp

theorem is_valid_move_true_elim {m : Maze} {i j : Nat} {dy dx : Int}
    (h : is_valid_move m i j dy dx = true) :
    0 ≤ (i : Int) + dy ∧ (i : Int) + dy < m.num_rows ∧ 0 ≤ (j : Int) + dx ∧
      (j : Int) + dx < m.num_cols ∧
      (getCell m ((i : Int) + dy).toNat ((j : Int) + dx).toNat).visited = false := by
  rw [is_valid_move_eq] at h
  simp only [Bool.and_eq_true, decide_eq_true_eq, Bool.not_eq_true'] at h
  tauto

theorem is_valid_move_false_elim {m : Maze} {i j : Nat} {dy dx : Int}
    (h : is_valid_move m i j dy dx = false)
    (h1 : 0 ≤ (i : Int) + dy) (h2 : (i : Int) + dy < m.num_rows)
    (h3 : 0 ≤ (j : Int) + dx) (h4 : (j : Int) + dx < m.num_cols) :
    (getCell m ((i : Int) + dy).toNat ((j : Int) + dx).toNat).visited = true := by
  by_contra hv
  have hv2 : (getCell m ((i : Int) + dy).toNat ((j : Int) + dx).toNat).visited = false := by
    simpa using hv
  rw [is_valid_move_eq] at h
  simp [h1, h2, h3, h4, hv2] at h

theorem solve_go_false_inv : ∀ fuel mode st i j st2 tr,
    solve_go fuel mode st i j = some (false, st2, tr) → WF st →
    (∀ a bb, (getCell st2 a bb).visited = true → (getCell st a bb).visited = false →
      solvedNbrs st2 a bb) ∧
    (∀ dirs, mode = some dirs → ∀ c ∈ dirs,
      has_wall_in_direction (getCell st2 i j) c.1 = false →
      0 ≤ (i : Int) + c.2.1 → (i : Int) + c.2.1 < st2.num_rows →
      0 ≤ (j : Int) + c.2.2 → (j : Int) + c.2.2 < st2.num_cols →
      (getCell st2 ((i : Int) + c.2.1).toNat ((j : Int) + c.2.2).toNat).visited = true) ∧
    (mode = none → solvedNbrs st2 i j) := by
  intro fuel
  induction fuel with
  | zero =>
    intro mode st i j st2 tr h _
    simp [solve_go] at h
  | succ fuel ih =>
    intro mode st i j st2 tr h hWF
    cases mode with
    | none =>
      simp only [solve_go] at h
      have hWF1 : WF (markVisited st i j) := WF_markVisited hWF i j
      by_cases hgoal : (i : Int) = (markVisited st i j).num_rows - 1 ∧
          (j : Int) = (markVisited st i j).num_cols - 1
      · rw [if_pos hgoal] at h
        simp only [Option.some.injEq, Prod.mk.injEq] at h
        exact absurd h.1 (by decide)
      · rw [if_neg hgoal] at h
        cases hrec : solve_go fuel (some DIRECTIONS) (markVisited st i j) i j with
        | none => rw [hrec] at h; simp at h
        | some r =>
          obtain ⟨b1, st1, tr1⟩ := r
          rw [hrec] at h
          simp only [Option.some.injEq, Prod.mk.injEq] at h
          obtain ⟨hb, hst, htr⟩ := h
          subst hst
          subst hb
          obtain ⟨F1l, F2l, -⟩ := ih (some DIRECTIONS) (markVisited st i j) i j st1 tr1
            hrec hWF1
          refine ⟨?_, fun dirs heq => Option.noConfusion heq, ?_⟩
          · intro a bb hv hnv
            by_cases hm : (getCell (markVisited st i j) a bb).visited = true
            · rw [markVisited_visited hWF] at hm
              by_cases hcnd : a = i ∧ bb = j ∧ i < st.num_rows.toNat ∧ j < st.num_cols.toNat
              · obtain ⟨ha, hb2, -, -⟩ := hcnd
                subst ha
                subst hb2
                intro c hc hwl h1 h2 h3 h4
                exact F2l DIRECTIONS rfl c hc hwl h1 h2 h3 h4
              · rw [if_neg hcnd] at hm
                rw [hnv] at hm
                exact Bool.noConfusion hm
            · exact F1l a bb hv (by simpa using hm)
          · intro _ c hc hwl h1 h2 h3 h4
            exact F2l DIRECTIONS rfl c hc hwl h1 h2 h3 h4
    | some dirs =>
      cases dirs with
      | nil =>
        simp only [solve_go, Option.some.injEq, Prod.mk.injEq] at h
        obtain ⟨-, hst, htr⟩ := h
        subst hst
        refine ⟨?_, ?_, fun heq => Option.noConfusion heq⟩
        · intro a bb hv hnv
          rw [hv] at hnv
          exact Bool.noConfusion hnv
        · intro dirs2 heq c hc
          injection heq with hd
          subst hd
          exact absurd hc (List.not_mem_nil c)
      | cons c rest =>
        simp only [solve_go] at h
        by_cases hwall : has_wall_in_direction (getCell st i j) c.1 = true
        · rw [if_pos hwall] at h
          obtain ⟨F1r, F2r, -⟩ := ih (some rest) st i j st2 tr h hWF
          obtain ⟨w1, w2, w3, w4, w5⟩ := solve_go_frame fuel (some rest) st i j false st2
            tr h hWF
          refine ⟨F1r, ?_, fun heq => Option.noConfusion heq⟩
          intro dirs2 heq c2 hc2
          injection heq with hd
          subst hd
          rcases List.mem_cons.mp hc2 with rfl | hmem
          · intro hwf h1 h2 h3 h4
            rw [has_wall_congr (w5 i j) c2.1, hwall] at hwf
            exact Bool.noConfusion hwf
          · exact F2r rest rfl c2 hmem
        · rw [if_neg hwall] at h
          by_cases hvm : (!(is_valid_move st i j c.2.1 c.2.2)) = true
          · rw [if_pos hvm] at h
            obtain ⟨F1r, F2r, -⟩ := ih (some rest) st i j st2 tr h hWF
            obtain ⟨w1, w2, w3, w4, w5⟩ := solve_go_frame fuel (some rest) st i j false st2
              tr h hWF
            obtain ⟨imono, -⟩ := solve_go_visited fuel (some rest) st i j false st2 tr h hWF
            refine ⟨F1r, ?_, fun heq => Option.noConfusion heq⟩
            intro dirs2 heq c2 hc2
            injection heq with hd
            subst hd
            rcases List.mem_cons.mp hc2 with rfl | hmem
            · intro hwf h1 h2 h3 h4
              have hval : is_valid_move st i j c2.2.1 c2.2.2 = false := by simpa using hvm
              rw [w2] at h2
              rw [w3] at h4
              exact imono _ _ (is_valid_move_false_elim hval h1 h2 h3 h4)
            · exact F2r rest rfl c2 hmem
          · rw [if_neg hvm] at h
            cases hrec : solve_go fuel none st (((i : Int) + c.2.1).toNat)
                (((j : Int) + c.2.2).toNat) with
            | none => rw [hrec] at h; simp at h
            | some r =>
              obtain ⟨ok, st1, tr1⟩ := r
              rw [hrec] at h
              simp only [] at h
              by_cases hok : ok = true
              · rw [if_pos hok] at h
                simp only [Option.some.injEq, Prod.mk.injEq] at h
                exact absurd h.1 (by decide)
              · rw [if_neg hok] at h
                have hokf : ok = false := by simpa using hok
                subst hokf
                cases hrec2 : solve_go fuel (some rest) st1 i j with
                | none => rw [hrec2] at h; simp at h
                | some r2 =>
                  obtain ⟨b2, st3, tr2⟩ := r2
                  rw [hrec2] at h
                  simp only [Option.some.injEq, Prod.mk.injEq] at h
                  obtain ⟨hb, hst, htr⟩ := h
                  subst hst
                  subst hb
                  obtain ⟨w1, w2, w3, w4, w5⟩ := solve_go_frame fuel none st
                    (((i : Int) + c.2.1).toNat) (((j : Int) + c.2.2).toNat) false st1 tr1
                    hrec hWF
                  obtain ⟨x1, x2, x3, x4, x5⟩ := solve_go_frame fuel (some rest) st1 i j
                    false st3 tr2 hrec2 w1
                  obtain ⟨m1, mk1⟩ := solve_go_visited fuel none st
                    (((i : Int) + c.2.1).toNat) (((j : Int) + c.2.2).toNat) false st1 tr1
                    hrec hWF
                  obtain ⟨m2, -⟩ := solve_go_visited fuel (some rest) st1 i j false st3 tr2
                    hrec2 w1
                  obtain ⟨F1c, -, -⟩ := ih none st (((i : Int) + c.2.1).toNat)
                    (((j : Int) + c.2.2).toNat) st1 tr1 hrec hWF
                  obtain ⟨F1r, F2r, -⟩ := ih (some rest) st1 i j st3 tr2 hrec2 w1
                  have hval := is_valid_move_true_elim
                    (show is_valid_move st i j c.2.1 c.2.2 = true by simpa using hvm)
                  obtain ⟨v1, v2, v3, v4, v5⟩ := hval
                  refine ⟨?_, ?_, fun heq => Option.noConfusion heq⟩
                  · intro a bb hv hnv
                    by_cases hm : (getCell st1 a bb).visited = true
                    · exact solvedNbrs_mono x2 x3 x5 m2 (F1c a bb hm hnv)
                    · exact F1r a bb hv (by simpa using hm)
                  · intro dirs2 heq c2 hc2
                    injection heq with hd
                    subst hd
                    rcases List.mem_cons.mp hc2 with rfl | hmem
                    · intro hwf h1 h2 h3 h4
                      have hbi : ((i : Int) + c2.2.1).toNat < st.num_rows.toNat := by omega
                      have hbj : ((j : Int) + c2.2.2).toNat < st.num_cols.toNat := by omega
                      exact m2 _ _ (mk1 rfl hbi hbj)
                    · exact F2r rest rfl c2 hmem

theorem unvisitedCount_mono_le {m m2 : Maze}
    (hr : m2.num_rows = m.num_rows) (hc : m2.num_cols = m.num_cols)
    (hmono : ∀ a b, (getCell m a b).visited = true → (getCell m2 a b).visited = true) :
    unvisitedCount m2 ≤ unvisitedCount m := by
  unfold unvisitedCount
  rw [hr, hc]
  apply Finset.card_le_card
  intro p hp
  rw [Finset.mem_filter] at hp
  rw [Finset.mem_filter]
  exact ⟨hp.1, fun hvv => hp.2 (hmono _ _ hvv)⟩

theorem markVisited_count_le (m : Maze) (hWF : WF m) (i j : Nat) :
    unvisitedCount (markVisited m i j) ≤ unvisitedCount m :=
  unvisitedCount_mono_le (markVisited_num_rows m i j) (markVisited_num_cols m i j)
    (fun a b hv => by
      rw [markVisited_visited hWF]
      split_ifs
      · rfl
      · exact hv)

theorem solve_go_isSome : ∀ fuel mode st i j, WF st →
    (mode = none → 6 * unvisitedCount st + 6 ≤ fuel ∨
      ((getCell st i j).visited = false ∧ i < st.num_rows.toNat ∧
        j < st.num_cols.toNat ∧ 6 * unvisitedCount st ≤ fuel)) →
    (∀ dirs, mode = some dirs → 6 * unvisitedCount st + dirs.length + 1 ≤ fuel) →
    (solve_go fuel mode st i j).isSome = true := by
  intro fuel
  induction fuel with
  | zero =>
    intro mode st i j hWF hpn hps
    cases mode with
    | none =>
      rcases hpn rfl with hf | ⟨hun, hbi, hbj, hf⟩
      · omega
      · have := unvisitedCount_pos hbi hbj hun
        omega
    | some dirs =>
      have := hps dirs rfl
      omega
  | succ fuel ih =>
    intro mode st i j hWF hpn hps
    cases mode with
    | none =>
      simp only [solve_go]
      have hWF1 : WF (markVisited st i j) := WF_markVisited hWF i j
      have hcnt1 : unvisitedCount (markVisited st i j) ≤ unvisitedCount st :=
        markVisited_count_le st hWF i j
      by_cases hgoal : (i : Int) = (markVisited st i j).num_rows - 1 ∧
          (j : Int) = (markVisited st i j).num_cols - 1
      · rw [if_pos hgoal]
        rfl
      · rw [if_neg hgoal]
        have hfuel1 : 6 * unvisitedCount (markVisited st i j) + 5 ≤ fuel := by
          rcases hpn rfl with hf | ⟨hun, hbi, hbj, hf⟩
          · omega
          · have hdec : unvisitedCount (markVisited st i j) + 1 ≤ unvisitedCount st :=
              unvisitedCount_decrease (markVisited_num_rows st i j)
                (markVisited_num_cols st i j)
                (fun a b hv => by
                  rw [markVisited_visited hWF]
                  split_ifs
                  · rfl
                  · exact hv)
                (v := (i, j)) hbi hbj hun
                (by rw [markVisited_visited hWF, if_pos ⟨rfl, rfl, hbi, hbj⟩])
            omega
        have hs := ih (some DIRECTIONS) (markVisited st i j) i j hWF1
          (fun heq => Option.noConfusion heq)
          (fun dirs heq => by
            injection heq with hd
            subst hd
            simp only [DIRECTIONS, List.length_cons, List.length_nil]
            omega)
        obtain ⟨r, hrec⟩ := Option.isSome_iff_exists.mp hs
        obtain ⟨b1, st1, tr1⟩ := r
        rw [hrec]
        rfl
    | some dirs =>
      cases dirs with
      | nil =>
        simp [solve_go]
      | cons c rest =>
        have hfr := hps (c :: rest) rfl
        simp only [List.length_cons] at hfr
        simp only [solve_go]
        by_cases hwall : has_wall_in_direction (getCell st i j) c.1 = true
        · rw [if_pos hwall]
          exact ih (some rest) st i j hWF (fun heq => Option.noConfusion heq)
            (fun dirs2 heq => by
              injection heq with hd
              subst hd
              omega)
        · rw [if_neg hwall]
          by_cases hvm : (!(is_valid_move st i j c.2.1 c.2.2)) = true
          · rw [if_pos hvm]
            exact ih (some rest) st i j hWF (fun heq => Option.noConfusion heq)
              (fun dirs2 heq => by
                injection heq with hd
                subst hd
                omega)
          · rw [if_neg hvm]
            obtain ⟨v1, v2, v3, v4, v5⟩ := is_valid_move_true_elim
              (show is_valid_move st i j c.2.1 c.2.2 = true by simpa using hvm)
            have hbi : ((i : Int) + c.2.1).toNat < st.num_rows.toNat := by omega
            have hbj : ((j : Int) + c.2.2).toNat < st.num_cols.toNat := by omega
            have hchild := ih none st (((i : Int) + c.2.1).toNat)
              (((j : Int) + c.2.2).toNat) hWF
              (fun _ => Or.inr ⟨v5, hbi, hbj, by omega⟩)
              (fun dirs2 heq => Option.noConfusion heq)
            obtain ⟨r, hrec⟩ := Option.isSome_iff_exists.mp hchild
            obtain ⟨ok, st1, tr1⟩ := r
            rw [hrec]
            simp only []
            obtain ⟨w1, w2, w3, w4, w5⟩ := solve_go_frame fuel none st
              (((i : Int) + c.2.1).toNat) (((j : Int) + c.2.2).toNat) ok st1 tr1 hrec hWF
            obtain ⟨m1, mk1⟩ := solve_go_visited fuel none st
              (((i : Int) + c.2.1).toNat) (((j : Int) + c.2.2).toNat) ok st1 tr1 hrec hWF
            by_cases hok : ok = true
            · rw [if_pos hok]
              rfl
            · rw [if_neg hok]
              have hdec : unvisitedCount st1 + 1 ≤ unvisitedCount st :=
                unvisitedCount_decrease w2 w3 m1
                  (v := ((((i : Int) + c.2.1).toNat), (((j : Int) + c.2.2).toNat)))
                  hbi hbj v5 (mk1 rfl hbi hbj)
              have hcont := ih (some rest) st1 i j w1
                (fun heq => Option.noConfusion heq)
                (fun dirs2 heq => by
                  injection heq with hd
                  subst hd
                  omega)
              obtain ⟨r2, hrec2⟩ := Option.isSome_iff_exists.mp hcont
              obtain ⟨b2, st3, tr2⟩ := r2
              rw [hrec2]
              rfl

theorem rightOpen_elim {m : Maze} {i j : Nat} (h : rightOpen m i j = true) :
    (getCell m i j).has_right_wall = false ∧ (getCell m i (j + 1)).has_left_wall = false := by
  unfold rightOpen at h
  simp only [Bool.and_eq_true, Bool.not_eq_true'] at h
  exact h

theorem downOpen_elim {m : Maze} {i j : Nat} (h : downOpen m i j = true) :
    (getCell m i j).has_bottom_wall = false ∧ (getCell m (i + 1) j).has_top_wall = false := by
  unfold downOpen at h
  simp only [Bool.and_eq_true, Bool.not_eq_true'] at h
  exact h

theorem solvedNbrs_step {st : Maze} {u v : Nat × Nat}
    (hv1 : v.1 < st.num_rows.toNat) (hv2 : v.2 < st.num_cols.toNat)
    (hedge : edgeOpen st u v) (hs : solvedNbrs st u.1 u.2) :
    (getCell st v.1 v.2).visited = true := by
  rcases hedge with ⟨h1, h2, h3⟩ | ⟨h1, h2, h3⟩ | ⟨h1, h2, h3⟩ | ⟨h1, h2, h3⟩
  · -- v is the right neighbour of u
    have hw := (rightOpen_elim h3).1
    have := hs (Direction.right, 0, 1) (by decide)
      (show has_wall_in_direction (getCell st u.1 u.2) Direction.right = false from hw)
      (show (0 : Int) ≤ (u.1 : Int) + 0 by omega)
      (show (u.1 : Int) + 0 < st.num_rows by omega)
      (show (0 : Int) ≤ (u.2 : Int) + 1 by omega)
      (show (u.2 : Int) + 1 < st.num_cols by omega)
    have e1 : (((u.1 : Nat) : Int) + ((Direction.right, (0 : Int), (1 : Int)) :
        Direction × Int × Int).2.1).toNat = v.1 := by
      show ((u.1 : Int) + 0).toNat = v.1
      omega
    have e2 : (((u.2 : Nat) : Int) + ((Direction.right, (0 : Int), (1 : Int)) :
        Direction × Int × Int).2.2).toNat = v.2 := by
      show ((u.2 : Int) + 1).toNat = v.2
      omega
    rw [e1, e2] at this
    exact this
  · -- v is the left neighbour of u
    have hw := (rightOpen_elim h3).2
    rw [← h2] at hw
    rw [← h1] at hw
    have := hs (Direction.left, 0, -1) (by decide)
      (show has_wall_in_direction (getCell st u.1 u.2) Direction.left = false from hw)
      (show (0 : Int) ≤ (u.1 : Int) + 0 by omega)
      (show (u.1 : Int) + 0 < st.num_rows by omega)
      (show (0 : Int) ≤ (u.2 : Int) + (-1) by omega)
      (show (u.2 : Int) + (-1) < st.num_cols by omega)
    have e1 : (((u.1 : Nat) : Int) + ((Direction.left, (0 : Int), (-1 : Int)) :
        Direction × Int × Int).2.1).toNat = v.1 := by
      show ((u.1 : Int) + 0).toNat = v.1
      omega
    have e2 : (((u.2 : Nat) : Int) + ((Direction.left, (0 : Int), (-1 : Int)) :
        Direction × Int × Int).2.2).toNat = v.2 := by
      show ((u.2 : Int) + (-1)).toNat = v.2
      omega
    rw [e1, e2] at this
    exact this
  · -- v is the lower neighbour of u
    have hw := (downOpen_elim h3).1
    have := hs (Direction.down, 1, 0) (by decide)
      (show has_wall_in_direction (getCell st u.1 u.2) Direction.down = false from hw)
      (show (0 : Int) ≤ (u.1 : Int) + 1 by omega)
      (show (u.1 : Int) + 1 < st.num_rows by omega)
      (show (0 : Int) ≤ (u.2 : Int) + 0 by omega)
      (show (u.2 : Int) + 0 < st.num_cols by omega)
    have e1 : (((u.1 : Nat) : Int) + ((Direction.down, (1 : Int), (0 : Int)) :
        Direction × Int × Int).2.1).toNat = v.1 := by
      show ((u.1 : Int) + 1).toNat = v.1
      omega
    have e2 : (((u.2 : Nat) : Int) + ((Direction.down, (1 : Int), (0 : Int)) :
        Direction × Int × Int).2.2).toNat = v.2 := by
      show ((u.2 : Int) + 0).toNat = v.2
      omega
    rw [e1, e2] at this
    exact this
  · -- v is the upper neighbour of u
    have hw := (downOpen_elim h3).2
    have hu1 : u.1 = v.1 + 1 := h2
    rw [← hu1] at hw
    rw [← h1] at hw
    have := hs (Direction.up, -1, 0) (by decide)
      (show has_wall_in_direction (getCell st u.1 u.2) Direction.up = false from hw)
      (show (0 : Int) ≤ (u.1 : Int) + (-1) by omega)
      (show (u.1 : Int) + (-1) < st.num_rows by omega)
      (show (0 : Int) ≤ (u.2 : Int) + 0 by omega)
      (show (u.2 : Int) + 0 < st.num_cols by omega)
    have e1 : (((u.1 : Nat) : Int) + ((Direction.up, (-1 : Int), (0 : Int)) :
        Direction × Int × Int).2.1).toNat = v.1 := by
      show ((u.1 : Int) + (-1)).toNat = v.1
      omega
    have e2 : (((u.2 : Nat) : Int) + ((Direction.up, (-1 : Int), (0 : Int)) :
        Direction × Int × Int).2.2).toNat = v.2 := by
      show ((u.2 : Int) + 0).toNat = v.2
      omega
    rw [e1, e2] at this
    exact this

theorem solve_fresh_true {m : Maze} (hWF : WF m) (hr : 1 ≤ m.num_rows)
    (hc : 1 ≤ m.num_cols)
    (hunvis : ∀ a b, (getCell m a b).visited = false)
    (hpre : (mazeGraph m.num_rows.toNat m.num_cols.toNat m).Preconnected) :
    ∃ st2 tr, Maze.solve m = some (true, st2, tr) ∧
      (getCell st2 0 0).visited = true ∧
      (getCell st2 (m.num_rows.toNat - 1) (m.num_cols.toNat - 1)).visited = true := by
  have hsome := solve_go_isSome (6 * (m.num_rows.toNat * m.num_cols.toNat) + 6) none m 0 0
    hWF (fun _ => Or.inl (by have := unvisitedCount_le m; omega))
    (fun dirs heq => Option.noConfusion heq)
  obtain ⟨r, hrun⟩ := Option.isSome_iff_exists.mp hsome
  obtain ⟨b, st2, tr⟩ := r
  obtain ⟨w1, w2, w3, w4, w5⟩ := solve_go_frame _ none m 0 0 b st2 tr hrun hWF
  obtain ⟨vmono, vmark⟩ := solve_go_visited _ none m 0 0 b st2 tr hrun hWF
  have h00 : (getCell st2 0 0).visited = true := vmark rfl (by omega) (by omega)
  cases b with
  | false =>
    exfalso
    obtain ⟨F1, -, -⟩ := solve_go_false_inv _ none m 0 0 st2 tr hrun hWF
    have hcl : ∀ a bb, (getCell st2 a bb).visited = true → solvedNbrs st2 a bb :=
      fun a bb hv => F1 a bb hv (hunvis a bb)
    have hstep : ∀ p q : Fin m.num_rows.toNat × Fin m.num_cols.toNat,
        (mazeGraph m.num_rows.toNat m.num_cols.toNat m).Adj p q →
        (getCell st2 p.1.val p.2.val).visited = true →
        (getCell st2 q.1.val q.2.val).visited = true := by
      intro p q hadj hp
      have hedge : edgeOpen st2 (p.1.val, p.2.val) (q.1.val, q.2.val) :=
        (edgeOpen_of_walls_eq w5 _ _).mpr hadj
      refine solvedNbrs_step ?_ ?_ hedge (hcl p.1.val p.2.val hp)
      · rw [w2]; exact q.1.isLt
      · rw [w3]; exact q.2.isLt
    have hwalk : ∀ (p q : Fin m.num_rows.toNat × Fin m.num_cols.toNat)
        (w : (mazeGraph m.num_rows.toNat m.num_cols.toNat m).Walk p q),
        (getCell st2 p.1.val p.2.val).visited = true →
        (getCell st2 q.1.val q.2.val).visited = true := by
      intro p q w
      induction w with
      | nil => exact id
      | cons hadj w2 ih =>
        intro hp
        exact ih (hstep _ _ hadj hp)
    have hroot : ((⟨0, by omega⟩, ⟨0, by omega⟩) :
        Fin m.num_rows.toNat × Fin m.num_cols.toNat) =
        (⟨0, by omega⟩, ⟨0, by omega⟩) := rfl
    have hgoalvis : (getCell st2 (m.num_rows.toNat - 1)
        (m.num_cols.toNat - 1)).visited = true := by
      have hreach := hpre (⟨0, by omega⟩, ⟨0, by omega⟩)
        (⟨m.num_rows.toNat - 1, by omega⟩, ⟨m.num_cols.toNat - 1, by omega⟩)
      exact hreach.elim (fun w => hwalk _ _ w h00)
    have hgoalnot := solve_go_false_goal _ none m 0 0 st2 tr hrun hWF hr hc
      (hunvis _ _)
    rw [hgoalvis] at hgoalnot
    exact Bool.noConfusion hgoalnot
  | true =>
    exact ⟨st2, tr, hrun, h00, solve_go_true_goal _ none m 0 0 st2 tr hrun hWF hr hc⟩

/-- Spec-modelled skip test, transcribing the specification sentence "skip if a wall
blocks that direction" (spec section on the solver loop).  To be compared with the
source-translated loop of solve_go. -/
def spec_blocked (m : Maze) (i j : Nat) (c : Direction × Int × Int) : Bool :=
  has_wall_in_direction (getCell m i j) c.1

/-- Spec-modelled skip test, transcribing "skip if the neighbor is out of bounds or
already visited". -/
def spec_skip_neighbor (m : Maze) (i j : Nat) (c : Direction × Int × Int) : Bool :=
  !(decide (0 ≤ (i : Int) + c.2.1) && decide ((i : Int) + c.2.1 < m.num_rows) &&
      decide (0 ≤ (j : Int) + c.2.2) && decide ((j : Int) + c.2.2 < m.num_cols)) ||
    (getCell m ((i : Int) + c.2.1).toNat ((j : Int) + c.2.2).toNat).visited

/-- Spec-modelled direction loop, transcribing the specification sentence: for each
direction in order, skip on wall, skip on out-of-bounds-or-visited neighbour,
otherwise emit the forward move, recurse into the neighbour, propagate success
immediately, and on failure emit the undo move and continue. -/
def spec_explore : Nat → Maze → Nat → Nat → List (Direction × Int × Int) →
    Option (Bool × Maze × List SolveEvent)
  | 0, _, _, _, _ => none
  | _ + 1, st, _, _, [] => some (false, st, [])
  | fuel + 1, st, i, j, c :: rest =>
    if spec_blocked st i j c then spec_explore fuel st i j rest
    else if spec_skip_neighbor st i j c then spec_explore fuel st i j rest
    else
      match solve_go fuel none st (((i : Int) + c.2.1).toNat)
          (((j : Int) + c.2.2).toNat) with
      | none => none
      | some (ok, st1, tr1) =>
        if ok then
          some (true, st1, moveEvents st i j (((i : Int) + c.2.1).toNat)
            (((j : Int) + c.2.2).toNat) false ++ tr1)
        else
          match spec_explore fuel st1 i j rest with
          | none => none
          | some (b2, st2, tr2) =>
            some (b2, st2, moveEvents st i j (((i : Int) + c.2.1).toNat)
              (((j : Int) + c.2.2).toNat) false ++ tr1 ++
              moveEvents st1 i j (((i : Int) + c.2.1).toNat)
                (((j : Int) + c.2.2).toNat) true ++ tr2)

theorem skip_eq (st : Maze) (i j : Nat) (c : Direction × Int × Int) :
    (!(is_valid_move st i j c.2.1 c.2.2)) = spec_skip_neighbor st i j c := by
  rw [is_valid_move_eq]
  unfold spec_skip_neighbor
  cases hB : (decide (0 ≤ (i : Int) + c.2.1) && decide ((i : Int) + c.2.1 < st.num_rows) &&
      decide (0 ≤ (j : Int) + c.2.2) && decide ((j : Int) + c.2.2 < st.num_cols))
  · simp
  · simp

theorem solve_go_loop_spec : ∀ fuel st i j dirs,
    solve_go fuel (some dirs) st i j = spec_explore fuel st i j dirs := by
  intro fuel
  induction fuel with
  | zero =>
    intro st i j dirs
    rfl
  | succ fuel ih =>
    intro st i j dirs
    cases dirs with
    | nil => rfl
    | cons c rest =>
      simp only [solve_go, spec_explore, spec_blocked]
      rw [skip_eq]
      by_cases h1 : has_wall_in_direction (getCell st i j) c.1 = true
      · rw [if_pos h1, if_pos h1, ih]
      · rw [if_neg h1, if_neg h1]
        by_cases h2 : spec_skip_neighbor st i j c = true
        · rw [if_pos h2, if_pos h2, ih]
        · rw [if_neg h2, if_neg h2]
          cases hrec : solve_go fuel none st (((i : Int) + c.2.1).toNat)
              (((j : Int) + c.2.2).toNat) with
          | none => rfl
          | some r =>
            obtain ⟨ok, st1, tr1⟩ := r
            simp only []
            by_cases hok : ok = true
            · rw [if_pos hok, if_pos hok]
            · rw [if_neg hok, if_neg hok, ih st1 i j rest]

theorem solve_entry_eq (fuel : Nat) (st : Maze) (i j : Nat) :
    solve_go (fuel + 1) none st i j =
      (if (i : Int) = (markVisited st i j).num_rows - 1 ∧
          (j : Int) = (markVisited st i j).num_cols - 1 then
        some (true, markVisited st i j, animateEvents st)
      else
        match solve_go fuel (some DIRECTIONS) (markVisited st i j) i j with
        | none => none
        | some (b, st2, tr) => some (b, st2, animateEvents st ++ tr)) := rfl

theorem solve_entry_trace {fuel : Nat} {st st2 : Maze} {i j : Nat} {b : Bool}
    {tr : List SolveEvent}
    (h : solve_go fuel none st i j = some (b, st2, tr)) :
    ∃ tr1, tr = animateEvents st ++ tr1 := by
  cases fuel with
  | zero => simp [solve_go] at h
  | succ fuel =>
    rw [solve_entry_eq] at h
    by_cases hgoal : (i : Int) = (markVisited st i j).num_rows - 1 ∧
        (j : Int) = (markVisited st i j).num_cols - 1
    · rw [if_pos hgoal] at h
      simp only [Option.some.injEq, Prod.mk.injEq] at h
      refine ⟨[], ?_⟩
      rw [← h.2.2]
      rw [List.append_nil]
    · rw [if_neg hgoal] at h
      cases hrec : solve_go fuel (some DIRECTIONS) (markVisited st i j) i j with
      | none => rw [hrec] at h; simp at h
      | some r =>
        obtain ⟨b1, st1, tr1⟩ := r
        rw [hrec] at h
        simp only [Option.some.injEq, Prod.mk.injEq] at h
        exact ⟨tr1, h.2.2.symm⟩

/-- Two grids agree on everything the construction and solving logic reads: the
dimensions and, cell by cell, the four walls and the visited flag (the drawn flag,
set only when a window is attached, is excluded). -/
def CoreEq (m m2 : Maze) : Prop :=
  m.num_rows = m2.num_rows ∧ m.num_cols = m2.num_cols ∧
  ∀ a b, coreCell (getCell m a b) = coreCell (getCell m2 a b)

theorem coreCell_update_top {c c2 : Cell} (h : coreCell c = coreCell c2) :
    coreCell { c with has_top_wall := false } =
      coreCell { c2 with has_top_wall := false } := by
  unfold coreCell at h ⊢
  simp only [Prod.mk.injEq] at h ⊢
  tauto

theorem coreCell_update_bottom {c c2 : Cell} (h : coreCell c = coreCell c2) :
    coreCell { c with has_bottom_wall := false } =
      coreCell { c2 with has_bottom_wall := false } := by
  unfold coreCell at h ⊢
  simp only [Prod.mk.injEq] at h ⊢
  tauto

theorem coreCell_update_left {c c2 : Cell} (h : coreCell c = coreCell c2) :
    coreCell { c with has_left_wall := false } =
      coreCell { c2 with has_left_wall := false } := by
  unfold coreCell at h ⊢
  simp only [Prod.mk.injEq] at h ⊢
  tauto

theorem coreCell_update_right {c c2 : Cell} (h : coreCell c = coreCell c2) :
    coreCell { c with has_right_wall := false } =
      coreCell { c2 with has_right_wall := false } := by
  unfold coreCell at h ⊢
  simp only [Prod.mk.injEq] at h ⊢
  tauto

theorem coreCell_update_visited {c c2 : Cell} (h : coreCell c = coreCell c2) :
    coreCell { c with visited := true } = coreCell { c2 with visited := true } := by
  unfold coreCell at h ⊢
  simp only [Prod.mk.injEq] at h ⊢
  tauto

theorem CoreEq_setCell {m m2 : Maze} (hWF : WF m) (hWF2 : WF m2) (h : CoreEq m m2)
    (i j : Nat) {c c2 : Cell} (hcc : coreCell c = coreCell c2) :
    CoreEq (setCell m i j c) (setCell m2 i j c2) := by
  obtain ⟨h1, h2, h3⟩ := h
  refine ⟨by simp [h1], by simp [h2], ?_⟩
  intro a b
  rw [getCell_setCell hWF, getCell_setCell hWF2]
  rw [h1, h2]
  split_ifs
  · exact hcc
  · exact h3 a b

theorem CoreEq_markVisited {m m2 : Maze} (hWF : WF m) (hWF2 : WF m2)
    (h : CoreEq m m2) (i j : Nat) :
    CoreEq (markVisited m i j) (markVisited m2 i j) :=
  CoreEq_setCell hWF hWF2 h i j (coreCell_update_visited (h.2.2 i j))

theorem CoreEq_openPassage {m m2 : Maze} (hWF : WF m) (hWF2 : WF m2)
    (h : CoreEq m m2) (i j : Nat) (d : Direction) :
    CoreEq (openPassage m i j d) (openPassage m2 i j d) := by
  cases d
  · exact CoreEq_setCell (WF_setCell hWF _ _ _) (WF_setCell hWF2 _ _ _)
      (CoreEq_setCell hWF hWF2 h i j (coreCell_update_top (h.2.2 i j))) _ _
      (coreCell_update_bottom
        ((CoreEq_setCell hWF hWF2 h i j (coreCell_update_top (h.2.2 i j))).2.2 _ _))
  · exact CoreEq_setCell (WF_setCell hWF _ _ _) (WF_setCell hWF2 _ _ _)
      (CoreEq_setCell hWF hWF2 h i j (coreCell_update_bottom (h.2.2 i j))) _ _
      (coreCell_update_top
        ((CoreEq_setCell hWF hWF2 h i j (coreCell_update_bottom (h.2.2 i j))).2.2 _ _))
  · exact CoreEq_setCell (WF_setCell hWF _ _ _) (WF_setCell hWF2 _ _ _)
      (CoreEq_setCell hWF hWF2 h i j (coreCell_update_left (h.2.2 i j))) _ _
      (coreCell_update_right
        ((CoreEq_setCell hWF hWF2 h i j (coreCell_update_left (h.2.2 i j))).2.2 _ _))
  · exact CoreEq_setCell (WF_setCell hWF _ _ _) (WF_setCell hWF2 _ _ _)
      (CoreEq_setCell hWF hWF2 h i j (coreCell_update_right (h.2.2 i j))) _ _
      (coreCell_update_left
        ((CoreEq_setCell hWF hWF2 h i j (coreCell_update_right (h.2.2 i j))).2.2 _ _))

theorem CoreEq_draw_cell {m m2 : Maze} (hWF : WF m) (hWF2 : WF m2)
    (h : CoreEq m m2) (i j : Nat) :
    CoreEq (draw_cell m i j) (draw_cell m2 i j) := by
  obtain ⟨h1, h2, h3⟩ := h
  refine ⟨by simp [h1], by simp [h2], ?_⟩
  intro a b
  rw [draw_cell_coreCell hWF, draw_cell_coreCell hWF2]
  exact h3 a b

theorem to_visit_list_congr {m m2 : Maze} (h : CoreEq m m2) (i j : Nat) :
    to_visit_list m i j = to_visit_list m2 i j := by
  unfold to_visit_list
  apply List.filter_congr
  intro c hc
  obtain ⟨h1, h2, h3⟩ := h
  simp only []
  rw [h1, h2,
    coreCell_visited (h3 (((i : Int) + c.2.1).toNat) (((j : Int) + c.2.2).toNat))]

/-- Relates the outcomes of the two carve runs: both out of fuel, or both
successful with the same draw counter and core-equal, well-formed grids. -/
def carveOutRel (o o2 : Option (Maze × Nat)) : Prop :=
  (o = none ∧ o2 = none) ∨
  ∃ st st2 k, o = some (st, k) ∧ o2 = some (st2, k) ∧ CoreEq st st2 ∧ WF st ∧ WF st2

theorem break_walls_r_coreEq (rng : Nat → Nat) :
    ∀ fuel mode m m2 k i j, WF m → WF m2 → CoreEq m m2 →
      carveOutRel (break_walls_r rng fuel mode m k i j)
        (break_walls_r rng fuel mode m2 k i j) := by
  intro fuel
  induction fuel with
  | zero =>
    intro mode m m2 k i j _ _ _
    exact Or.inl ⟨rfl, rfl⟩
  | succ fuel ih =>
    intro mode m m2 k i j hWF hWF2 hCore
    cases mode
    · -- loop mode
      simp only [break_walls_r]
      rw [← to_visit_list_congr hCore i j]
      by_cases htv : (to_visit_list m i j).isEmpty = true
      · rw [if_pos htv, if_pos htv]
        exact Or.inr ⟨_, _, k, rfl, rfl, CoreEq_draw_cell hWF hWF2 hCore i j,
          WF_draw_cell hWF i j, WF_draw_cell hWF2 i j⟩
      · rw [if_neg htv, if_neg htv]
        have hWFa : WF (draw_cell (openPassage m i j
            (randomChoice rng k (to_visit_list m i j)).1) i j) :=
          WF_draw_cell (WF_openPassage hWF i j _) i j
        have hWFb : WF (draw_cell (openPassage m2 i j
            (randomChoice rng k (to_visit_list m i j)).1) i j) :=
          WF_draw_cell (WF_openPassage hWF2 i j _) i j
        have hCoreAB := CoreEq_draw_cell (WF_openPassage hWF i j _)
          (WF_openPassage hWF2 i j _) (CoreEq_openPassage hWF hWF2 hCore i j
            (randomChoice rng k (to_visit_list m i j)).1) i j
        have hrel := ih true _ _ (k + 1)
          ((((i : Int) + (randomChoice rng k (to_visit_list m i j)).2.1).toNat))
          ((((j : Int) + (randomChoice rng k (to_visit_list m i j)).2.2).toNat))
          hWFa hWFb hCoreAB
        rcases hrel with ⟨hn1, hn2⟩ | ⟨st3, st3b, k2, he1, he2, hc3, hw3, hw3b⟩
        · rw [hn1, hn2]
          exact Or.inl ⟨rfl, rfl⟩
        · rw [he1, he2]
          simp only []
          exact ih false st3 st3b k2 i j hw3 hw3b hc3
    · -- enter mode
      simp only [break_walls_r]
      exact ih false _ _ k i j (WF_markVisited hWF i j) (WF_markVisited hWF2 i j)
        (CoreEq_markVisited hWF hWF2 hCore i j)

theorem is_valid_move_congr {m m2 : Maze} (h : CoreEq m m2) (i j : Nat) (dy dx : Int) :
    is_valid_move m i j dy dx = is_valid_move m2 i j dy dx := by
  obtain ⟨h1, h2, h3⟩ := h
  rw [is_valid_move_eq, is_valid_move_eq, h1, h2,
    coreCell_visited (h3 (((i : Int) + dy).toNat) (((j : Int) + dx).toNat))]

/-- Relates the outcomes of two solver runs on core-equal grids: both out of fuel,
or both successful with the same boolean result and core-equal final grids (the
event traces are intentionally unrelated: they depend on the window). -/
def solveOutRel (o o2 : Option (Bool × Maze × List SolveEvent)) : Prop :=
  (o = none ∧ o2 = none) ∨
  ∃ b st st2 tr tr2, o = some (b, st, tr) ∧ o2 = some (b, st2, tr2) ∧
    CoreEq st st2 ∧ WF st ∧ WF st2

theorem solve_go_coreEq : ∀ fuel mode m m2 i j, WF m → WF m2 → CoreEq m m2 →
    solveOutRel (solve_go fuel mode m i j) (solve_go fuel mode m2 i j) := by
  intro fuel
  induction fuel with
  | zero =>
    intro mode m m2 i j _ _ _
    exact Or.inl ⟨rfl, rfl⟩
  | succ fuel ih =>
    intro mode m m2 i j hWF hWF2 hCore
    cases mode with
    | none =>
      simp only [solve_go]
      have hWFa : WF (markVisited m i j) := WF_markVisited hWF i j
      have hWFb : WF (markVisited m2 i j) := WF_markVisited hWF2 i j
      have hCoreM : CoreEq (markVisited m i j) (markVisited m2 i j) :=
        CoreEq_markVisited hWF hWF2 hCore i j
      have hcond : ((i : Int) = (markVisited m i j).num_rows - 1 ∧
          (j : Int) = (markVisited m i j).num_cols - 1) ↔
          ((i : Int) = (markVisited m2 i j).num_rows - 1 ∧
          (j : Int) = (markVisited m2 i j).num_cols - 1) := by
        rw [markVisited_num_rows, markVisited_num_cols, markVisited_num_rows,
          markVisited_num_cols, hCore.1, hCore.2.1]
      by_cases hgoal : (i : Int) = (markVisited m i j).num_rows - 1 ∧
          (j : Int) = (markVisited m i j).num_cols - 1
      · rw [if_pos hgoal, if_pos (hcond.mp hgoal)]
        exact Or.inr ⟨true, _, _, _, _, rfl, rfl, hCoreM, hWFa, hWFb⟩
      · rw [if_neg hgoal, if_neg (fun hx => hgoal (hcond.mpr hx))]
        have hrel := ih (some DIRECTIONS) _ _ i j hWFa hWFb hCoreM
        rcases hrel with ⟨hn1, hn2⟩ | ⟨b1, st1, st1b, tr1, tr1b, he1, he2, hc1, hw1, hw1b⟩
        · rw [hn1, hn2]
          exact Or.inl ⟨rfl, rfl⟩
        · rw [he1, he2]
          simp only []
          exact Or.inr ⟨b1, _, _, _, _, rfl, rfl, hc1, hw1, hw1b⟩
    | some dirs =>
      cases dirs with
      | nil =>
        exact Or.inr ⟨false, m, m2, [], [], rfl, rfl, hCore, hWF, hWF2⟩
      | cons c rest =>
        simp only [solve_go]
        have hwcond : has_wall_in_direction (getCell m2 i j) c.1 =
            has_wall_in_direction (getCell m i j) c.1 :=
          has_wall_congr (coreCell_wallsCell (hCore.2.2 i j)).symm c.1
        rw [hwcond, ← is_valid_move_congr hCore i j c.2.1 c.2.2]
        by_cases hwall : has_wall_in_direction (getCell m i j) c.1 = true
        · rw [if_pos hwall, if_pos hwall]
          exact ih (some rest) m m2 i j hWF hWF2 hCore
        · rw [if_neg hwall, if_neg hwall]
          by_cases hvm : (!(is_valid_move m i j c.2.1 c.2.2)) = true
          · rw [if_pos hvm, if_pos hvm]
            exact ih (some rest) m m2 i j hWF hWF2 hCore
          · rw [if_neg hvm, if_neg hvm]
            have hrel := ih none m m2 (((i : Int) + c.2.1).toNat)
              (((j : Int) + c.2.2).toNat) hWF hWF2 hCore
            rcases hrel with ⟨hn1, hn2⟩ |
              ⟨ok, st1, st1b, tr1, tr1b, he1, he2, hc1, hw1, hw1b⟩
            · rw [hn1, hn2]
              exact Or.inl ⟨rfl, rfl⟩
            · rw [he1, he2]
              simp only []
              by_cases hok : ok = true
              · rw [if_pos hok, if_pos hok]
                exact Or.inr ⟨true, _, _, _, _, rfl, rfl, hc1, hw1, hw1b⟩
              · rw [if_neg hok, if_neg hok]
                have hrel2 := ih (some rest) st1 st1b i j hw1 hw1b hc1
                rcases hrel2 with ⟨hn1, hn2⟩ |
                  ⟨b2, st3, st3b, tr2, tr2b, hf1, hf2, hc2, hwx, hwy⟩
                · rw [hn1, hn2]
                  exact Or.inl ⟨rfl, rfl⟩
                · rw [hf1, hf2]
                  simp only []
                  exact Or.inr ⟨b2, _, _, _, _, rfl, rfl, hc2, hwx, hwy⟩

theorem break_entrance_none {m1 : Maze} (hWF1 : WF m1)
    (h : m1.num_rows ≤ 0 ∨ m1.num_cols ≤ 0) :
    break_entrance_and_exit m1 = none := by
  unfold break_entrance_and_exit
  by_cases hrow : m1.num_rows ≤ 0
  · have hpy : pyGet2 m1.cells 0 0 = none := by
      unfold pyGet2 pyIdx
      rw [hWF1.1]
      have h0 : m1.num_rows.toNat = 0 := by omega
      rw [h0]
      simp
    rw [hpy]
  · have hcol : m1.num_cols ≤ 0 := by
      rcases h with h | h
      · omega
      · exact h
    have hpy : pyGet2 m1.cells 0 0 = none := by
      unfold pyGet2
      have h1 : pyIdx m1.cells.length 0 = some 0 := by
        unfold pyIdx
        rw [hWF1.1]
        rw [if_pos (le_refl (0 : Int))]
        have hlt : (0 : Int).toNat < m1.num_rows.toNat := by omega
        rw [if_pos hlt]
        rfl
      rw [h1]
      simp only []
      have hrowlen : (m1.cells.getD 0 []).length = m1.num_cols.toNat :=
        rowLen_of_WF hWF1 (by omega)
      have h2 : pyIdx (m1.cells.getD 0 []).length 0 = none := by
        unfold pyIdx
        rw [hrowlen]
        have h0 : m1.num_cols.toNat = 0 := by omega
        rw [h0]
        simp
      rw [h2]
    rw [hpy]

theorem mkMaze_invalid (win : Bool) (rows cols : Int) (seedFn : Nat → Nat → Nat)
    (rng0 : Nat → Nat) (k0 : Nat) (seed : Option Nat) (h : rows ≤ 0 ∨ cols ≤ 0) :
    mkMaze win rows cols seedFn rng0 k0 seed = none := by
  have hWF0 : WF
      { num_rows := rows, num_cols := cols, win := win,
        cells := List.replicate rows.toNat (List.replicate cols.toNat Cell.new) } :=
    initialGrid_WF win rows cols
  obtain ⟨d1, d2, d3, d4⟩ := drawAllCells_facts
    { num_rows := rows, num_cols := cols, win := win,
      cells := List.replicate rows.toNat (List.replicate cols.toNat Cell.new) }
  have hWF1 := d4 hWF0
  have hbr : break_entrance_and_exit (drawAllCells
      { num_rows := rows, num_cols := cols, win := win,
        cells := List.replicate rows.toNat (List.replicate cols.toNat Cell.new) }) =
      none := by
    apply break_entrance_none hWF1
    rw [d1, d2]
    exact h
  unfold mkMaze
  simp only []
  rw [hbr]

theorem wallsCell_update_left_noop {c : Cell} (h : c.has_left_wall = false) :
    wallsCell { c with has_left_wall := false } = wallsCell c := by
  unfold wallsCell
  rw [h]

theorem wallsCell_update_right_noop {c : Cell} (h : c.has_right_wall = false) :
    wallsCell { c with has_right_wall := false } = wallsCell c := by
  unfold wallsCell
  rw [h]

theorem break_entrance_idem {m : Maze} (hWF : WF m) (hr : 1 ≤ m.num_rows)
    (hc : 1 ≤ m.num_cols)
    (hleft : (getCell m 0 0).has_left_wall = false)
    (hright : (getCell m (m.num_rows.toNat - 1)
      (m.num_cols.toNat - 1)).has_right_wall = false) :
    ∃ mz, break_entrance_and_exit m = some mz ∧
      (∀ a b, wallsCell (getCell mz a b) = wallsCell (getCell m a b)) ∧
      (∀ a b, (getCell mz a b).visited = (getCell m a b).visited) := by
  set c1 : Cell := { getCell m 0 0 with has_left_wall := false } with hc1d
  set s1 := setCell m 0 0 c1 with hs1d
  set s2 := draw_cell s1 0 0 with hs2d
  set c2 : Cell := { getCell s2 (m.num_rows.toNat - 1) (m.num_cols.toNat - 1) with
    has_right_wall := false } with hc2d
  set s3 := setCell s2 (m.num_rows.toNat - 1) (m.num_cols.toNat - 1) c2 with hs3d
  set mz := draw_cell s3 (m.num_rows.toNat - 1) (m.num_cols.toNat - 1) with hmzd
  have hWFs1 : WF s1 := by rw [hs1d]; exact WF_setCell hWF _ _ _
  have hWFs2 : WF s2 := by rw [hs2d]; exact WF_draw_cell hWFs1 _ _
  have hWFs3 : WF s3 := by rw [hs3d]; exact WF_setCell hWFs2 _ _ _
  refine ⟨mz, break_entrance_eq hWF hr hc, ?_⟩
  have hW1 : ∀ a b, wallsCell (getCell s1 a b) = wallsCell (getCell m a b) := by
    intro a b
    rw [hs1d, getCell_setCell hWF]
    split_ifs with hcnd
    · obtain ⟨ha, hb, -, -⟩ := hcnd
      subst ha
      subst hb
      rw [hc1d]
      exact wallsCell_update_left_noop hleft
    · rfl
  have hV1 : ∀ a b, (getCell s1 a b).visited = (getCell m a b).visited := by
    intro a b
    rw [hs1d, getCell_setCell hWF]
    split_ifs with hcnd
    · obtain ⟨ha, hb, -, -⟩ := hcnd
      subst ha
      subst hb
      rw [hc1d]
    · rfl
  have hW2 : ∀ a b, wallsCell (getCell s2 a b) = wallsCell (getCell m a b) := by
    intro a b
    rw [hs2d, coreCell_wallsCell (draw_cell_coreCell hWFs1 0 0 a b)]
    exact hW1 a b
  have hV2 : ∀ a b, (getCell s2 a b).visited = (getCell m a b).visited := by
    intro a b
    rw [hs2d, coreCell_visited (draw_cell_coreCell hWFs1 0 0 a b)]
    exact hV1 a b
  have hr2 : (getCell s2 (m.num_rows.toNat - 1)
      (m.num_cols.toNat - 1)).has_right_wall = false := by
    rw [wallsCell_right (hW2 _ _)]
    exact hright
  have hW3 : ∀ a b, wallsCell (getCell s3 a b) = wallsCell (getCell m a b) := by
    intro a b
    rw [hs3d, getCell_setCell hWFs2]
    split_ifs with hcnd
    · obtain ⟨ha, hb, -, -⟩ := hcnd
      subst ha
      subst hb
      rw [hc2d, wallsCell_update_right_noop hr2]
      exact hW2 _ _
    · exact hW2 a b
  have hV3 : ∀ a b, (getCell s3 a b).visited = (getCell m a b).visited := by
    intro a b
    rw [hs3d, getCell_setCell hWFs2]
    split_ifs with hcnd
    · obtain ⟨ha, hb, -, -⟩ := hcnd
      subst ha
      subst hb
      rw [hc2d]
      exact hV2 _ _
    · exact hV2 a b
  constructor
  · intro a b
    rw [hmzd, coreCell_wallsCell (draw_cell_coreCell hWFs3 _ _ a b)]
    exact hW3 a b
  · intro a b
    rw [hmzd, coreCell_visited (draw_cell_coreCell hWFs3 _ _ a b)]
    exact hV3 a b

theorem coreCell_ext {c c2 : Cell} (h1 : c.has_left_wall = c2.has_left_wall)
    (h2 : c.has_right_wall = c2.has_right_wall)
    (h3 : c.has_top_wall = c2.has_top_wall)
    (h4 : c.has_bottom_wall = c2.has_bottom_wall)
    (h5 : c.visited = c2.visited) : coreCell c = coreCell c2 := by
  unfold coreCell
  rw [h1, h2, h3, h4, h5]

theorem coreCell_update_unvisited {c c2 : Cell} (h : coreCell c = coreCell c2) :
    coreCell { c with visited := false } = coreCell { c2 with visited := false } := by
  unfold coreCell at h ⊢
  simp only [Prod.mk.injEq] at h ⊢
  tauto

theorem CoreEq_reset {m m2 : Maze} (hWF : WF m) (hWF2 : WF m2) (h : CoreEq m m2) :
    CoreEq (reset_cells_visited m) (reset_cells_visited m2) := by
  obtain ⟨h1, h2, h3⟩ := h
  obtain ⟨r1, r2, -, -⟩ := reset_facts m
  obtain ⟨q1, q2, -, -⟩ := reset_facts m2
  refine ⟨by rw [r1, q1, h1], by rw [r2, q2, h2], ?_⟩
  intro a b
  rw [getCell_reset hWF, getCell_reset hWF2, h1, h2]
  split_ifs
  · exact coreCell_update_unvisited (h3 a b)
  · exact h3 a b

theorem mkMaze_win_rel (win1 win2 : Bool) (rows cols : Int) (seedFn : Nat → Nat → Nat)
    (rng : Nat → Nat) (k : Nat) (hr : 1 ≤ rows) (hc : 1 ≤ cols) :
    ∃ mA mB, mkMaze win1 rows cols seedFn rng k none = some mA ∧
      mkMaze win2 rows cols seedFn rng k none = some mB ∧
      CoreEq mA mB ∧ WF mA ∧ WF mB := by
  obtain ⟨m2a, hbrA, hWFa, hra, hca, hwina, hva, htopa, hbota, hlefta, hrightaa⟩ :=
    entrance_state_facts win1 rows cols hr hc
  obtain ⟨m2b, hbrB, hWFb, hrb, hcb, hwinb, hvb, htopb, hbotb, hleftb, hrightbb⟩ :=
    entrance_state_facts win2 rows cols hr hc
  have hCore2 : CoreEq m2a m2b := by
    refine ⟨by rw [hra, hrb], by rw [hca, hcb], ?_⟩
    intro a b
    refine coreCell_ext ?_ ?_ ?_ ?_ ?_
    · rw [hlefta a b, hleftb a b]
    · rw [hrightaa a b, hrightbb a b]
    · rw [htopa a b, htopb a b]
    · rw [hbota a b, hbotb a b]
    · rw [hva a b, hvb a b]
  have hb0r : 0 < m2a.num_rows.toNat := by rw [hra]; omega
  have hb0c : 0 < m2a.num_cols.toNat := by rw [hca]; omega
  have hfuel : 2 * unvisitedCount m2a ≤ 2 * (rows.toNat * cols.toNat) + 2 := by
    have h1 := unvisitedCount_le m2a
    rw [hra, hca] at h1
    omega
  have hsomeA := break_walls_r_isSome rng (2 * (rows.toNat * cols.toNat) + 2) true m2a
    k 0 0 hWFa hb0r hb0c (fun _ => ⟨hva 0 0, hfuel⟩) (fun hx => absurd hx (by decide))
  obtain ⟨stA, hcarveA⟩ := Option.isSome_iff_exists.mp hsomeA
  obtain ⟨m3a, k3a⟩ := stA
  have hrel := break_walls_r_coreEq rng (2 * (rows.toNat * cols.toNat) + 2) true m2a
    m2b k 0 0 hWFa hWFb hCore2
  rcases hrel with ⟨hn1, hn2⟩ | ⟨st, st2, kk, he1, he2, hc3, hw3, hw3b⟩
  · rw [hcarveA] at hn1
    exact Option.noConfusion hn1
  · rw [hcarveA] at he1
    have hinj := he1
    simp only [Option.some.injEq, Prod.mk.injEq] at hinj
    obtain ⟨hst1, hst2⟩ := hinj
    subst hst1
    subst hst2
    obtain ⟨-, -, -, hWFr⟩ := reset_facts m3a
    obtain ⟨-, -, -, hWFr2⟩ := reset_facts st2
    refine ⟨reset_cells_visited m3a, reset_cells_visited st2, ?_, ?_,
      CoreEq_reset hw3 hw3b hc3, hWFr hw3, hWFr2 hw3b⟩
    · unfold mkMaze
      simp only []
      rw [hbrA]
      simp only []
      rw [hcarveA]
    · unfold mkMaze
      simp only []
      rw [hbrB]
      simp only []
      rw [he2]

theorem solve_coreEq {mA mB : Maze} (hWFa : WF mA) (hWFb : WF mB)
    (hCore : CoreEq mA mB) :
    solveOutRel (Maze.solve mA) (Maze.solve mB) := by
  unfold Maze.solve
  rw [← hCore.1, ← hCore.2.1]
  exact solve_go_coreEq _ none mA mB 0 0 hWFa hWFb hCore

theorem initialGrid_consistent (win : Bool) (rows cols : Int) :
    consistentM { num_rows := rows, num_cols := cols, win := win,
                  cells := List.replicate rows.toNat (List.replicate cols.toNat Cell.new) } := by
  constructor
  · intro i j hi hj
    rw [initialGrid_getCell, initialGrid_getCell]
    rfl
  · intro i j hi hj
    rw [initialGrid_getCell, initialGrid_getCell]
    rfl

theorem entrance_consistent (win : Bool) (rows cols : Int) (hr : 1 ≤ rows)
    (hc : 1 ≤ cols) :
    ∃ m2, break_entrance_and_exit (drawAllCells
      { num_rows := rows, num_cols := cols, win := win,
        cells := List.replicate rows.toNat (List.replicate cols.toNat Cell.new) }) =
      some m2 ∧ consistentM m2 := by
  obtain ⟨m2, hbr, hWF2, hnr2, hnc2, hwin2, hv2, htop2, hbot2, hleft2, hright2⟩ :=
    entrance_state_facts win rows cols hr hc
  refine ⟨m2, hbr, ?_, ?_⟩
  · intro i j hi hj
    rw [hnc2] at hj
    rw [hright2 i j, hleft2 i (j + 1)]
    rw [if_neg (fun hx => by omega : ¬(i = rows.toNat - 1 ∧ j = cols.toNat - 1)),
      if_neg (fun hx => by omega : ¬(i = 0 ∧ j + 1 = 0))]
  · intro i j hi hj
    rw [hbot2 i j, htop2 (i + 1) j]

theorem solve_go_consistent (fuel : Nat) (mode : Option (List (Direction × Int × Int)))
    (st : Maze) (i j : Nat) (b : Bool) (st2 : Maze) (tr : List SolveEvent)
    (h : solve_go fuel mode st i j = some (b, st2, tr)) (hWF : WF st)
    (hcons : consistentM st) : consistentM st2 := by
  obtain ⟨w1, w2, w3, w4, w5⟩ := solve_go_frame fuel mode st i j b st2 tr h hWF
  exact consistentM_of_walls_eq w2 w3 w5 hcons

theorem mkMaze_consistent (win : Bool) (rows cols : Int) (seedFn : Nat → Nat → Nat)
    (rng0 : Nat → Nat) (k0 : Nat) (seed : Option Nat) (hr : 1 ≤ rows)
    (hc : 1 ≤ cols) :
    ∃ m, mkMaze win rows cols seedFn rng0 k0 seed = some m ∧ consistentM m := by
  obtain ⟨m, h1, -, -, -, -, -, hcons, -⟩ :=
    mkMaze_spec win rows cols seedFn rng0 k0 seed hr hc
  exact ⟨m, h1, hcons⟩

/-! ### The ten claims -/

/-- A one-by-one grid with no window, used to exercise the solver at a concrete
input. -/
def sample1 : Maze :=
  { num_rows := 1, num_cols := 1, cells := [[Cell.new]], win := false }

/-- The grid sample1 after the solver has marked its only cell visited. -/
def sample1v : Maze :=
  { num_rows := 1, num_cols := 1, cells := [[{ Cell.new with visited := true }]],
    win := false }

theorem sample1_WF : WF sample1 := by
  constructor
  · rfl
  · intro row hrow
    simp only [sample1, List.mem_singleton] at hrow
    subst hrow
    rfl

/-- C1: for every numRows ≥ 1, numCols ≥ 1 and every seed, construction succeeds
and the open interior adjacencies form a spanning tree on the numRows × numCols
cells — the graph is a tree, it has exactly numRows·numCols − 1 open interior
walls, every cell is reachable from (0, 0) — and on the boundary exactly two
walls are removed: the left wall of (0, 0) and the right wall of
(numRows − 1, numCols − 1). -/
theorem C1_spanning_tree (win : Bool) (rows cols : Int) (seedFn : Nat → Nat → Nat)
    (rng0 : Nat → Nat) (k0 : Nat) (seed : Option Nat)
    (hr : 1 ≤ rows) (hc : 1 ≤ cols) :
    ∃ m, mkMaze win rows cols seedFn rng0 k0 seed = some m ∧
      (mazeGraph rows.toNat cols.toNat m).IsTree ∧
      (mazeGraph rows.toNat cols.toNat m).edgeFinset.card =
        rows.toNat * cols.toNat - 1 ∧
      (∀ p : Fin rows.toNat × Fin cols.toNat,
        (mazeGraph rows.toNat cols.toNat m).Reachable
          (⟨0, by omega⟩, ⟨0, by omega⟩) p) ∧
      (∀ b, (getCell m 0 b).has_top_wall = true) ∧
      (∀ b, (getCell m (rows.toNat - 1) b).has_bottom_wall = true) ∧
      (∀ a, (getCell m a 0).has_left_wall = (if a = 0 then false else true)) ∧
      (∀ a, (getCell m a (cols.toNat - 1)).has_right_wall =
        (if a = rows.toNat - 1 then false else true)) := by
  obtain ⟨m, hm, hWF, hmr, hmc, hmw, hunvis, hcons, htree, hb1, hb2, hb3, hb4⟩ :=
    mkMaze_spec win rows cols seedFn rng0 k0 seed hr hc
  refine ⟨m, hm, htree, ?_, ?_, hb1, hb2, hb3, hb4⟩
  · have hcard := htree.card_edgeFinset
    rw [Fintype.card_prod, Fintype.card_fin, Fintype.card_fin] at hcard
    omega
  · intro p
    exact htree.isConnected.preconnected _ p

/-- C1 witness at a concrete 2 × 2 maze with seed 5. -/
theorem C1_spanning_tree_witness : (1 : Int) ≤ 2 ∧
    ∃ m, mkMaze true 2 2 (fun s k => s + k) (fun _ => 0) 0 (some 5) = some m ∧
      (mazeGraph 2 2 m).IsTree ∧
      (mazeGraph 2 2 m).edgeFinset.card = 2 * 2 - 1 ∧
      (∀ p : Fin 2 × Fin 2,
        (mazeGraph 2 2 m).Reachable (⟨0, by omega⟩, ⟨0, by omega⟩) p) ∧
      (∀ b, (getCell m 0 b).has_top_wall = true) ∧
      (∀ b, (getCell m 1 b).has_bottom_wall = true) ∧
      (∀ a, (getCell m a 0).has_left_wall = (if a = 0 then false else true)) ∧
      (∀ a, (getCell m a 1).has_right_wall = (if a = 1 then false else true)) :=
  ⟨by decide, C1_spanning_tree true 2 2 (fun s k => s + k) (fun _ => 0) 0 (some 5)
    (by decide) (by decide)⟩

/-- C2: on every freshly constructed maze the depth-first solver returns True and
its final state has both the start cell (0, 0) and the goal cell
(numRows − 1, numCols − 1) marked visited. -/
theorem C2_solve_succeeds (win : Bool) (rows cols : Int) (seedFn : Nat → Nat → Nat)
    (rng0 : Nat → Nat) (k0 : Nat) (seed : Option Nat)
    (hr : 1 ≤ rows) (hc : 1 ≤ cols) :
    ∃ m st2 tr, mkMaze win rows cols seedFn rng0 k0 seed = some m ∧
      Maze.solve m = some (true, st2, tr) ∧
      (getCell st2 0 0).visited = true ∧
      (getCell st2 (rows.toNat - 1) (cols.toNat - 1)).visited = true := by
  obtain ⟨m, hm, hWF, hmr, hmc, hmw, hunvis, hcons, htree, -, -, -, -⟩ :=
    mkMaze_spec win rows cols seedFn rng0 k0 seed hr hc
  have hpre : (mazeGraph m.num_rows.toNat m.num_cols.toNat m).Preconnected := by
    rw [hmr, hmc]
    exact htree.isConnected.preconnected
  obtain ⟨st2, tr, hsolve, h00, hgoal⟩ := solve_fresh_true hWF
    (by rw [hmr]; exact hr) (by rw [hmc]; exact hc) hunvis hpre
  refine ⟨m, st2, tr, hm, hsolve, h00, ?_⟩
  rw [hmr, hmc] at hgoal
  exact hgoal

/-- C2 witness at a concrete 2 × 2 maze with seed 5. -/
theorem C2_solve_succeeds_witness : (1 : Int) ≤ 2 ∧
    ∃ m st2 tr, mkMaze true 2 2 (fun s k => s + k) (fun _ => 0) 0 (some 5) = some m ∧
      Maze.solve m = some (true, st2, tr) ∧
      (getCell st2 0 0).visited = true ∧
      (getCell st2 1 1).visited = true :=
  ⟨by decide, C2_solve_succeeds true 2 2 (fun s k => s + k) (fun _ => 0) 0 (some 5)
    (by decide) (by decide)⟩

/-- C3: shared-wall consistency holds at every point of construction and solving:
the freshly allocated grid is consistent, the entrance/exit step yields a
consistent grid, a carve step through a to-visit direction opens the wall on both
cells in the same step and keeps consistency, the whole carve keeps consistency,
the constructed maze is consistent, and the solver keeps consistency. -/
theorem C3_shared_wall_consistency :
    (∀ (win : Bool) (rows cols : Int), consistentM
      { num_rows := rows, num_cols := cols, win := win,
        cells := List.replicate rows.toNat (List.replicate cols.toNat Cell.new) }) ∧
    (∀ (win : Bool) (rows cols : Int), 1 ≤ rows → 1 ≤ cols →
      ∃ m2, break_entrance_and_exit (drawAllCells
        { num_rows := rows, num_cols := cols, win := win,
          cells := List.replicate rows.toNat (List.replicate cols.toNat Cell.new) }) =
        some m2 ∧ consistentM m2) ∧
    (∀ (m : Maze) (i j : Nat) (c : Direction × Int × Int), WF m →
      i < m.num_rows.toNat → j < m.num_cols.toNat → c ∈ to_visit_list m i j →
      consistentM m → consistentM (openPassage m i j c.1)) ∧
    (∀ (rng : Nat → Nat) (fuel : Nat) (mode : Bool) (st : Maze) (k i j : Nat)
      (st2 : Maze) (k2 : Nat), break_walls_r rng fuel mode st k i j = some (st2, k2) →
      WF st → i < st.num_rows.toNat → j < st.num_cols.toNat →
      consistentM st → consistentM st2) ∧
    (∀ (win : Bool) (rows cols : Int) (seedFn : Nat → Nat → Nat) (rng0 : Nat → Nat)
      (k0 : Nat) (seed : Option Nat), 1 ≤ rows → 1 ≤ cols →
      ∃ m, mkMaze win rows cols seedFn rng0 k0 seed = some m ∧ consistentM m) ∧
    (∀ (fuel : Nat) (mode : Option (List (Direction × Int × Int))) (st : Maze)
      (i j : Nat) (b : Bool) (st2 : Maze) (tr : List SolveEvent),
      solve_go fuel mode st i j = some (b, st2, tr) → WF st →
      consistentM st → consistentM st2) := by
  refine ⟨initialGrid_consistent, entrance_consistent, ?_, ?_, mkMaze_consistent,
    solve_go_consistent⟩
  · intro m i j c hWF hi hj hmem hcons
    exact consistentM_openPassage_tv hWF hi hj hmem hcons
  · intro rng fuel mode st k i j st2 k2 h hWF hi hj hcons
    exact (break_walls_r_walls rng fuel mode st k i j st2 k2 h hWF hi hj).2 hcons

/-- C4: with a fixed seed, two constructions with the same dimensions produce
identical wall configurations, whatever the ambient random-stream state and the
window of each run. -/
theorem C4_seed_determinism (win1 win2 : Bool) (rows cols : Int)
    (seedFn : Nat → Nat → Nat) (rngA rngB : Nat → Nat) (kA kB : Nat) (S : Nat)
    (hr : 1 ≤ rows) (hc : 1 ≤ cols) :
    ∃ mA mB, mkMaze win1 rows cols seedFn rngA kA (some S) = some mA ∧
      mkMaze win2 rows cols seedFn rngB kB (some S) = some mB ∧
      (∀ a b, wallsCell (getCell mA a b) = wallsCell (getCell mB a b)) := by
  have hA : mkMaze win1 rows cols seedFn rngA kA (some S) =
      mkMaze win1 rows cols seedFn (seedFn S) 0 none := rfl
  have hB : mkMaze win2 rows cols seedFn rngB kB (some S) =
      mkMaze win2 rows cols seedFn (seedFn S) 0 none := rfl
  rw [hA, hB]
  obtain ⟨mA, mB, hmA, hmB, hCore, -, -⟩ :=
    mkMaze_win_rel win1 win2 rows cols seedFn (seedFn S) 0 hr hc
  exact ⟨mA, mB, hmA, hmB, fun a b => coreCell_wallsCell (hCore.2.2 a b)⟩

/-- C4 witness: two concrete runs with seed 7, different ambient streams. -/
theorem C4_seed_determinism_witness : (1 : Int) ≤ 2 ∧
    ∃ mA mB, mkMaze true 2 2 (fun s k => s + k) (fun _ => 1) 3 (some 7) = some mA ∧
      mkMaze false 2 2 (fun s k => s + k) (fun _ => 9) 8 (some 7) = some mB ∧
      (∀ a b, wallsCell (getCell mA a b) = wallsCell (getCell mB a b)) :=
  ⟨by decide, C4_seed_determinism true false 2 2 (fun s k => s + k) (fun _ => 1)
    (fun _ => 9) 3 8 7 (by decide) (by decide)⟩

/-- C5: the solver loop tries the four directions in exactly the order down,
right, up, left; it skips a direction on a wall or an out-of-bounds or visited
neighbour, propagates success immediately, and emits the undo move before the
next direction — stated as equality with a loop transcribed from the
specification's sentence, and entered on DIRECTIONS by every non-goal call. -/
theorem C5_direction_order :
    DIRECTIONS = [(Direction.down, 1, 0), (Direction.right, 0, 1),
      (Direction.up, -1, 0), (Direction.left, 0, -1)] ∧
    (∀ fuel st i j dirs,
      solve_go fuel (some dirs) st i j = spec_explore fuel st i j dirs) ∧
    (∀ (fuel : Nat) (st : Maze) (i j : Nat),
      ¬((i : Int) = (markVisited st i j).num_rows - 1 ∧
        (j : Int) = (markVisited st i j).num_cols - 1) →
      solve_go (fuel + 1) none st i j =
        match spec_explore fuel (markVisited st i j) i j DIRECTIONS with
        | none => none
        | some (b, st2, tr) => some (b, st2, animateEvents st ++ tr)) := by
  refine ⟨rfl, solve_go_loop_spec, ?_⟩
  intro fuel st i j hng
  rw [solve_entry_eq, if_neg hng, solve_go_loop_spec]

/-- C6: a construction-and-solve run with no window attached ends in the same
wall configuration, the same visited flags and the same solve result as a run
with a window: the drawing sink has no grid-affecting behaviour. -/
theorem C6_sink_no_grid_effect (rows cols : Int) (seedFn : Nat → Nat → Nat)
    (rng0 : Nat → Nat) (k0 : Nat) (seed : Option Nat)
    (hr : 1 ≤ rows) (hc : 1 ≤ cols) :
    ∃ mA mB, mkMaze false rows cols seedFn rng0 k0 seed = some mA ∧
      mkMaze true rows cols seedFn rng0 k0 seed = some mB ∧
      (∀ a b, wallsCell (getCell mA a b) = wallsCell (getCell mB a b)) ∧
      (∀ a b, (getCell mA a b).visited = (getCell mB a b).visited) ∧
      ∃ stA stB trA trB, Maze.solve mA = some (true, stA, trA) ∧
        Maze.solve mB = some (true, stB, trB) ∧
        (∀ a b, (getCell stA a b).visited = (getCell stB a b).visited) := by
  obtain ⟨rngV, kV, hA, hB⟩ : ∃ rngV kV,
      mkMaze false rows cols seedFn rng0 k0 seed =
        mkMaze false rows cols seedFn rngV kV none ∧
      mkMaze true rows cols seedFn rng0 k0 seed =
        mkMaze true rows cols seedFn rngV kV none := by
    cases seed with
    | none => exact ⟨rng0, k0, rfl, rfl⟩
    | some s => exact ⟨seedFn s, 0, rfl, rfl⟩
  rw [hA, hB]
  obtain ⟨mA, mB, hmA, hmB, hCore, hWFa, hWFb⟩ :=
    mkMaze_win_rel false true rows cols seedFn rngV kV hr hc
  obtain ⟨mx, hmx, hWFx, hrx, hcx, hwx, hunvisx, hconsx, htreex, -, -, -, -⟩ :=
    mkMaze_spec false rows cols seedFn rngV kV none hr hc
  have hmm : mx = mA := Option.some.inj (hmx.symm.trans hmA)
  subst hmm
  have hpre : (mazeGraph mx.num_rows.toNat mx.num_cols.toNat mx).Preconnected := by
    rw [hrx, hcx]
    exact htreex.isConnected.preconnected
  obtain ⟨stA, trA, hsolveA, -, -⟩ := solve_fresh_true hWFx
    (by rw [hrx]; exact hr) (by rw [hcx]; exact hc) hunvisx hpre
  have hrel := solve_coreEq hWFx hWFb hCore
  rcases hrel with ⟨hn1, -⟩ | ⟨bb, s1, s2, t1, t2, he1, he2, hcs, -, -⟩
  · rw [hsolveA] at hn1
    exact Option.noConfusion hn1
  · rw [hsolveA] at he1
    have hinj := he1
    simp only [Option.some.injEq, Prod.mk.injEq] at hinj
    obtain ⟨hb1, hs1, ht1⟩ := hinj
    refine ⟨mx, mB, hmA, hmB, ?_, ?_, stA, s2, trA, t2, hsolveA, ?_, ?_⟩
    · intro a b
      exact coreCell_wallsCell (hCore.2.2 a b)
    · intro a b
      exact coreCell_visited (hCore.2.2 a b)
    · rw [he2, ← hb1]
    · intro a b
      rw [hs1]
      exact coreCell_visited (hcs.2.2 a b)

/-- C6 witness at a concrete 2 × 2 maze with seed 5. -/
theorem C6_sink_no_grid_effect_witness : (1 : Int) ≤ 2 ∧
    ∃ mA mB, mkMaze false 2 2 (fun s k => s + k) (fun _ => 0) 0 (some 5) = some mA ∧
      mkMaze true 2 2 (fun s k => s + k) (fun _ => 0) 0 (some 5) = some mB ∧
      (∀ a b, wallsCell (getCell mA a b) = wallsCell (getCell mB a b)) ∧
      (∀ a b, (getCell mA a b).visited = (getCell mB a b).visited) ∧
      ∃ stA stB trA trB, Maze.solve mA = some (true, stA, trA) ∧
        Maze.solve mB = some (true, stB, trB) ∧
        (∀ a b, (getCell stA a b).visited = (getCell stB a b).visited) :=
  ⟨by decide, C6_sink_no_grid_effect 2 2 (fun s k => s + k) (fun _ => 0) 0 (some 5)
    (by decide) (by decide)⟩

/-- C7: a solve() call leaves the grid dimensions and every wall flag of every
cell exactly as they were: it changes only visited flags. -/
theorem C7_solve_frame (m : Maze) (b : Bool) (st2 : Maze) (tr : List SolveEvent)
    (hWF : WF m) (h : Maze.solve m = some (b, st2, tr)) :
    st2.num_rows = m.num_rows ∧ st2.num_cols = m.num_cols ∧
    (∀ a bb, wallsCell (getCell st2 a bb) = wallsCell (getCell m a bb)) := by
  have h2 : solve_go (6 * (m.num_rows.toNat * m.num_cols.toNat) + 6) none m 0 0 =
      some (b, st2, tr) := h
  obtain ⟨w1, w2, w3, w4, w5⟩ := solve_go_frame _ none m 0 0 b st2 tr h2 hWF
  exact ⟨w2, w3, w5⟩

/-- C7 witness on the one-cell grid. -/
theorem C7_solve_frame_witness : WF sample1 ∧
    Maze.solve sample1 = some (true, sample1v, []) ∧
    (sample1v.num_rows = sample1.num_rows ∧ sample1v.num_cols = sample1.num_cols ∧
      ∀ a bb, wallsCell (getCell sample1v a bb) = wallsCell (getCell sample1 a bb)) :=
  ⟨sample1_WF, by decide,
    C7_solve_frame sample1 true sample1v [] sample1_WF (by decide)⟩

/-- C8: with a non-positive row or column count, construction fails at once and
no Maze value is returned. -/
theorem C8_invalid_dimensions (win : Bool) (rows cols : Int)
    (seedFn : Nat → Nat → Nat) (rng0 : Nat → Nat) (k0 : Nat) (seed : Option Nat)
    (h : rows ≤ 0 ∨ cols ≤ 0) :
    mkMaze win rows cols seedFn rng0 k0 seed = none :=
  mkMaze_invalid win rows cols seedFn rng0 k0 seed h

/-- C8 witness: zero rows. -/
theorem C8_invalid_dimensions_witness : ((0 : Int) ≤ 0 ∨ (3 : Int) ≤ 0) ∧
    mkMaze true 0 3 (fun s k => s + k) (fun _ => 0) 0 none = none :=
  ⟨Or.inl (by decide), C8_invalid_dimensions true 0 3 (fun s k => s + k)
    (fun _ => 0) 0 none (Or.inl (by decide))⟩

/-- C9: a solver entry marks the current cell visited and emits the visited
notification before any further work: the emitted trace starts with the animate
events of the entry state, the final state has the cell visited, and the entry
equation shows the goal test and the direction loop both run on the grid already
marked at (i, j), after the notification. -/
theorem C9_preorder_visit (fuel : Nat) (st : Maze) (i j : Nat) (b : Bool)
    (st2 : Maze) (tr : List SolveEvent) (hWF : WF st) (hi : i < st.num_rows.toNat)
    (hj : j < st.num_cols.toNat)
    (h : solve_go (fuel + 1) none st i j = some (b, st2, tr)) :
    (∃ tr1, tr = animateEvents st ++ tr1) ∧
    (getCell st2 i j).visited = true ∧
    solve_go (fuel + 1) none st i j =
      (if (i : Int) = (markVisited st i j).num_rows - 1 ∧
          (j : Int) = (markVisited st i j).num_cols - 1 then
        some (true, markVisited st i j, animateEvents st)
      else
        match solve_go fuel (some DIRECTIONS) (markVisited st i j) i j with
        | none => none
        | some (b2, st3, tr3) => some (b2, st3, animateEvents st ++ tr3)) := by
  refine ⟨solve_entry_trace h, ?_, solve_entry_eq fuel st i j⟩
  exact (solve_go_visited (fuel + 1) none st i j b st2 tr h hWF).2 rfl hi hj

/-- C9 witness on the one-cell grid. -/
theorem C9_preorder_visit_witness : WF sample1 ∧ 0 < sample1.num_rows.toNat ∧
    (getCell sample1v 0 0).visited = true :=
  ⟨sample1_WF, by decide,
    (C9_preorder_visit 11 sample1 0 0 true sample1v [] sample1_WF (by decide)
      (by decide) (by decide)).2.1⟩

/-- C10: running _break_entrance_and_exit again on a constructed maze, as main()
does, changes no wall flag and no visited flag: the walls it assigns False are
already False. -/
theorem C10_break_entrance_idempotent (win : Bool) (rows cols : Int)
    (seedFn : Nat → Nat → Nat) (rng0 : Nat → Nat) (k0 : Nat) (seed : Option Nat)
    (hr : 1 ≤ rows) (hc : 1 ≤ cols) :
    ∃ m mz, mkMaze win rows cols seedFn rng0 k0 seed = some m ∧
      break_entrance_and_exit m = some mz ∧
      (∀ a b, wallsCell (getCell mz a b) = wallsCell (getCell m a b)) ∧
      (∀ a b, (getCell mz a b).visited = (getCell m a b).visited) := by
  obtain ⟨m, hm, hWF, hmr, hmc, hmw, hunvis, hcons, htree, hb1, hb2, hb3, hb4⟩ :=
    mkMaze_spec win rows cols seedFn rng0 k0 seed hr hc
  have hleft : (getCell m 0 0).has_left_wall = false := by
    have h3 := hb3 0
    rw [if_pos rfl] at h3
    exact h3
  have hright : (getCell m (m.num_rows.toNat - 1)
      (m.num_cols.toNat - 1)).has_right_wall = false := by
    have h4 := hb4 (rows.toNat - 1)
    rw [if_pos rfl] at h4
    rw [hmr, hmc]
    exact h4
  obtain ⟨mz, hbz, hw, hv⟩ := break_entrance_idem hWF (by rw [hmr]; exact hr)
    (by rw [hmc]; exact hc) hleft hright
  exact ⟨m, mz, hm, hbz, hw, hv⟩

/-- C10 witness at a concrete 2 × 2 maze with seed 5. -/
theorem C10_break_entrance_idempotent_witness : (1 : Int) ≤ 2 ∧
    ∃ m mz, mkMaze true 2 2 (fun s k => s + k) (fun _ => 0) 0 (some 5) = some m ∧
      break_entrance_and_exit m = some mz ∧
      (∀ a b, wallsCell (getCell mz a b) = wallsCell (getCell m a b)) ∧
      (∀ a b, (getCell mz a b).visited = (getCell m a b).visited) :=
  ⟨by decide, C10_break_entrance_idempotent true 2 2 (fun s k => s + k)
    (fun _ => 0) 0 (some 5) (by decide) (by decide)⟩

end MazeSolver
